import Mathlib

/-!
Shallow embedding of the `fi` archetype ECS from `src/anthropic_ecs.h`.

Modelling conventions:
* Component types are identified by their index in the compile-time universe
  `SetOfAllComponents...` (a `Nat` below `numComponents`).  All component
  payloads share one opaque value type `α`; the engine never inspects them.
* `typeid(T).hash_code()` is modelled by `typeHash`, the identity on the
  component index (hash codes are distinct per type in practice).
* `std::vector` is `List`, `std::unordered_map` is an association list with
  first-match lookup, `std::bitset` is a fixed-length `List Bool`.
* `size_t` arithmetic in `hashCombine` is carried out modulo `2 ^ 64`.
* `fi_assert` / `std::abort` failures surface as `Except.error`; all other
  paths return `Except.ok` (or plain values for the never-aborting operations).
-/

namespace AnthropicECS

/-- Replace the element at index `i` (no-op when out of bounds), mirroring
in-place mutation of one slot of a `std::tuple`/`std::vector`. -/
def modifyAt : List β → Nat → (β → β) → List β
  | [], _, _ => []
  | x :: xs, 0, f => f x :: xs
  | x :: xs, i + 1, f => x :: modifyAt xs i f

/-- `unordered_map::find`: first entry with the given key. -/
def alFind : List (Nat × β) → Nat → Option β
  | [], _ => none
  | (k', v) :: t, k => if k' = k then some v else alFind t k

/-- `map[key] = value`: overwrite the entry if present, append otherwise. -/
def alUpdate : List (Nat × β) → Nat → β → List (Nat × β)
  | [], k, v => [(k, v)]
  | (k', v') :: t, k, v => if k' = k then (k, v) :: t else (k', v') :: alUpdate t k v

/-- Swap-pop: move the last element into slot `idx`, then drop the last slot.
Mirrors `swap(vec[idx], vec.back()); vec.pop_back();` (the component-vector
variant skips the self-swap when `idx` is already the last slot, which yields
the same list). -/
def swapPop (idx : Nat) (v : List β) : List β :=
  match v.getLast? with
  | none => []
  | some last => if idx + 1 < v.length then (v.set idx last).dropLast else v.dropLast

/-- `std::bitset::test`. -/
def bsTest (m : List Bool) (i : Nat) : Bool := m.getD i false

/-- `std::bitset::set(i, b)` for an in-range index. -/
def bsSet (m : List Bool) (i : Nat) (b : Bool) : List Bool := m.set i b

/-- `hashCombine`: `seed ^= hash + 0x9e3779b9 + (seed << 6) + (seed >> 2)`
on `size_t`. -/
def hashCombine (seed hash : Nat) : Nat :=
  seed ^^^ ((hash + 0x9e3779b9 + seed * 64 + seed / 4) % 2 ^ 64)

/-- `combineHashes`: sort the hashes ascending (as `std::sort` does), then fold
`hashCombine` from seed `0`. -/
def combineHashes (hashes : List Nat) : Nat :=
  (List.insertionSort (· ≤ ·) hashes).foldl hashCombine 0

/-- `typeid(Component).hash_code()`, modelled as the component-type index
itself (hash codes are assumed distinct per type). -/
def typeHash (i : Nat) : Nat := i

structure EntityId where
  unstableIndex : Nat
  version : Nat
  poolKey : Nat
  dead : Bool
  deriving Repr, DecidableEq

/-- `EntityId::isIdentical`: field-wise comparison, intentionally leaving out
`dead`. -/
def EntityId.isIdentical (a other : EntityId) : Bool :=
  a.unstableIndex == other.unstableIndex &&
    a.version == other.version &&
    a.poolKey == other.poolKey

structure RemoveEntityResult where
  success : Bool := false
  wasSwapped : Bool := false
  swappedEntityVersion : Option Nat := none
  swappedEntityUnstableIndex : Option Nat := none
  deriving Repr, DecidableEq

structure ComponentPool (α : Type) where
  components : List (List α)
  componentsInUseBitmask : List Bool
  componentsInUseIndices : List Nat
  componentHashes : List Nat
  versions : List Nat
  poolSize : Nat
  poolKey : Nat
  deriving Repr, DecidableEq

instance : Inhabited (ComponentPool α) :=
  ⟨⟨[], [], [], [], [], 0, 0⟩⟩

/-- `ComponentPool::initFromTemplate` (capacity reservation has no observable
effect and is omitted).  `n` is the size of the component universe. -/
def initFromTemplate (n entityPoolKey : Nat) (componentHashes idxs : List Nat) :
    ComponentPool α where
  components := List.replicate n []
  componentsInUseBitmask := idxs.foldl (fun m i => bsSet m i true) (List.replicate n false)
  componentsInUseIndices := idxs
  componentHashes := componentHashes
  versions := []
  poolSize := 0
  poolKey := entityPoolKey

/-- `ComponentPool::initFromBitmask`. -/
def initFromBitmask (n entityPoolKey : Nat) (componentHashes : List Nat)
    (bitmask : List Bool) : ComponentPool α where
  components := List.replicate n []
  componentsInUseBitmask := bitmask
  componentsInUseIndices := (List.range bitmask.length).filter (fun i => bsTest bitmask i)
  componentHashes := componentHashes
  versions := []
  poolSize := 0
  poolKey := entityPoolKey

namespace ComponentPool

/-- `ComponentPool::isValid`. -/
def isValid (p : ComponentPool α) (id : EntityId) : Bool :=
  !id.dead && decide (id.unstableIndex < p.poolSize) &&
    decide (p.versions[id.unstableIndex]? = some id.version)

/-- `ComponentPool::createEntity`: push the supplied component values, then
append the version. -/
def createEntity (p : ComponentPool α) (expectedEntityId : EntityId)
    (entityComponents : List (Nat × α)) : Except String (ComponentPool α) :=
  let comps := entityComponents.foldl
    (fun cs cv => modifyAt cs cv.1 (fun vec => vec ++ [cv.2])) p.components
  if expectedEntityId.unstableIndex ≠ p.poolSize then .error "Unexpected entity index"
  else if p.poolSize ≠ p.versions.length then .error "Unexpected versions size"
  else .ok { p with
    components := comps
    versions := p.versions ++ [expectedEntityId.version]
    poolSize := p.poolSize + 1 }

/-- `ComponentPool::createEntityFromBitmask`: push a default-constructed value
onto every in-use column, then append the version. -/
def createEntityFromBitmask [Inhabited α] (p : ComponentPool α)
    (expectedEntityId : EntityId) : Except String (ComponentPool α) :=
  let comps := p.componentsInUseIndices.foldl
    (fun cs i => modifyAt cs i (fun vec => vec ++ [(default : α)])) p.components
  if expectedEntityId.unstableIndex ≠ p.poolSize then .error "Unexpected entity index"
  else if p.poolSize ≠ p.versions.length then .error "Unexpected versions size"
  else .ok { p with
    components := comps
    versions := p.versions ++ [expectedEntityId.version]
    poolSize := p.poolSize + 1 }

/-- `ComponentPool::removeEntity`. -/
def removeEntity (p : ComponentPool α) (entityId : EntityId) :
    RemoveEntityResult × ComponentPool α :=
  if p.poolSize = 0 then ({}, p)
  else if !(p.isValid entityId) then ({}, p)
  else
    let result : RemoveEntityResult :=
      if p.poolSize > 1 then
        { success := true
          wasSwapped := true
          swappedEntityVersion := p.versions.getLast?
          swappedEntityUnstableIndex := some entityId.unstableIndex }
      else { success := true }
    let comps := p.componentsInUseIndices.foldl
      (fun cs i => modifyAt cs i (swapPop entityId.unstableIndex)) p.components
    (result, { p with
      components := comps
      versions := swapPop entityId.unstableIndex p.versions
      poolSize := p.poolSize - 1 })

/-- `ComponentPool::hasComponent`. -/
def hasComponent (p : ComponentPool α) (c : Nat) : Bool :=
  bsTest p.componentsInUseBitmask c

/-- `ComponentPool::hasComponents`: bitmask containment of the requested set. -/
def hasComponents (p : ComponentPool α) (cs : List Nat) : Bool :=
  cs.all (fun c => bsTest p.componentsInUseBitmask c)

/-- `ComponentPool::getComponent`. -/
def getComponent (p : ComponentPool α) (c : Nat) (entityId : EntityId) : Option α :=
  if !(p.hasComponents [c]) then none
  else if p.isValid entityId then (p.components.getD c [])[entityId.unstableIndex]?
  else none

/-- Write one component value in place (a `*pointer = value` store into an
in-use column). -/
def setComponent (p : ComponentPool α) (c idx : Nat) (v : α) : ComponentPool α :=
  { p with components := modifyAt p.components c (fun vec => vec.set idx v) }

/-- `ComponentPool::forEach`: the callback receives the synthesized id and the
requested component values, and may rewrite those values (they are taken by
reference in the source). -/
def forEach [Inhabited α] (p : ComponentPool α) (cs : List Nat)
    (callback : EntityId → List α → List α) : ComponentPool α :=
  (List.range p.poolSize).foldl (fun q i =>
    let id : EntityId := ⟨i, q.versions.getD i 0, q.poolKey, false⟩
    let out := callback id (cs.map (fun c => (q.components.getD c []).getD i default))
    (cs.zip out).foldl (fun q2 cv => q2.setComponent cv.1 i cv.2) q) p

end ComponentPool

/-- Loop body of `ComponentPool::forEachEarlyReturn`; `rem` counts the slots
still to visit. -/
def forEachERGo [Inhabited α] (cs : List Nat)
    (callback : EntityId → List α → List α × Bool) :
    ComponentPool α → Nat → Nat → Bool × ComponentPool α
  | q, _, 0 => (false, q)
  | q, i, rem + 1 =>
    let id : EntityId := ⟨i, q.versions.getD i 0, q.poolKey, false⟩
    let (out, stop) := callback id (cs.map (fun c => (q.components.getD c []).getD i default))
    let q2 := (cs.zip out).foldl (fun qq cv => qq.setComponent cv.1 i cv.2) q
    if stop then (true, q2) else forEachERGo cs callback q2 (i + 1) rem

/-- `ComponentPool::forEachEarlyReturn`: stops at the first callback returning
`true`; reports whether it stopped early. -/
def ComponentPool.forEachEarlyReturn [Inhabited α] (p : ComponentPool α) (cs : List Nat)
    (callback : EntityId → List α → List α × Bool) : Bool × ComponentPool α :=
  forEachERGo cs callback p 0 p.poolSize

/-- Dereference a pool pointer obtained from a map lookup (the source only ever
does this for keys it just found or inserted; the default is unreachable). -/
def poolAt (pools : List (Nat × ComponentPool α)) (k : Nat) : ComponentPool α :=
  (alFind pools k).getD default

/-- The `fi_assert` message guarding every mutating operation. -/
def iteratingMsg : String :=
  "Cannot add/remove entities, and cannot add/remove components during iteration."

structure Registry (α : Type) where
  numComponents : Nat
  pools : List (Nat × ComponentPool α) := []
  entityRemappings : List (Nat × EntityId) := []
  nextVersionIndex : Nat := 0
  isIterating : Bool := false
  deriving Repr, DecidableEq

/-- `Registry::generateComponentPoolKeyFromHashes`. -/
def generateComponentPoolKeyFromHashes (typeHashes : List Nat) : Nat × List Nat :=
  (combineHashes typeHashes, typeHashes)

/-- `Registry::handleRemoveResult`. -/
def handleRemoveResult (removeResult : RemoveEntityResult) (poolKey : Nat)
    (entityRemappings : List (Nat × EntityId)) : List (Nat × EntityId) :=
  if !removeResult.success then entityRemappings
  else if removeResult.wasSwapped then
    match removeResult.swappedEntityVersion, removeResult.swappedEntityUnstableIndex with
    | some v, some i => alUpdate entityRemappings v ⟨i, v, poolKey, false⟩
    | _, _ => entityRemappings
  else entityRemappings

/-- Result of `Registry::resolveEntityId`: the pool (when resolution succeeds),
the possibly-rewritten caller id, the possibly-updated remap table (a terminal
dead end marks its entry dead), and how many remap entries were followed. -/
structure ResolveResult (α : Type) where
  pool : Option (ComponentPool α)
  entityId : EntityId
  remappings : List (Nat × EntityId)
  hops : Nat
  deriving Repr, DecidableEq

/-- Recursion of `Registry::resolveEntityId`, fuelled (the source recurses
directly; fuel `remappings.length + 1` is always sufficient, see the hop-count
theorems). -/
def resolveGo (pools : List (Nat × ComponentPool α)) :
    Nat → List (Nat × EntityId) → EntityId → ResolveResult α
  | 0, remappings, entityId => ⟨none, entityId, remappings, 0⟩
  | fuel + 1, remappings, entityId =>
    if entityId.dead then ⟨none, entityId, remappings, 0⟩
    else
      let direct : Option (ComponentPool α) :=
        match alFind pools entityId.poolKey with
        | some p => if p.isValid entityId then some p else none
        | none => none
      match direct with
      | some p => ⟨some p, entityId, remappings, 0⟩
      | none =>
        match alFind remappings entityId.version with
        | none => ⟨none, entityId, remappings, 0⟩
        | some target =>
          if target.isIdentical entityId then
            ⟨none, { entityId with dead := true },
              alUpdate remappings entityId.version { target with dead := true }, 0⟩
          else
            let res := resolveGo pools fuel remappings target
            { res with hops := res.hops + 1 }

namespace Registry

/-- `Registry::resolveEntityId`. -/
def resolveEntityId (r : Registry α) (entityId : EntityId) : ResolveResult α :=
  resolveGo r.pools (r.entityRemappings.length + 1) r.entityRemappings entityId

/-- `Registry::createEntity<Components...>`: `entityComponents` pairs each
component-type index with the value stored (default-constructed values for the
no-argument overload). -/
def createEntity (r : Registry α) (entityComponents : List (Nat × α)) :
    Except String (EntityId × Registry α) :=
  if r.isIterating then .error iteratingMsg
  else
    let (key, representation) :=
      generateComponentPoolKeyFromHashes (entityComponents.map (fun cv => typeHash cv.1))
    let pools0 :=
      match alFind r.pools key with
      | some _ => r.pools
      | none => r.pools ++
          [(key, initFromTemplate r.numComponents key representation
              (entityComponents.map (fun cv => cv.1)))]
    let pool := poolAt pools0 key
    let entityId : EntityId := ⟨pool.poolSize, r.nextVersionIndex, key, false⟩
    match pool.createEntity entityId entityComponents with
    | .error e => .error e
    | .ok p2 => .ok (entityId,
        { r with pools := alUpdate pools0 key p2
                 nextVersionIndex := r.nextVersionIndex + 1 })

/-- `Registry::removeEntity`. -/
def removeEntity (r : Registry α) (entityId : EntityId) :
    Except String (EntityId × Registry α) :=
  if r.isIterating then .error iteratingMsg
  else
    let res := r.resolveEntityId entityId
    match res.pool with
    | none => .ok (res.entityId, { r with entityRemappings := res.remappings })
    | some pool =>
      let (removeResult, pool2) := pool.removeEntity res.entityId
      let entityId2 := if removeResult.success then { res.entityId with dead := true }
                       else res.entityId
      .ok (entityId2,
        { r with pools := alUpdate r.pools res.entityId.poolKey pool2
                 entityRemappings := handleRemoveResult removeResult pool.poolKey res.remappings })

end Registry

/-- First phase of `Registry::transferEntityToNewPool`: allocate the
destination slot via `createEntityFromBitmask` and copy every shared component
value (skipping `componentToSkip`) from the source slot.  The source slot is
untouched by this phase.  Pools are threaded through the map so that the
source's pointer aliasing is reproduced exactly. -/
def transferPopulate [Inhabited α] (componentToSkip : Nat)
    (oldEntityId newEntityId : EntityId) (pools : List (Nat × ComponentPool α)) :
    Except String (List (Nat × ComponentPool α)) :=
  match (poolAt pools newEntityId.poolKey).createEntityFromBitmask newEntityId with
  | .error e => .error e
  | .ok np1 =>
    if newEntityId.unstableIndex ≠ np1.poolSize - 1 then .error "Unexpected new entity index"
    else if np1.versions.getLast? ≠ some newEntityId.version then
      .error "Unexpected new entity version"
    else
      let pools1 := alUpdate pools newEntityId.poolKey np1
      .ok (np1.componentsInUseIndices.foldl (fun ps ci =>
        if ci = componentToSkip then ps
        else
          let oldVec := (poolAt ps oldEntityId.poolKey).components.getD ci []
          alUpdate ps newEntityId.poolKey
            ((poolAt ps newEntityId.poolKey).setComponent ci newEntityId.unstableIndex
              (oldVec.getD oldEntityId.unstableIndex default))) pools1)

/-- `Registry::transferEntityToNewPool`: populate the destination slot, then
remove the source slot, publish the resulting remap (if the source removal
swapped another entity) and the moved entity's own remap, and hand the caller
the new id. -/
def transferEntityToNewPool [Inhabited α] (isIterating : Bool) (componentToSkip : Nat)
    (oldEntityId newEntityId : EntityId) (pools : List (Nat × ComponentPool α))
    (entityRemappings : List (Nat × EntityId)) :
    Except String (EntityId × List (Nat × ComponentPool α) × List (Nat × EntityId)) :=
  if isIterating then .error iteratingMsg
  else match transferPopulate componentToSkip oldEntityId newEntityId pools with
  | .error e => .error e
  | .ok pools2 =>
    let oldPool := poolAt pools2 oldEntityId.poolKey
    let (removeResult, oldPool2) := oldPool.removeEntity oldEntityId
    let pools3 := alUpdate pools2 oldEntityId.poolKey oldPool2
    let remap1 := handleRemoveResult removeResult oldPool.poolKey entityRemappings
    .ok (newEntityId, pools3, alUpdate remap1 newEntityId.version newEntityId)

namespace Registry

/-- `Registry::addComponent`. -/
def addComponent [Inhabited α] (r : Registry α) (entityId : EntityId)
    (componentToAdd : Nat) (component : α) : Except String (EntityId × Registry α) :=
  if r.isIterating then .error iteratingMsg
  else
    let res := r.resolveEntityId entityId
    let r1 := { r with entityRemappings := res.remappings }
    match res.pool with
    | none => .ok (res.entityId, r1)
    | some oldPool =>
      if oldPool.hasComponent componentToAdd then
        .ok (res.entityId, { r1 with pools := (alUpdate r1.pools res.entityId.poolKey
          (oldPool.setComponent componentToAdd res.entityId.unstableIndex component)) })
      else
        let (newPoolKey, newRepresentation) := generateComponentPoolKeyFromHashes
          (oldPool.componentHashes ++ [typeHash componentToAdd])
        let pools0 :=
          match alFind r1.pools newPoolKey with
          | some _ => r1.pools
          | none => r1.pools ++ [(newPoolKey,
              initFromBitmask r.numComponents newPoolKey newRepresentation
                (bsSet oldPool.componentsInUseBitmask componentToAdd true))]
        let newEntityId : EntityId :=
          ⟨(poolAt pools0 newPoolKey).poolSize, res.entityId.version, newPoolKey, false⟩
        match transferEntityToNewPool r.isIterating componentToAdd res.entityId newEntityId
            pools0 res.remappings with
        | .error e => .error e
        | .ok (movedId, pools3, remap3) =>
          .ok (movedId, { r1 with
            pools := alUpdate pools3 newPoolKey
              ((poolAt pools3 newPoolKey).setComponent componentToAdd
                movedId.unstableIndex component)
            entityRemappings := remap3 })

/-- `Registry::removeComponent`. -/
def removeComponent [Inhabited α] (r : Registry α) (entityId : EntityId)
    (componentToRemove : Nat) : Except String (EntityId × Registry α) :=
  if r.isIterating then .error iteratingMsg
  else
    let res := r.resolveEntityId entityId
    let r1 := { r with entityRemappings := res.remappings }
    match res.pool with
    | none => .ok (res.entityId, r1)
    | some oldPool =>
      if !(oldPool.hasComponent componentToRemove) then .ok (res.entityId, r1)
      else
        let (newPoolKey, newRepresentation) := generateComponentPoolKeyFromHashes
          (oldPool.componentHashes.filter (fun h => h ≠ typeHash componentToRemove))
        let pools0 :=
          match alFind r1.pools newPoolKey with
          | some _ => r1.pools
          | none => r1.pools ++ [(newPoolKey,
              initFromBitmask r.numComponents newPoolKey newRepresentation
                (bsSet oldPool.componentsInUseBitmask componentToRemove false))]
        let newEntityId : EntityId :=
          ⟨(poolAt pools0 newPoolKey).poolSize, res.entityId.version, newPoolKey, false⟩
        match transferEntityToNewPool r.isIterating componentToRemove res.entityId newEntityId
            pools0 res.remappings with
        | .error e => .error e
        | .ok (movedId, pools3, remap3) =>
          .ok (movedId, { r1 with pools := pools3, entityRemappings := remap3 })

/-- `Registry::set`: write the component value when the handle resolves and the
type is present; silently a no-op otherwise.  Performs no iterating-state
assertion. -/
def set (r : Registry α) (entityId : EntityId) (component : Nat) (value : α) :
    EntityId × Registry α :=
  let res := r.resolveEntityId entityId
  let r1 := { r with entityRemappings := res.remappings }
  match res.pool with
  | some pool =>
    if (pool.getComponent component res.entityId).isSome then
      (res.entityId, { r1 with pools := (alUpdate r1.pools res.entityId.poolKey
        (pool.setComponent component res.entityId.unstableIndex value)) })
    else (res.entityId, r1)
  | none => (res.entityId, r1)

/-- `Registry::get`: the component value (or `none`), the healed id, and the
registry (whose remap table a terminal dead end may have updated).  Performs no
iterating-state assertion. -/
def get (r : Registry α) (entityId : EntityId) (component : Nat) :
    Option α × EntityId × Registry α :=
  let res := r.resolveEntityId entityId
  let r1 := { r with entityRemappings := res.remappings }
  match res.pool with
  | some pool => (pool.getComponent component res.entityId, res.entityId, r1)
  | none => (none, res.entityId, r1)

/-- `Registry::forEachPool`: the callback receives each non-empty pool by
mutable reference; the iterating flag is set for the duration of the loop and
cleared on return. -/
def forEachPool (r : Registry α) (callback : ComponentPool α → ComponentPool α) :
    Registry α :=
  { r with
    pools := r.pools.map (fun kp => if kp.2.poolSize = 0 then kp else (kp.1, callback kp.2))
    isIterating := false }

/-- `Registry::forEachComponents`: runs `ComponentPool::forEach` on every pool
holding the requested set; the iterating flag is cleared on return. -/
def forEachComponents [Inhabited α] (r : Registry α) (cs : List Nat)
    (callback : EntityId → List α → List α) : Registry α :=
  { r with
    pools := r.pools.map (fun kp =>
      if kp.2.hasComponents cs then (kp.1, kp.2.forEach cs callback) else kp)
    isIterating := false }

end Registry

/-- Pool sweep of `Registry::forEachComponentsEarlyReturn`: stop after the
first pool whose sweep reported an early return. -/
def forEachERPools [Inhabited α] (cs : List Nat)
    (callback : EntityId → List α → List α × Bool) :
    List (Nat × ComponentPool α) → List (Nat × ComponentPool α)
  | [] => []
  | kp :: rest =>
    if kp.2.hasComponents cs then
      let (stopped, p2) := kp.2.forEachEarlyReturn cs callback
      if stopped then (kp.1, p2) :: rest
      else (kp.1, p2) :: forEachERPools cs callback rest
    else kp :: forEachERPools cs callback rest

namespace Registry

/-- `Registry::forEachComponentsEarlyReturn`: the iterating flag is cleared on
return, also when the sweep stopped early. -/
def forEachComponentsEarlyReturn [Inhabited α] (r : Registry α) (cs : List Nat)
    (callback : EntityId → List α → List α × Bool) : Registry α :=
  { r with pools := forEachERPools cs callback r.pools, isIterating := false }

/-- `Registry::forEachEntity`: synthesizes an id per slot for the callback
(which only observes; it is folded over an accumulator here).  NOTE: the source
ends this function with `isIterating = true` (line 710), not `false` — the
returned registry reflects that. -/
def forEachEntity (r : Registry α) (callback : EntityId → β → β) (acc : β) :
    Registry α × β :=
  let out := r.pools.foldl (fun a kp =>
    (List.range kp.2.poolSize).foldl (fun a2 i =>
      callback ⟨i, kp.2.versions.getD i 0, kp.1, false⟩ a2) a) acc
  ({ r with isIterating := true }, out)

end Registry

/-! ## Basic lemmas about the helper operations -/

theorem alFind_alUpdate_self (l : List (Nat × β)) (k : Nat) (v : β) :
    alFind (alUpdate l k v) k = some v := by
  induction l with
  | nil => simp [alUpdate, alFind]
  | cons hd t ih =>
    rcases hd with ⟨k', v'⟩
    by_cases h : k' = k <;> simp [alUpdate, alFind, h, ih]

theorem alFind_alUpdate_ne (l : List (Nat × β)) {k k' : Nat} (v : β) (h : k' ≠ k) :
    alFind (alUpdate l k v) k' = alFind l k' := by
  induction l with
  | nil => simp only [alUpdate, alFind, if_neg (Ne.symm h)]
  | cons hd t ih =>
    rcases hd with ⟨k₀, v₀⟩
    by_cases h0 : k₀ = k
    · subst h0
      simp only [alUpdate, if_pos rfl, alFind, if_neg (Ne.symm h)]
    · simp only [alUpdate, if_neg h0, alFind]
      by_cases h1 : k₀ = k' <;> simp [h1, ih]

theorem alFind_append_right {l₁ l₂ : List (Nat × β)} {k : Nat}
    (h : alFind l₁ k = none) : alFind (l₁ ++ l₂) k = alFind l₂ k := by
  induction l₁ with
  | nil => rfl
  | cons hd t ih =>
    rcases hd with ⟨k', v'⟩
    by_cases h0 : k' = k
    · simp [alFind, h0] at h
    · simp only [alFind, h0, if_false] at h
      simp only [List.cons_append, alFind, h0, if_false]
      exact ih h

theorem alFind_append_left {l₁ l₂ : List (Nat × β)} {k : Nat} {v : β}
    (h : alFind l₁ k = some v) : alFind (l₁ ++ l₂) k = some v := by
  induction l₁ with
  | nil => simp [alFind] at h
  | cons hd t ih =>
    rcases hd with ⟨k', v'⟩
    by_cases h0 : k' = k <;> simp_all [alFind]

theorem alFind_none_not_mem {l : List (Nat × β)} {k : Nat} :
    alFind l k = none → ∀ v, (k, v) ∉ l := by
  induction l with
  | nil => intro _ v hv; simp at hv
  | cons hd t ih =>
    rcases hd with ⟨k', v'⟩
    intro h v hv
    by_cases h0 : k' = k
    · simp [alFind, h0] at h
    · rcases List.mem_cons.mp hv with he | ht
      · exact h0 (congrArg Prod.fst he).symm
      · exact ih (by simpa [alFind, h0] using h) v ht

/-- `alUpdate` followed by a lookup at any key. -/
theorem alFind_alUpdate (l : List (Nat × β)) (k k' : Nat) (v : β) :
    alFind (alUpdate l k v) k' = if k' = k then some v else alFind l k' := by
  by_cases h : k' = k
  · subst h; simp [alFind_alUpdate_self]
  · simp [h, alFind_alUpdate_ne l v h]

theorem modifyAt_length (l : List β) (i : Nat) (f : β → β) :
    (modifyAt l i f).length = l.length := by
  induction l generalizing i with
  | nil => simp [modifyAt]
  | cons hd t ih =>
    cases i with
    | zero => simp [modifyAt]
    | succ j => simp [modifyAt, ih]

theorem modifyAt_getD_self (l : List β) {i : Nat} (f : β → β) (d : β)
    (h : i < l.length) : (modifyAt l i f).getD i d = f (l.getD i d) := by
  induction l generalizing i with
  | nil => simp at h
  | cons hd t ih =>
    cases i with
    | zero => simp [modifyAt]
    | succ j =>
      simp only [modifyAt, List.getD_cons_succ]
      exact ih (by simpa using h)

theorem modifyAt_getD_ne (l : List β) {i j : Nat} (f : β → β) (d : β)
    (h : i ≠ j) : (modifyAt l i f).getD j d = l.getD j d := by
  induction l generalizing i j with
  | nil => simp [modifyAt]
  | cons hd t ih =>
    cases i with
    | zero =>
      cases j with
      | zero => exact absurd rfl h
      | succ j' => simp [modifyAt]
    | succ i' =>
      cases j with
      | zero => simp [modifyAt]
      | succ j' =>
        simp only [modifyAt, List.getD_cons_succ]
        exact ih (fun hh => h (by simp [hh]))

/-- Effect on column `c` of a fold that modifies the column named by each list
element: untouched when `c` is never named. -/
theorem foldl_modifyAt_getD_not_mem {u : β → Nat} {g : β → List γ → List γ}
    (xs : List β) (l : List (List γ)) {c : Nat} (d : List γ)
    (hc : c ∉ xs.map u) :
    (xs.foldl (fun cs x => modifyAt cs (u x) (g x)) l).getD c d = l.getD c d := by
  induction xs generalizing l with
  | nil => rfl
  | cons hd t ih =>
    simp only [List.map_cons, List.mem_cons] at hc
    push_neg at hc
    simp only [List.foldl_cons]
    rw [ih _ hc.2, modifyAt_getD_ne _ _ _ (fun hh => hc.1 hh.symm)]

/-- Effect on column `c` of such a fold when exactly one element names `c`. -/
theorem foldl_modifyAt_getD_mem {u : β → Nat} {g : β → List γ → List γ}
    (xs : List β) (l : List (List γ)) {c : Nat} {x : β}
    (hnd : (xs.map u).Nodup) (hx : x ∈ xs) (hkey : u x = c)
    (hlen : c < l.length) :
    (xs.foldl (fun cs y => modifyAt cs (u y) (g y)) l).getD c [] = g x (l.getD c []) := by
  induction xs generalizing l with
  | nil => simp at hx
  | cons hd t ih =>
    simp only [List.map_cons, List.nodup_cons] at hnd
    simp only [List.foldl_cons]
    rcases List.mem_cons.mp hx with h | h
    · subst h
      rw [foldl_modifyAt_getD_not_mem _ _ _ (hkey ▸ hnd.1), hkey,
        modifyAt_getD_self _ _ _ hlen]
    · have hne : u hd ≠ c := by
        intro hh
        exact hnd.1 (hh ▸ hkey ▸ List.mem_map_of_mem u h)
      rw [ih _ hnd.2 h (by rwa [modifyAt_length])]
      rw [modifyAt_getD_ne _ _ _ hne]

theorem foldl_modifyAt_length {u : β → Nat} {g : β → List γ → List γ}
    (xs : List β) (l : List (List γ)) :
    (xs.foldl (fun cs x => modifyAt cs (u x) (g x)) l).length = l.length := by
  induction xs generalizing l with
  | nil => rfl
  | cons hd t ih => simp only [List.foldl_cons]; rw [ih, modifyAt_length]

theorem swapPop_length (idx : Nat) (v : List β) :
    (swapPop idx v).length = v.length - 1 := by
  unfold swapPop
  match h : v.getLast? with
  | none =>
    have : v = [] := List.getLast?_eq_none_iff.mp h
    simp [this]
  | some last =>
    by_cases hi : idx + 1 < v.length <;> simp [hi, List.length_dropLast]

theorem swapPop_getElem? (idx : Nat) (v : List β) {j : Nat}
    (hj : j + 1 < v.length) :
    (swapPop idx v)[j]? = if j = idx then v[v.length - 1]? else v[j]? := by
  have hne : v ≠ [] := by
    intro h; subst h; simp at hj
  obtain ⟨last, hlast⟩ := Option.ne_none_iff_exists'.mp
    (fun h => hne (List.getLast?_eq_none_iff.mp h))
  unfold swapPop
  rw [hlast]
  by_cases hcase : j = idx
  · subst hcase
    have hi : j + 1 < v.length := hj
    simp only [hi, if_true, if_pos rfl]
    rw [List.getElem?_dropLast, List.length_set,
      if_pos (by omega : j < v.length - 1),
      List.getElem?_set_self (by omega)]
    rw [List.getLast?_eq_getElem?] at hlast
    exact hlast.symm
  · by_cases hi : idx + 1 < v.length
    · simp only [hi, if_true, if_neg hcase]
      rw [List.getElem?_dropLast, List.length_set,
        if_pos (by omega : j < v.length - 1),
        List.getElem?_set_ne (fun hh => hcase hh.symm)]
    · simp only [hi, if_false, if_neg hcase]
      rw [List.getElem?_dropLast, if_pos (by omega : j < v.length - 1)]

theorem swapPop_getElem?_ge (idx : Nat) (v : List β) {j : Nat}
    (hj : v.length ≤ j + 1) : (swapPop idx v)[j]? = none := by
  apply List.getElem?_eq_none
  rw [swapPop_length]; omega

/-- `isValid` in propositional form. -/
theorem isValid_iff (p : ComponentPool α) (id : EntityId) :
    p.isValid id = true ↔
      id.dead = false ∧ id.unstableIndex < p.poolSize ∧
        p.versions[id.unstableIndex]? = some id.version := by
  simp [ComponentPool.isValid, Bool.not_eq_true', and_assoc]

theorem alUpdate_append_self {l : List (Nat × β)} {k : Nat} (v v' : β)
    (h : alFind l k = none) : alUpdate (l ++ [(k, v)]) k v' = l ++ [(k, v')] := by
  induction l with
  | nil => simp [alUpdate]
  | cons hd t ih =>
    rcases hd with ⟨k₀, v₀⟩
    by_cases h0 : k₀ = k
    · simp [alFind, h0] at h
    · simp only [alFind, h0, if_false] at h
      simp only [List.cons_append, alUpdate, h0, if_false, List.cons.injEq, true_and]
      exact ih h

theorem bsTest_replicate_false (n c : Nat) :
    bsTest (List.replicate n false) c = false := by
  unfold bsTest
  rcases Nat.lt_or_ge c n with h | h
  · rw [List.getD_eq_getElem?_getD, List.getElem?_replicate, if_pos h]
    rfl
  · rw [List.getD_eq_getElem?_getD, List.getElem?_replicate, if_neg (by omega)]
    rfl

/-! ## Permutation invariance of `combineHashes` -/

theorem combineHashes_perm {l₁ l₂ : List Nat} (h : l₁.Perm l₂) :
    combineHashes l₁ = combineHashes l₂ := by
  unfold combineHashes
  congr 1
  exact List.eq_of_perm_of_sorted
    (((List.perm_insertionSort _ l₁).trans h).trans (List.perm_insertionSort _ l₂).symm)
    (List.sorted_insertionSort _ l₁) (List.sorted_insertionSort _ l₂)

/-! ## Small demonstration values used by concrete witnesses -/

/-- A fresh registry over a three-type component universe with `Nat` payloads. -/
def emptyReg : Registry Nat := { numComponents := 3 }

/-! ## Claim C4 -/

/-- C4: the iterating state is cleared when a bulk iteration returns for
`forEachPool`, `forEachComponents` and `forEachComponentsEarlyReturn` (so a
mutating operation invoked afterwards is accepted), but `forEachEntity` leaves
the flag set (`isIterating = true` at its end, a slip at line 710 of the
source), so a `createEntity` after a `forEachEntity` — here on a fresh,
entirely empty registry — is rejected as a mutation-during-iteration contract
violation.  This refutes the claim for `forEachEntity` and exhibits the
failing input. -/
theorem claim_C4_iterating_state :
    (∀ (α : Type) (r : Registry α) (f : ComponentPool α → ComponentPool α),
      (r.forEachPool f).isIterating = false) ∧
    (∀ (α : Type) [Inhabited α] (r : Registry α) (cs : List Nat)
      (f : EntityId → List α → List α),
      (r.forEachComponents cs f).isIterating = false) ∧
    (∀ (α : Type) [Inhabited α] (r : Registry α) (cs : List Nat)
      (f : EntityId → List α → List α × Bool),
      (r.forEachComponentsEarlyReturn cs f).isIterating = false) ∧
    ((emptyReg.forEachEntity (fun _ a => a) ()).1.isIterating = true ∧
      (emptyReg.forEachEntity (fun _ a => a) ()).1.createEntity [] = .error iteratingMsg) :=
  ⟨fun _ _ _ => rfl, fun _ _ _ _ _ => rfl, fun _ _ _ _ _ => rfl, rfl, rfl⟩

/-! ## Claim C9 -/

/-- C9: `get` and `set` perform no iterating-state assertion: for every store
state they compute the same answer and the same state (up to the untouched
flag) whatever the value of `isIterating`, while `createEntity`,
`removeEntity`, `addComponent` and `removeComponent` all fail fast with the
contract-violation error whenever the flag is set. -/
theorem claim_C9_get_set_iteration_agnostic :
    (∀ (α : Type) (r : Registry α) (b : Bool) (id : EntityId) (c : Nat),
      (({ r with isIterating := b } : Registry α).get id c).1 = (r.get id c).1 ∧
      (({ r with isIterating := b } : Registry α).get id c).2.1 = (r.get id c).2.1 ∧
      (({ r with isIterating := b } : Registry α).get id c).2.2 =
        { (r.get id c).2.2 with isIterating := b }) ∧
    (∀ (α : Type) (r : Registry α) (b : Bool) (id : EntityId) (c : Nat) (v : α),
      (({ r with isIterating := b } : Registry α).set id c v).1 = (r.set id c v).1 ∧
      (({ r with isIterating := b } : Registry α).set id c v).2 =
        { (r.set id c v).2 with isIterating := b }) ∧
    (∀ (α : Type) [Inhabited α] (r : Registry α) (id : EntityId) (c : Nat) (v : α)
      (cs : List (Nat × α)),
      ({ r with isIterating := true } : Registry α).createEntity cs = .error iteratingMsg ∧
      ({ r with isIterating := true } : Registry α).removeEntity id = .error iteratingMsg ∧
      ({ r with isIterating := true } : Registry α).addComponent id c v =
        .error iteratingMsg ∧
      ({ r with isIterating := true } : Registry α).removeComponent id c =
        .error iteratingMsg) := by
  refine ⟨fun α r b id c => ?_, fun α r b id c v => ?_, fun α _ r id c v cs => ⟨rfl, rfl, rfl, rfl⟩⟩
  · have hres : ({ r with isIterating := b } : Registry α).resolveEntityId id =
        r.resolveEntityId id := rfl
    simp only [Registry.get, hres]
    rcases hp : (r.resolveEntityId id).pool with _ | pool <;> simp [hp]
  · have hres : ({ r with isIterating := b } : Registry α).resolveEntityId id =
        r.resolveEntityId id := rfl
    simp only [Registry.set, hres]
    rcases hp : (r.resolveEntityId id).pool with _ | pool
    · simp [hp]
    · simp only [hp]
      by_cases hc : (pool.getComponent c (r.resolveEntityId id).entityId).isSome <;>
        simp [hc]

/-! ## Claim C7 -/

/-- C7: the pool fingerprint is order-independent — `combineHashes` agrees on
every permutation of a hash multiset, and two `createEntity` calls whose
component-type lists differ only in order compute the same pool key (their
results agree on the returned handle's `poolKey`, error outcomes included). -/
theorem claim_C7_fingerprint_order_independent :
    (∀ (hashes hashes' : List Nat), hashes.Perm hashes' →
      combineHashes hashes = combineHashes hashes') ∧
    (∀ (α : Type) (r : Registry α) (cs cs' : List (Nat × α)),
      (cs.map Prod.fst).Perm (cs'.map Prod.fst) →
      (r.createEntity cs).map (fun x => x.1.poolKey) =
        (r.createEntity cs').map (fun x => x.1.poolKey)) := by
  refine ⟨fun _ _ h => combineHashes_perm h, fun α r cs cs' h => ?_⟩
  have hmap : ∀ (l : List (Nat × α)), l.map (fun cv => typeHash cv.1) = l.map Prod.fst := by
    intro l; simp [typeHash]
  have hkey : combineHashes (cs.map (fun cv => typeHash cv.1)) =
      combineHashes (cs'.map (fun cv => typeHash cv.1)) := by
    rw [hmap, hmap]; exact combineHashes_perm h
  unfold Registry.createEntity
  by_cases hit : r.isIterating
  · simp [hit]
  · simp only [hit, if_false, generateComponentPoolKeyFromHashes, hkey]
    rcases hfind : alFind r.pools (combineHashes (cs'.map fun cv => typeHash cv.1)) with
      _ | p
    · simp only [hfind]
      simp [ComponentPool.createEntity, initFromTemplate, poolAt,
        alFind_append_right hfind, alFind, Except.map]
    · simp only [hfind]
      simp only [poolAt, alFind_alUpdate_self, hfind, Option.getD_some]
      unfold ComponentPool.createEntity
      by_cases hvl : p.poolSize ≠ p.versions.length <;> simp [hvl, Except.map]

/-- Concrete use of C7: the two-type lists `[0, 1]` and `[1, 0]` hash to the
same fingerprint and `createEntity` places both in the same pool. -/
theorem claim_C7_witness :
    ([0, 1] : List Nat).Perm [1, 0] ∧
    combineHashes [0, 1] = combineHashes [1, 0] ∧
    (emptyReg.createEntity [(0, 5), (1, 6)]).map (fun x => x.1.poolKey) =
      (emptyReg.createEntity [(1, 6), (0, 5)]).map (fun x => x.1.poolKey) :=
  ⟨by decide, claim_C7_fingerprint_order_independent.1 [0, 1] [1, 0] (by decide),
    claim_C7_fingerprint_order_independent.2 Nat emptyReg _ _ (by decide)⟩

/-! ## Claim C5 -/

/-- C5 fails as stated: in a pool of two entities, removing the entity in the
*last* slot still reports `wasSwapped = true`, even though no other slot's
value moved (slot 0 is untouched), and the reported version is the *removed*
entity's own version, not a moved entity's. -/
theorem claim_C5_counterexample :
    (ComponentPool.removeEntity ⟨[[7, 8]], [true], [0], [0], [3, 4], 2, 99⟩
        ⟨1, 4, 99, false⟩).1.wasSwapped = true ∧
    (1 : Nat) = 2 - 1 ∧
    (ComponentPool.removeEntity (α := Nat) ⟨[[7, 8]], [true], [0], [0], [3, 4], 2, 99⟩
        ⟨1, 4, 99, false⟩).2.components = [[7]] ∧
    (ComponentPool.removeEntity (α := Nat) ⟨[[7, 8]], [true], [0], [0], [3, 4], 2, 99⟩
        ⟨1, 4, 99, false⟩).2.versions = [3] ∧
    (ComponentPool.removeEntity (α := Nat) ⟨[[7, 8]], [true], [0], [0], [3, 4], 2, 99⟩
        ⟨1, 4, 99, false⟩).1.swappedEntityVersion = some 4 := by
  decide

/-- C5 (amended): `removeEntity` on a validating handle succeeds and reports
`wasSwapped = true` iff the pool held at least two entities — also when the
removed slot was the last one, in which case the reported version is the
removed entity's own; the reported index is always the removed slot and the
reported version is always the pre-removal last slot's version, so whenever
the removed slot was *not* last, they identify the entity that was moved into
the vacated position (the version now stored there, distinct from the removed
entity's when versions are duplicate-free).  An empty pool or a failed
validation reports failure and changes nothing. -/
theorem claim_C5_remove_report {α : Type} (p : ComponentPool α) (id : EntityId) :
    (p.isValid id = false → p.removeEntity id = ({}, p)) ∧
    (p.isValid id = true →
      (p.removeEntity id).1.success = true ∧
      ((p.removeEntity id).1.wasSwapped = true ↔ 2 ≤ p.poolSize) ∧
      (p.removeEntity id).1.swappedEntityVersion =
        (if 2 ≤ p.poolSize then p.versions.getLast? else none) ∧
      (p.removeEntity id).1.swappedEntityUnstableIndex =
        (if 2 ≤ p.poolSize then some id.unstableIndex else none) ∧
      (id.unstableIndex + 1 < p.poolSize → p.versions.length = p.poolSize →
        (p.removeEntity id).1.swappedEntityVersion =
          ((p.removeEntity id).2.versions)[id.unstableIndex]? ∧
        (p.versions.Nodup →
          (p.removeEntity id).1.swappedEntityVersion ≠ some id.version))) := by
  constructor
  · intro hv
    unfold ComponentPool.removeEntity
    by_cases h0 : p.poolSize = 0
    · simp [h0]
    · simp [h0, hv]
  · intro hv
    obtain ⟨hdead, hidx, hver⟩ := (isValid_iff p id).mp hv
    have h0 : ¬ p.poolSize = 0 := by omega
    by_cases h1 : p.poolSize > 1
    · have h2 : 2 ≤ p.poolSize := h1
      refine ⟨?_, ?_, ?_, ?_, ?_⟩
      · simp [ComponentPool.removeEntity, h0, hv, h1]
      · simp [ComponentPool.removeEntity, h0, hv, h1, h2]
      · simp [ComponentPool.removeEntity, h0, hv, h1, h2]
      · simp [ComponentPool.removeEntity, h0, hv, h1, h2]
      · intro hnl hlen
        constructor
        · simp only [ComponentPool.removeEntity, h0, if_false, hv, Bool.not_true,
            Bool.false_eq_true, if_false, h1, if_true]
          rw [swapPop_getElem? id.unstableIndex p.versions (by omega), if_pos rfl,
            List.getLast?_eq_getElem?, hlen]
        · intro hnd hcontra
          simp only [ComponentPool.removeEntity, h0, if_false, hv, Bool.not_true,
            Bool.false_eq_true, if_false, h1, if_true] at hcontra
          rw [List.getLast?_eq_getElem?] at hcontra
          rcases List.getElem?_eq_some_iff.mp hcontra with ⟨hlt, hget⟩
          rcases List.getElem?_eq_some_iff.mp hver with ⟨hlt', hget'⟩
          have heq : id.unstableIndex = p.versions.length - 1 :=
            (List.Nodup.getElem_inj_iff hnd).mp (hget'.trans hget.symm)
          omega
    · have hsz : p.poolSize = 1 := by omega
      refine ⟨?_, ?_, ?_, ?_, ?_⟩
      · simp [ComponentPool.removeEntity, h0, hv, hsz]
      · simp [ComponentPool.removeEntity, h0, hv, hsz]
      · simp [ComponentPool.removeEntity, h0, hv, hsz]
      · simp [ComponentPool.removeEntity, h0, hv, hsz]
      · intro hnl
        omega

/-- Concrete use of the amended C5: removing slot 0 of a two-entity pool
validates and succeeds. -/
theorem claim_C5_remove_report_witness :
    ComponentPool.isValid (α := Nat) ⟨[[7, 8]], [true], [0], [0], [3, 4], 2, 99⟩
      ⟨0, 3, 99, false⟩ = true ∧
    (ComponentPool.removeEntity (α := Nat) ⟨[[7, 8]], [true], [0], [0], [3, 4], 2, 99⟩
      ⟨0, 3, 99, false⟩).1.success = true :=
  ⟨by decide, ((claim_C5_remove_report _ _).2 (by decide)).1⟩

/-! ## Resolution helper lemmas -/

/-- A live handle that validates directly in the pool found at its `poolKey`
resolves on the fast path, touching nothing and following no remap entry. -/
theorem resolveGo_direct {pools : List (Nat × ComponentPool α)}
    {remap : List (Nat × EntityId)} {id : EntityId} {p : ComponentPool α}
    (fuel : Nat) (hfind : alFind pools id.poolKey = some p)
    (hvalid : p.isValid id = true) (hdead : id.dead = false) :
    resolveGo pools (fuel + 1) remap id = ⟨some p, id, remap, 0⟩ := by
  simp [resolveGo, hdead, hfind, hvalid]

theorem resolveEntityId_direct {r : Registry α} {id : EntityId} {p : ComponentPool α}
    (hfind : alFind r.pools id.poolKey = some p)
    (hvalid : p.isValid id = true) (hdead : id.dead = false) :
    r.resolveEntityId id = ⟨some p, id, r.entityRemappings, 0⟩ :=
  resolveGo_direct _ hfind hvalid hdead

theorem alUpdate_length_pos (l : List (Nat × β)) (k : Nat) (v : β) :
    0 < (alUpdate l k v).length := by
  cases l with
  | nil => simp [alUpdate]
  | cons hd t =>
    rcases hd with ⟨k', v'⟩
    by_cases h : k' = k <;> simp [alUpdate, h]

theorem removeEntity_fst_success {p : ComponentPool α} {t : EntityId}
    (hvalid : p.isValid t = true) : (p.removeEntity t).1.success = true := by
  obtain ⟨_, hidx, _⟩ := (isValid_iff p t).mp hvalid
  have h0 : ¬ p.poolSize = 0 := by omega
  unfold ComponentPool.removeEntity
  by_cases h1 : p.poolSize > 1 <;> simp [h0, hvalid, h1]

/-- `Registry::removeEntity` on a directly-resolving handle. -/
theorem removeEntity_direct {r : Registry α} {t : EntityId} {p : ComponentPool α}
    (hIter : r.isIterating = false)
    (hfind : alFind r.pools t.poolKey = some p)
    (hvalid : p.isValid t = true) (hdead : t.dead = false) :
    r.removeEntity t = .ok ({ t with dead := true },
      { r with pools := alUpdate r.pools t.poolKey (p.removeEntity t).2,
               entityRemappings := handleRemoveResult (p.removeEntity t).1 p.poolKey
                 r.entityRemappings }) := by
  unfold Registry.removeEntity
  rw [hIter]
  simp only [Bool.false_eq_true, if_false, resolveEntityId_direct hfind hvalid hdead,
    removeEntity_fst_success hvalid, if_true]

/-! ## Claim C8 -/

/-- C8: a handle whose resolution fails (tombstoned, unmatched and unmapped,
or a terminal remap dead end) makes `get` return the explicit `none` result,
and `get`, `set`, `removeEntity`, `addComponent` and `removeComponent` all
return normally (no abort) leaving every pool and the version counter exactly
as they were — only the healed id and possibly a dead-marked remap entry
differ; likewise `get` on a resolved entity whose pool lacks the component
type returns `none`. -/
theorem claim_C8_expected_absence (α : Type) [Inhabited α] (r : Registry α)
    (id : EntityId) (c : Nat) (v : α)
    (hIter : r.isIterating = false)
    (hFail : (r.resolveEntityId id).pool = none) :
    r.get id c = (none, (r.resolveEntityId id).entityId,
      { r with entityRemappings := (r.resolveEntityId id).remappings }) ∧
    r.set id c v = ((r.resolveEntityId id).entityId,
      { r with entityRemappings := (r.resolveEntityId id).remappings }) ∧
    r.removeEntity id = .ok ((r.resolveEntityId id).entityId,
      { r with entityRemappings := (r.resolveEntityId id).remappings }) ∧
    r.addComponent id c v = .ok ((r.resolveEntityId id).entityId,
      { r with entityRemappings := (r.resolveEntityId id).remappings }) ∧
    r.removeComponent id c = .ok ((r.resolveEntityId id).entityId,
      { r with entityRemappings := (r.resolveEntityId id).remappings }) ∧
    (∀ (id2 : EntityId) (p2 : ComponentPool α),
      (r.resolveEntityId id2).pool = some p2 → p2.hasComponent c = false →
      (r.get id2 c).1 = none) := by
  refine ⟨?_, ?_, ?_, ?_, ?_, ?_⟩
  · simp only [Registry.get, hFail]
  · simp only [Registry.set, hFail]
  · unfold Registry.removeEntity
    rw [hIter]
    simp only [Bool.false_eq_true, if_false, hFail]
  · unfold Registry.addComponent
    rw [hIter]
    simp only [Bool.false_eq_true, if_false, hFail]
  · unfold Registry.removeComponent
    rw [hIter]
    simp only [Bool.false_eq_true, if_false, hFail]
  · intro id2 p2 hres habs
    simp only [Registry.get, hres]
    simp [ComponentPool.getComponent, ComponentPool.hasComponents,
      ComponentPool.hasComponent] at habs ⊢
    simp [habs]

/-- Concrete use of C8: a never-created handle on the fresh registry. -/
theorem claim_C8_witness :
    emptyReg.isIterating = false ∧
    (emptyReg.resolveEntityId ⟨0, 0, 0, false⟩).pool = none ∧
    emptyReg.get ⟨0, 0, 0, false⟩ 1 = (none,
      (emptyReg.resolveEntityId ⟨0, 0, 0, false⟩).entityId,
      { emptyReg with
          entityRemappings := (emptyReg.resolveEntityId ⟨0, 0, 0, false⟩).remappings }) :=
  ⟨rfl, by decide,
    (claim_C8_expected_absence Nat emptyReg ⟨0, 0, 0, false⟩ 1 0 rfl (by decide)).1⟩

/-! ## Claim C10 -/

/-- C10: `createEntity` with the empty component-type list succeeds — the pool
keyed by `combineHashes [] = 0` is created lazily, only a version entry is
appended (all columns stay empty), the returned handle resolves directly, and
`get` answers `none` for every component type. -/
theorem claim_C10_create_empty (α : Type) (r : Registry α)
    (hIter : r.isIterating = false)
    (hAbsent : alFind r.pools 0 = none) :
    combineHashes ([] : List Nat) = 0 ∧
    ∃ (p1 : ComponentPool α) (r2 : Registry α),
      r.createEntity [] = .ok (⟨0, r.nextVersionIndex, 0, false⟩, r2) ∧
      r2 = { r with pools := r.pools ++ [(0, p1)],
                    nextVersionIndex := r.nextVersionIndex + 1 } ∧
      p1.components = List.replicate r.numComponents [] ∧
      p1.versions = [r.nextVersionIndex] ∧
      p1.poolSize = 1 ∧
      (r2.resolveEntityId ⟨0, r.nextVersionIndex, 0, false⟩).pool = some p1 ∧
      (∀ c : Nat, (r2.get ⟨0, r.nextVersionIndex, 0, false⟩ c).1 = none) := by
  refine ⟨rfl, ⟨{ components := List.replicate r.numComponents [],
                  componentsInUseBitmask := List.replicate r.numComponents false,
                  componentsInUseIndices := [], componentHashes := [],
                  versions := [r.nextVersionIndex], poolSize := 1, poolKey := 0 },
    _, ?_, rfl, rfl, rfl, rfl, ?_, ?_⟩⟩
  · unfold Registry.createEntity
    rw [hIter]
    have hkey : combineHashes ([] : List Nat) = 0 := rfl
    simp only [Bool.false_eq_true, if_false, generateComponentPoolKeyFromHashes,
      List.map_nil, hkey, hAbsent]
    simp [poolAt, alFind_append_right hAbsent, alFind, ComponentPool.createEntity,
      initFromTemplate, alUpdate_append_self _ _ hAbsent]
  · set p1 : ComponentPool α :=
      { components := List.replicate r.numComponents [],
        componentsInUseBitmask := List.replicate r.numComponents false,
        componentsInUseIndices := [], componentHashes := [],
        versions := [r.nextVersionIndex], poolSize := 1, poolKey := 0 } with hp1
    have hfind : alFind (r.pools ++ [(0, p1)]) 0 = some p1 := by
      rw [alFind_append_right hAbsent]
      simp [alFind]
    have hvalid : p1.isValid ⟨0, r.nextVersionIndex, 0, false⟩ = true := by
      rw [isValid_iff]
      refine ⟨rfl, by simp [hp1], by simp [hp1]⟩
    exact congrArg ResolveResult.pool
      (resolveEntityId_direct
        (r := { r with pools := r.pools ++ [(0, p1)],
                       nextVersionIndex := r.nextVersionIndex + 1 }) hfind hvalid rfl)
  · intro c
    set p1 : ComponentPool α :=
      { components := List.replicate r.numComponents [],
        componentsInUseBitmask := List.replicate r.numComponents false,
        componentsInUseIndices := [], componentHashes := [],
        versions := [r.nextVersionIndex], poolSize := 1, poolKey := 0 } with hp1
    have hfind : alFind (r.pools ++ [(0, p1)]) 0 = some p1 := by
      rw [alFind_append_right hAbsent]
      simp [alFind]
    have hvalid : p1.isValid ⟨0, r.nextVersionIndex, 0, false⟩ = true := by
      rw [isValid_iff]
      refine ⟨rfl, by simp [hp1], by simp [hp1]⟩
    simp only [Registry.get,
      resolveEntityId_direct
        (r := { r with pools := r.pools ++ [(0, p1)],
                       nextVersionIndex := r.nextVersionIndex + 1 }) hfind hvalid rfl]
    simp [ComponentPool.getComponent, ComponentPool.hasComponents, hp1,
      bsTest_replicate_false]

/-- Concrete use of C10 on the fresh registry. -/
theorem claim_C10_witness :
    emptyReg.isIterating = false ∧ alFind emptyReg.pools 0 = none ∧
    combineHashes ([] : List Nat) = 0 := by
  have h := claim_C10_create_empty Nat emptyReg rfl rfl
  exact ⟨rfl, rfl, h.1⟩

/-! ## Claim C1 -/

/-- C1: in a pool of size ≥ 2, after `removeEntity` destroys the entity at a
non-last slot, the stale handle previously captured for the entity occupying
the *last* slot resolves (through the published remap entry) to that entity's
new slot — the removed slot's index — and `get` returns its original component
value. -/
theorem claim_C1_swap_removal_heals (α : Type) (r : Registry α)
    (p : ComponentPool α) (t : EntityId) (k c vL : Nat) (x : α)
    (hIter : r.isIterating = false)
    (hp : alFind r.pools k = some p)
    (hpk : p.poolKey = k)
    (hlen : p.versions.length = p.poolSize)
    (hclen : (p.components.getD c []).length = p.poolSize)
    (hcmask : bsTest p.componentsInUseBitmask c = true)
    (hcin : c ∈ p.componentsInUseIndices)
    (hnodup : p.componentsInUseIndices.Nodup)
    (hcbound : c < p.components.length)
    (ht : t.poolKey = k) (htd : t.dead = false)
    (hver : p.versions[t.unstableIndex]? = some t.version)
    (hnl : t.unstableIndex + 1 < p.poolSize)
    (hvL : p.versions[p.poolSize - 1]? = some vL)
    (hx : (p.components.getD c [])[p.poolSize - 1]? = some x) :
    ∃ r' : Registry α,
      r.removeEntity t = .ok ({ t with dead := true }, r') ∧
      (r'.resolveEntityId ⟨p.poolSize - 1, vL, k, false⟩).entityId =
        ⟨t.unstableIndex, vL, k, false⟩ ∧
      ((r'.resolveEntityId ⟨p.poolSize - 1, vL, k, false⟩).pool).isSome = true ∧
      (r'.get ⟨p.poolSize - 1, vL, k, false⟩ c).1 = some x := by
  have hvalid : p.isValid t = true := by
    rw [isValid_iff]
    exact ⟨htd, by omega, hver⟩
  have hfind : alFind r.pools t.poolKey = some p := ht ▸ hp
  have hsz : 1 < p.poolSize := by omega
  -- the pool after the swap-pop removal
  obtain ⟨rmres, p2, hrm⟩ : ∃ rmres p2, p.removeEntity t = (rmres, p2) :=
    ⟨_, _, rfl⟩
  have h0 : ¬ p.poolSize = 0 := by omega
  have hrmres : rmres = { success := true, wasSwapped := true,
                          swappedEntityVersion := p.versions.getLast?,
                          swappedEntityUnstableIndex := some t.unstableIndex } := by
    have := hrm.symm
    unfold ComponentPool.removeEntity at this
    simp only [h0, if_false, hvalid, Bool.not_true, Bool.false_eq_true, hsz, if_true] at this
    exact congrArg Prod.fst this
  have hp2 : p2 = { p with components := p.componentsInUseIndices.foldl
                             (fun cs i => modifyAt cs i (swapPop t.unstableIndex)) p.components,
                           versions := swapPop t.unstableIndex p.versions,
                           poolSize := p.poolSize - 1 } := by
    have := hrm.symm
    unfold ComponentPool.removeEntity at this
    simp only [h0, if_false, hvalid, Bool.not_true, Bool.false_eq_true, hsz, if_true] at this
    exact congrArg Prod.snd this
  have hgetLast : p.versions.getLast? = some vL := by
    rw [List.getLast?_eq_getElem?, hlen]
    exact hvL
  -- the registry after removal
  have hrem : r.removeEntity t = .ok ({ t with dead := true },
      { r with pools := alUpdate r.pools t.poolKey p2,
               entityRemappings := alUpdate r.entityRemappings vL
                                     ⟨t.unstableIndex, vL, p.poolKey, false⟩ }) := by
    rw [removeEntity_direct hIter hfind hvalid htd, hrm]
    simp only [hrmres, handleRemoveResult, Bool.not_true, Bool.false_eq_true, if_false,
      if_true, hgetLast]
  refine ⟨_, hrem, ?_⟩
  -- resolution of the stale last-slot handle in the post-removal registry
  have hfind2 : alFind (alUpdate r.pools t.poolKey p2) k = some p2 := by
    rw [ht, alFind_alUpdate_self]
  have hp2size : p2.poolSize = p.poolSize - 1 := by rw [hp2]
  have hp2ver : p2.versions[t.unstableIndex]? = some vL := by
    rw [hp2]
    show (swapPop t.unstableIndex p.versions)[t.unstableIndex]? = some vL
    rw [swapPop_getElem? _ _ (by omega), if_pos rfl, hlen]
    exact hvL
  have hstale : p2.isValid ⟨p.poolSize - 1, vL, k, false⟩ = false := by
    unfold ComponentPool.isValid
    have : ¬ ((⟨p.poolSize - 1, vL, k, false⟩ : EntityId).unstableIndex < p2.poolSize) := by
      simp only [hp2size]; omega
    simp [this]
  have hhealed : p2.isValid ⟨t.unstableIndex, vL, k, false⟩ = true := by
    rw [isValid_iff]
    refine ⟨rfl, ?_, hp2ver⟩
    show t.unstableIndex < p2.poolSize
    omega
  have hnotid : EntityId.isIdentical ⟨t.unstableIndex, vL, p.poolKey, false⟩
      ⟨p.poolSize - 1, vL, k, false⟩ = false := by
    simp only [EntityId.isIdentical, Bool.and_eq_false_iff, beq_eq_false_iff_ne]
    left; left
    show t.unstableIndex ≠ p.poolSize - 1
    omega
  -- unfold two levels of resolveGo
  obtain ⟨m, hm⟩ : ∃ m, (alUpdate r.entityRemappings vL
      ⟨t.unstableIndex, vL, p.poolKey, false⟩).length = m + 1 := by
    have := alUpdate_length_pos r.entityRemappings vL ⟨t.unstableIndex, vL, p.poolKey, false⟩
    exact ⟨_, (Nat.succ_pred_eq_of_pos this).symm⟩
  have hres : ({ r with pools := alUpdate r.pools t.poolKey p2,
                        entityRemappings := alUpdate r.entityRemappings vL
                                              ⟨t.unstableIndex, vL, p.poolKey, false⟩ } :
        Registry α).resolveEntityId
      ⟨p.poolSize - 1, vL, k, false⟩ =
      ⟨some p2, ⟨t.unstableIndex, vL, p.poolKey, false⟩,
        alUpdate r.entityRemappings vL ⟨t.unstableIndex, vL, p.poolKey, false⟩, 1⟩ := by
    unfold Registry.resolveEntityId
    show resolveGo _ (_ + 1) _ _ = _
    rw [resolveGo]
    simp only [Bool.false_eq_true, if_false, hfind2, hstale, alFind_alUpdate_self, hnotid]
    have hfind3 : alFind (alUpdate r.pools t.poolKey p2)
        (⟨t.unstableIndex, vL, p.poolKey, false⟩ : EntityId).poolKey = some p2 := by
      show alFind (alUpdate r.pools t.poolKey p2) p.poolKey = some p2
      rw [hpk]; exact hfind2
    have hhealed2 : p2.isValid ⟨t.unstableIndex, vL, p.poolKey, false⟩ = true := by
      rw [hpk]; exact hhealed
    rw [hm, resolveGo_direct m hfind3 hhealed2 rfl]
  refine ⟨by rw [hres, hpk], by rw [hres]; rfl, ?_⟩
  -- get returns the swapped-in original value
  simp only [Registry.get, hres]
  have hmask2 : p2.componentsInUseBitmask = p.componentsInUseBitmask := by rw [hp2]
  have hc2 : (p2.components.getD c [])[t.unstableIndex]? = some x := by
    rw [hp2]
    show ((p.componentsInUseIndices.foldl
      (fun cs i => modifyAt cs i (swapPop t.unstableIndex)) p.components).getD c [])[t.unstableIndex]? = some x
    rw [foldl_modifyAt_getD_mem (u := fun i => i) p.componentsInUseIndices p.components
      (by simpa using hnodup) hcin rfl hcbound]
    show (swapPop t.unstableIndex (p.components.getD c []))[t.unstableIndex]? = some x
    rw [swapPop_getElem? _ _ (by omega), if_pos rfl, hclen]
    exact hx
  unfold ComponentPool.getComponent
  simp only [ComponentPool.hasComponents, List.all_cons, List.all_nil, hmask2, hcmask,
    Bool.and_true, Bool.not_true, Bool.false_eq_true, if_false, hhealed, if_true, hc2]
  rw [if_pos (show p2.isValid ⟨t.unstableIndex, vL, p.poolKey, false⟩ = true by
    rw [hpk]; exact hhealed)]

/-! ## Transfer machinery: lemmas for `transferEntityToNewPool` -/

theorem alUpdate_alUpdate (l : List (Nat × β)) (k : Nat) (v v' : β) :
    alUpdate (alUpdate l k v) k v' = alUpdate l k v' := by
  induction l with
  | nil => simp [alUpdate]
  | cons hd t ih =>
    rcases hd with ⟨k₀, v₀⟩
    by_cases h : k₀ = k
    · simp [alUpdate, h]
    · simp [alUpdate, h, ih]

theorem modifyAt_id (l : List β) (i : Nat) : modifyAt l i (fun x => x) = l := by
  induction l generalizing i with
  | nil => rfl
  | cons hd t ih =>
    cases i with
    | zero => rfl
    | succ j => simp [modifyAt, ih]

theorem poolAt_alUpdate_self (pools : List (Nat × ComponentPool α)) (k : Nat)
    (p : ComponentPool α) : poolAt (alUpdate pools k p) k = p := by
  simp [poolAt, alFind_alUpdate_self]

theorem poolAt_alUpdate_ne (pools : List (Nat × ComponentPool α)) {k k' : Nat}
    (p : ComponentPool α) (h : k' ≠ k) :
    poolAt (alUpdate pools k p) k' = poolAt pools k' := by
  simp [poolAt, alFind_alUpdate_ne _ _ h]

/-- The copy loop of `transferPopulate` threads all its writes through the
destination key, so it collapses to a pool-level fold (the source pool is
read at its pre-loop value throughout, since the keys differ). -/
theorem copyFold_eq {α : Type} (skip oldKey newKey : Nat) (hne : oldKey ≠ newKey)
    (f : Nat → ComponentPool α → ComponentPool α → ComponentPool α)
    (idxs : List Nat) (ps0 : List (Nat × ComponentPool α)) (q : ComponentPool α) :
    idxs.foldl (fun ps ci => if ci = skip then ps
        else alUpdate ps newKey (f ci (poolAt ps oldKey) (poolAt ps newKey)))
      (alUpdate ps0 newKey q) =
    alUpdate ps0 newKey (idxs.foldl (fun qq ci => if ci = skip then qq
        else f ci (poolAt ps0 oldKey) qq) q) := by
  induction idxs generalizing q with
  | nil => rfl
  | cons hd t ih =>
    by_cases hskip : hd = skip
    · simp only [List.foldl_cons, if_pos hskip]
      exact ih q
    · simp only [List.foldl_cons, if_neg hskip]
      rw [poolAt_alUpdate_ne _ _ hne, poolAt_alUpdate_self, alUpdate_alUpdate]
      exact ih _

theorem createEntityFromBitmask_spec [Inhabited α] {p : ComponentPool α} {id : EntityId}
    (hidx : id.unstableIndex = p.poolSize) (hlen : p.poolSize = p.versions.length) :
    p.createEntityFromBitmask id = .ok { p with
      components := p.componentsInUseIndices.foldl
        (fun cs i => modifyAt cs i (fun vec => vec ++ [(default : α)])) p.components,
      versions := p.versions ++ [id.version],
      poolSize := p.poolSize + 1 } := by
  unfold ComponentPool.createEntityFromBitmask
  simp [hidx, hlen]

/-- The destination pool produced by `transferPopulate`: a default slot is
appended, then every in-use column except `skip` receives the source slot's
value at the new index (`np.poolSize`). -/
def populatedDest [Inhabited α] (skip : Nat) (op : ComponentPool α) (oldIdx : Nat)
    (np : ComponentPool α) (ver : Nat) : ComponentPool α :=
  np.componentsInUseIndices.foldl (fun q ci => if ci = skip then q
      else q.setComponent ci np.poolSize ((op.components.getD ci []).getD oldIdx default))
    { np with
      components := np.componentsInUseIndices.foldl
        (fun cs i => modifyAt cs i (fun vec => vec ++ [(default : α)])) np.components,
      versions := np.versions ++ [ver],
      poolSize := np.poolSize + 1 }

/-- A fold of guarded `setComponent` writes touches only the `components`
field. -/
theorem foldl_setComponent_fields [Inhabited α] (skip idx : Nat) (vf : Nat → α)
    (idxs : List Nat) (q0 : ComponentPool α) :
    (idxs.foldl (fun q ci => if ci = skip then q
        else q.setComponent ci idx (vf ci)) q0).versions = q0.versions ∧
    (idxs.foldl (fun q ci => if ci = skip then q
        else q.setComponent ci idx (vf ci)) q0).poolSize = q0.poolSize ∧
    (idxs.foldl (fun q ci => if ci = skip then q
        else q.setComponent ci idx (vf ci)) q0).componentsInUseBitmask =
      q0.componentsInUseBitmask ∧
    (idxs.foldl (fun q ci => if ci = skip then q
        else q.setComponent ci idx (vf ci)) q0).componentsInUseIndices =
      q0.componentsInUseIndices ∧
    (idxs.foldl (fun q ci => if ci = skip then q
        else q.setComponent ci idx (vf ci)) q0).componentHashes = q0.componentHashes ∧
    (idxs.foldl (fun q ci => if ci = skip then q
        else q.setComponent ci idx (vf ci)) q0).poolKey = q0.poolKey := by
  induction idxs generalizing q0 with
  | nil => exact ⟨rfl, rfl, rfl, rfl, rfl, rfl⟩
  | cons hd t ih =>
    by_cases h : hd = skip
    · simpa [h] using ih q0
    · simpa [h, ComponentPool.setComponent] using ih _

/-- The `components` field of that fold, as a plain list fold. -/
theorem foldl_setComponent_components [Inhabited α] (skip idx : Nat) (vf : Nat → α)
    (idxs : List Nat) (q0 : ComponentPool α) :
    (idxs.foldl (fun q ci => if ci = skip then q
        else q.setComponent ci idx (vf ci)) q0).components =
    idxs.foldl (fun cs ci => modifyAt cs ci
        (fun vec => if ci = skip then vec else vec.set idx (vf ci))) q0.components := by
  induction idxs generalizing q0 with
  | nil => rfl
  | cons hd t ih =>
    by_cases h : hd = skip
    · simp only [List.foldl_cons, if_pos h, ih, modifyAt_id]
    · simp only [List.foldl_cons, if_neg h]
      rw [ih]
      simp only [ComponentPool.setComponent, if_neg h]

theorem transferPopulate_spec [Inhabited α] {pools : List (Nat × ComponentPool α)}
    {oldId newId : EntityId} {skip : Nat} {np : ComponentPool α}
    (hfind : alFind pools newId.poolKey = some np)
    (hne : oldId.poolKey ≠ newId.poolKey)
    (hidx : newId.unstableIndex = np.poolSize)
    (hlen : np.poolSize = np.versions.length) :
    transferPopulate skip oldId newId pools = .ok (alUpdate pools newId.poolKey
      (populatedDest skip (poolAt pools oldId.poolKey) oldId.unstableIndex np
        newId.version)) := by
  unfold transferPopulate
  rw [show poolAt pools newId.poolKey = np from by simp [poolAt, hfind]]
  rw [createEntityFromBitmask_spec hidx hlen]
  have hidx2 : ¬ newId.unstableIndex ≠ np.poolSize + 1 - 1 := by omega
  simp only [hidx2, if_false, List.getLast?_concat, ne_eq, not_true_eq_false,
    if_neg, if_false]
  congr 1
  have hfold := copyFold_eq skip oldId.poolKey newId.poolKey hne
    (fun ci op q => q.setComponent ci newId.unstableIndex
      ((op.components.getD ci []).getD oldId.unstableIndex default))
    np.componentsInUseIndices pools
    { np with
      components := np.componentsInUseIndices.foldl
        (fun cs i => modifyAt cs i (fun vec => vec ++ [(default : α)])) np.components,
      versions := np.versions ++ [newId.version],
      poolSize := np.poolSize + 1 }
  rw [hfold]
  unfold populatedDest
  rw [hidx]

theorem removeEntity_eq {p : ComponentPool α} {t : EntityId}
    (hvalid : p.isValid t = true) :
    p.removeEntity t =
      ((if p.poolSize > 1 then
          { success := true, wasSwapped := true,
            swappedEntityVersion := p.versions.getLast?,
            swappedEntityUnstableIndex := some t.unstableIndex }
        else { success := true }),
       { p with
         components := p.componentsInUseIndices.foldl
           (fun cs i => modifyAt cs i (swapPop t.unstableIndex)) p.components,
         versions := swapPop t.unstableIndex p.versions,
         poolSize := p.poolSize - 1 }) := by
  have h0 : ¬ p.poolSize = 0 := by
    obtain ⟨_, hidx, _⟩ := (isValid_iff p t).mp hvalid
    omega
  unfold ComponentPool.removeEntity
  simp only [h0, if_false, hvalid, Bool.not_true, Bool.false_eq_true, if_false]

/-- `transferEntityToNewPool` under a fresh (non-aliased) destination key:
populate the destination, swap-pop the source, publish both remap entries. -/
theorem transferEntityToNewPool_spec [Inhabited α]
    {pools : List (Nat × ComponentPool α)} {remap : List (Nat × EntityId)}
    {oldId newId : EntityId} {skip : Nat} {np op : ComponentPool α}
    (hfindN : alFind pools newId.poolKey = some np)
    (hfindO : alFind pools oldId.poolKey = some op)
    (hne : oldId.poolKey ≠ newId.poolKey)
    (hidx : newId.unstableIndex = np.poolSize)
    (hlen : np.poolSize = np.versions.length) :
    transferEntityToNewPool false skip oldId newId pools remap = .ok (newId,
      alUpdate (alUpdate pools newId.poolKey
          (populatedDest skip op oldId.unstableIndex np newId.version))
        oldId.poolKey (op.removeEntity oldId).2,
      alUpdate (handleRemoveResult (op.removeEntity oldId).1 op.poolKey remap)
        newId.version newId) := by
  unfold transferEntityToNewPool
  simp only [Bool.false_eq_true, if_false, transferPopulate_spec hfindN hne hidx hlen,
    poolAt_alUpdate_ne _ _ hne]
  rw [show poolAt pools oldId.poolKey = op from by simp [poolAt, hfindO]]

/-- Postcondition of a successful resolution: the pool returned is the one
found at the healed id's `poolKey`, the healed id validates there, and the
remap table is untouched (only *failing* dead-end resolutions mark entries). -/
theorem resolveGo_ok {pools : List (Nat × ComponentPool α)} :
    ∀ (fuel : Nat) (remap : List (Nat × EntityId)) (id : EntityId) (p : ComponentPool α),
      (resolveGo pools fuel remap id).pool = some p →
      alFind pools (resolveGo pools fuel remap id).entityId.poolKey = some p ∧
      p.isValid (resolveGo pools fuel remap id).entityId = true ∧
      (resolveGo pools fuel remap id).entityId.dead = false ∧
      (resolveGo pools fuel remap id).remappings = remap
  | 0, remap, id, p => by
    intro h
    simp [resolveGo] at h
  | (fuel + 1), remap, id, p => by
    intro h
    rw [resolveGo] at h ⊢
    by_cases hdead : id.dead = true
    · simp [hdead] at h
    · simp only [Bool.not_eq_true] at hdead
      simp only [hdead, Bool.false_eq_true, if_false] at h ⊢
      rcases hf : alFind pools id.poolKey with _ | q
      · simp only [hf] at h ⊢
        rcases hr : alFind remap id.version with _ | target
        · simp [hr] at h
        · simp only [hr] at h ⊢
          by_cases hid : target.isIdentical id = true
          · simp [hid] at h
          · simp only [Bool.not_eq_true] at hid
            simp only [hid, Bool.false_eq_true, if_false] at h ⊢
            exact resolveGo_ok fuel remap target p h
      · simp only [hf] at h ⊢
        by_cases hv : q.isValid id = true
        · simp only [hv, if_true] at h ⊢
          cases h
          exact ⟨hf, hv, hdead, trivial⟩
        · simp only [Bool.not_eq_true] at hv
          simp only [hv, Bool.false_eq_true, if_false] at h ⊢
          rcases hr : alFind remap id.version with _ | target
          · simp [hr] at h
          · simp only [hr] at h ⊢
            by_cases hid : target.isIdentical id = true
            · simp [hid] at h
            · simp only [Bool.not_eq_true] at hid
              simp only [hid, Bool.false_eq_true, if_false] at h ⊢
              exact resolveGo_ok fuel remap target p h

theorem resolveEntityId_ok {r : Registry α} {id : EntityId} {p : ComponentPool α}
    (h : (r.resolveEntityId id).pool = some p) :
    alFind r.pools (r.resolveEntityId id).entityId.poolKey = some p ∧
    p.isValid (r.resolveEntityId id).entityId = true ∧
    (r.resolveEntityId id).entityId.dead = false ∧
    (r.resolveEntityId id).remappings = r.entityRemappings :=
  resolveGo_ok _ _ _ _ h

/-- All fields of `populatedDest` other than `components`. -/
theorem populatedDest_fields [Inhabited α] (skip : Nat) (op : ComponentPool α)
    (oldIdx : Nat) (np : ComponentPool α) (ver : Nat) :
    (populatedDest skip op oldIdx np ver).versions = np.versions ++ [ver] ∧
    (populatedDest skip op oldIdx np ver).poolSize = np.poolSize + 1 ∧
    (populatedDest skip op oldIdx np ver).componentsInUseBitmask =
      np.componentsInUseBitmask ∧
    (populatedDest skip op oldIdx np ver).componentsInUseIndices =
      np.componentsInUseIndices ∧
    (populatedDest skip op oldIdx np ver).componentHashes = np.componentHashes ∧
    (populatedDest skip op oldIdx np ver).poolKey = np.poolKey := by
  unfold populatedDest
  simpa using foldl_setComponent_fields skip np.poolSize
    (fun ci => (op.components.getD ci []).getD oldIdx default)
    np.componentsInUseIndices _

/-- The copied value in a non-skipped in-use column of the destination slot. -/
theorem populatedDest_col_copied [Inhabited α] {skip : Nat} {op : ComponentPool α}
    {oldIdx : Nat} {np : ComponentPool α} {ver : Nat} {ci : Nat}
    (hnd : np.componentsInUseIndices.Nodup) (hci : ci ∈ np.componentsInUseIndices)
    (hskip : ci ≠ skip) (hbound : ci < np.components.length)
    (hclen : (np.components.getD ci []).length = np.poolSize) :
    ((populatedDest skip op oldIdx np ver).components.getD ci [])[np.poolSize]? =
      some ((op.components.getD ci []).getD oldIdx default) := by
  unfold populatedDest
  rw [foldl_setComponent_components]
  have hkey : ((fun i => i) : Nat → Nat) ci = ci := rfl
  rw [foldl_modifyAt_getD_mem (u := fun i => i)
    (g := fun i vec => if i = skip then vec
      else vec.set np.poolSize ((op.components.getD i []).getD oldIdx default))
    np.componentsInUseIndices _ (by simpa using hnd) hci rfl
    (by rw [foldl_modifyAt_length]; exact hbound)]
  rw [foldl_modifyAt_getD_mem (u := fun i => i)
    (g := fun i vec => vec ++ [(default : α)])
    np.componentsInUseIndices _ (by simpa using hnd) hci rfl hbound]
  rw [if_neg hskip]
  show (((np.components.getD ci []) ++ [(default : α)]).set np.poolSize
      ((op.components.getD ci []).getD oldIdx default))[np.poolSize]? =
    some ((op.components.getD ci []).getD oldIdx default)
  rw [List.getElem?_set_self (by rw [List.length_append, hclen]; simp)]

/-- The skipped column of the destination slot holds the pushed default. -/
theorem populatedDest_col_skip [Inhabited α] {skip : Nat} {op : ComponentPool α}
    {oldIdx : Nat} {np : ComponentPool α} {ver : Nat}
    (hnd : np.componentsInUseIndices.Nodup) (hci : skip ∈ np.componentsInUseIndices)
    (hbound : skip < np.components.length)
    (hclen : (np.components.getD skip []).length = np.poolSize) :
    ((populatedDest skip op oldIdx np ver).components.getD skip [])[np.poolSize]? =
      some (default : α) := by
  unfold populatedDest
  rw [foldl_setComponent_components]
  rw [foldl_modifyAt_getD_mem (u := fun i => i)
    (g := fun i vec => if i = skip then vec
      else vec.set np.poolSize ((op.components.getD i []).getD oldIdx default))
    np.componentsInUseIndices _ (by simpa using hnd) hci rfl
    (by rw [foldl_modifyAt_length]; exact hbound)]
  rw [foldl_modifyAt_getD_mem (u := fun i => i)
    (g := fun i vec => vec ++ [(default : α)])
    np.componentsInUseIndices _ (by simpa using hnd) hci rfl hbound]
  rw [if_pos rfl]
  show ((np.components.getD skip []) ++ [(default : α)])[np.poolSize]? =
    some (default : α)
  rw [List.getElem?_append_right (by omega : (np.components.getD skip []).length ≤ np.poolSize),
    hclen]
  simp

/-- Global description of `Registry::addComponent` for a type the entity
lacks, covering both the pool-found and pool-created paths (`np` is the
destination pool before the transfer; `pools0` the pool table after the lazy
creation, if any). -/
theorem addComponent_eq [Inhabited α] {r : Registry α} {id oid : EntityId} {c : Nat}
    {v : α} {p np : ComponentPool α} {pools0 : List (Nat × ComponentPool α)}
    {newKey : Nat}
    (hIter : r.isIterating = false)
    (hres : (r.resolveEntityId id).pool = some p)
    (hoid : (r.resolveEntityId id).entityId = oid)
    (habs : p.hasComponent c = false)
    (hkey : newKey = combineHashes (p.componentHashes ++ [typeHash c]))
    (hne : oid.poolKey ≠ newKey)
    (hcase : (alFind r.pools newKey = some np ∧ pools0 = r.pools) ∨
      (alFind r.pools newKey = none ∧
        np = initFromBitmask r.numComponents newKey (p.componentHashes ++ [typeHash c])
          (bsSet p.componentsInUseBitmask c true) ∧
        pools0 = r.pools ++ [(newKey, np)]))
    (hlenN : np.poolSize = np.versions.length) :
    r.addComponent id c v = .ok (⟨np.poolSize, oid.version, newKey, false⟩,
      { r with
        pools := alUpdate (alUpdate (alUpdate pools0 newKey
            (populatedDest c p oid.unstableIndex np oid.version)) oid.poolKey
            (p.removeEntity oid).2) newKey
          ((populatedDest c p oid.unstableIndex np oid.version).setComponent c
            np.poolSize v),
        entityRemappings := alUpdate (handleRemoveResult (p.removeEntity oid).1
            p.poolKey r.entityRemappings) oid.version
          ⟨np.poolSize, oid.version, newKey, false⟩ }) := by
  obtain ⟨hfindO, hvalid, hdead, hremap⟩ := resolveEntityId_ok hres
  rw [hoid] at hfindO hvalid
  unfold Registry.addComponent
  rw [hIter]
  simp only [Bool.false_eq_true, if_false, hres, hoid, hremap, habs,
    generateComponentPoolKeyFromHashes, ← hkey]
  have hfindN : alFind pools0 newKey = some np := by
    rcases hcase with ⟨hf, hp0⟩ | ⟨hf, hnp, hp0⟩
    · rw [hp0]; exact hf
    · rw [hp0, alFind_append_right hf]
      simp [alFind]
  have hfindO0 : alFind pools0 oid.poolKey = some p := by
    rcases hcase with ⟨hf, hp0⟩ | ⟨hf, hnp, hp0⟩
    · rw [hp0]; exact hfindO
    · rw [hp0]; exact alFind_append_left hfindO
  have hpool0 : poolAt pools0 newKey = np := by simp [poolAt, hfindN]
  have hmain : (match alFind r.pools newKey with
      | some _ => r.pools
      | none => r.pools ++ [(newKey, initFromBitmask r.numComponents newKey
          (p.componentHashes ++ [typeHash c]) (bsSet p.componentsInUseBitmask c true))]) =
      pools0 := by
    rcases hcase with ⟨hf, hp0⟩ | ⟨hf, hnp, hp0⟩
    · rw [hf, hp0]
    · rw [hf, hp0, hnp]
  rw [hmain, hpool0]
  rw [transferEntityToNewPool_spec hfindN hfindO0 hne rfl hlenN]
  simp only [poolAt_alUpdate_ne _ _ (Ne.symm hne), poolAt_alUpdate_self]

/-- Global description of `Registry::removeComponent` for a type the entity
has, covering both the pool-found and pool-created paths. -/
theorem removeComponent_eq [Inhabited α] {r : Registry α} {id oid : EntityId} {c : Nat}
    {p np : ComponentPool α} {pools0 : List (Nat × ComponentPool α)} {newKey : Nat}
    (hIter : r.isIterating = false)
    (hres : (r.resolveEntityId id).pool = some p)
    (hoid : (r.resolveEntityId id).entityId = oid)
    (hpres : p.hasComponent c = true)
    (hkey : newKey = combineHashes (p.componentHashes.filter (fun h => h ≠ typeHash c)))
    (hne : oid.poolKey ≠ newKey)
    (hcase : (alFind r.pools newKey = some np ∧ pools0 = r.pools) ∨
      (alFind r.pools newKey = none ∧
        np = initFromBitmask r.numComponents newKey
          (p.componentHashes.filter (fun h => h ≠ typeHash c))
          (bsSet p.componentsInUseBitmask c false) ∧
        pools0 = r.pools ++ [(newKey, np)]))
    (hlenN : np.poolSize = np.versions.length) :
    r.removeComponent id c = .ok (⟨np.poolSize, oid.version, newKey, false⟩,
      { r with
        pools := alUpdate (alUpdate pools0 newKey
            (populatedDest c p oid.unstableIndex np oid.version)) oid.poolKey
          (p.removeEntity oid).2,
        entityRemappings := alUpdate (handleRemoveResult (p.removeEntity oid).1
            p.poolKey r.entityRemappings) oid.version
          ⟨np.poolSize, oid.version, newKey, false⟩ }) := by
  obtain ⟨hfindO, hvalid, hdead, hremap⟩ := resolveEntityId_ok hres
  rw [hoid] at hfindO hvalid
  unfold Registry.removeComponent
  rw [hIter]
  simp only [Bool.false_eq_true, if_false, hres, hoid, hremap, hpres, Bool.not_true,
    generateComponentPoolKeyFromHashes, ← hkey]
  have hfindN : alFind pools0 newKey = some np := by
    rcases hcase with ⟨hf, hp0⟩ | ⟨hf, hnp, hp0⟩
    · rw [hp0]; exact hf
    · rw [hp0, alFind_append_right hf]
      simp [alFind]
  have hfindO0 : alFind pools0 oid.poolKey = some p := by
    rcases hcase with ⟨hf, hp0⟩ | ⟨hf, hnp, hp0⟩
    · rw [hp0]; exact hfindO
    · rw [hp0]; exact alFind_append_left hfindO
  have hpool0 : poolAt pools0 newKey = np := by simp [poolAt, hfindN]
  have hmain : (match alFind r.pools newKey with
      | some _ => r.pools
      | none => r.pools ++ [(newKey, initFromBitmask r.numComponents newKey
          (p.componentHashes.filter (fun h => h ≠ typeHash c))
          (bsSet p.componentsInUseBitmask c false))]) =
      pools0 := by
    rcases hcase with ⟨hf, hp0⟩ | ⟨hf, hnp, hp0⟩
    · rw [hf, hp0]
    · rw [hf, hp0, hnp]
  rw [hmain, hpool0]
  rw [transferEntityToNewPool_spec hfindN hfindO0 hne rfl hlenN]

theorem swapPop_no_occurrence {l : List Nat} {idx v : Nat}
    (huniq : ∀ j : Nat, l[j]? = some v → j = idx) :
    ∀ j : Nat, (swapPop idx l)[j]? ≠ some v := by
  intro j hj
  rcases Nat.lt_or_ge (j + 1) l.length with hlt | hge
  · rw [swapPop_getElem? idx l hlt] at hj
    by_cases hji : j = idx
    · rw [if_pos hji] at hj
      have := huniq _ hj
      omega
    · rw [if_neg hji] at hj
      exact hji (huniq _ hj)
  · rw [swapPop_getElem?_ge idx l hge] at hj
    cases hj

theorem alFind_append_singleton_ne {l : List (Nat × β)} {k k' : Nat} {v : β}
    (h : k' ≠ k) : alFind (l ++ [(k, v)]) k' = alFind l k' := by
  rcases hf : alFind l k' with _ | q
  · rw [alFind_append_right hf]
    simp only [alFind, if_neg (Ne.symm h), hf]
  · exact alFind_append_left hf

theorem populatedDest_components_length [Inhabited α] (skip : Nat)
    (op : ComponentPool α) (oldIdx : Nat) (np : ComponentPool α) (ver : Nat) :
    (populatedDest skip op oldIdx np ver).components.length = np.components.length := by
  unfold populatedDest
  rw [foldl_setComponent_components]
  rw [foldl_modifyAt_length (u := fun i => i), foldl_modifyAt_length (u := fun i => i)]

/-- The skipped in-use column of the populated destination, in full. -/
theorem populatedDest_col_self [Inhabited α] {skip : Nat} {op : ComponentPool α}
    {oldIdx : Nat} {np : ComponentPool α} {ver : Nat}
    (hnd : np.componentsInUseIndices.Nodup) (hci : skip ∈ np.componentsInUseIndices)
    (hbound : skip < np.components.length) :
    (populatedDest skip op oldIdx np ver).components.getD skip [] =
      (np.components.getD skip []) ++ [(default : α)] := by
  unfold populatedDest
  rw [foldl_setComponent_components]
  rw [foldl_modifyAt_getD_mem (u := fun i => i)
    (g := fun i vec => if i = skip then vec
      else vec.set np.poolSize ((op.components.getD i []).getD oldIdx default))
    np.componentsInUseIndices _ (by simpa using hnd) hci rfl
    (by rw [foldl_modifyAt_length]; exact hbound)]
  rw [foldl_modifyAt_getD_mem (u := fun i => i)
    (g := fun i vec => vec ++ [(default : α)])
    np.componentsInUseIndices _ (by simpa using hnd) hci rfl hbound]
  rw [if_pos rfl]

/-- A non-skipped in-use column of the populated destination, in full. -/
theorem populatedDest_col_nonskip [Inhabited α] {skip : Nat} {op : ComponentPool α}
    {oldIdx : Nat} {np : ComponentPool α} {ver : Nat} {ci : Nat}
    (hnd : np.componentsInUseIndices.Nodup) (hci : ci ∈ np.componentsInUseIndices)
    (hskip : ci ≠ skip) (hbound : ci < np.components.length) :
    (populatedDest skip op oldIdx np ver).components.getD ci [] =
      ((np.components.getD ci []) ++ [(default : α)]).set np.poolSize
        ((op.components.getD ci []).getD oldIdx default) := by
  unfold populatedDest
  rw [foldl_setComponent_components]
  rw [foldl_modifyAt_getD_mem (u := fun i => i)
    (g := fun i vec => if i = skip then vec
      else vec.set np.poolSize ((op.components.getD i []).getD oldIdx default))
    np.componentsInUseIndices _ (by simpa using hnd) hci rfl
    (by rw [foldl_modifyAt_length]; exact hbound)]
  rw [foldl_modifyAt_getD_mem (u := fun i => i)
    (g := fun i vec => vec ++ [(default : α)])
    np.componentsInUseIndices _ (by simpa using hnd) hci rfl hbound]
  rw [if_neg hskip]

/-- An unused column of the populated destination is untouched. -/
theorem populatedDest_col_not_mem [Inhabited α] {skip : Nat} {op : ComponentPool α}
    {oldIdx : Nat} {np : ComponentPool α} {ver : Nat} {ci : Nat}
    (hci : ci ∉ np.componentsInUseIndices) :
    (populatedDest skip op oldIdx np ver).components.getD ci [] =
      np.components.getD ci [] := by
  unfold populatedDest
  rw [foldl_setComponent_components]
  rw [foldl_modifyAt_getD_not_mem (u := fun i => i) _ _ _ (by simpa using hci)]
  rw [foldl_modifyAt_getD_not_mem (u := fun i => i) _ _ _ (by simpa using hci)]

/-- `setComponent` touches only the named column. -/
theorem setComponent_col_self {p : ComponentPool α} {c idx : Nat} {v : α}
    (hbound : c < p.components.length) :
    (p.setComponent c idx v).components.getD c [] =
      (p.components.getD c []).set idx v := by
  unfold ComponentPool.setComponent
  exact modifyAt_getD_self _ _ _ hbound

theorem setComponent_col_ne {p : ComponentPool α} {c c' idx : Nat} {v : α}
    (hne : c ≠ c') :
    (p.setComponent c idx v).components.getD c' [] = p.components.getD c' [] := by
  unfold ComponentPool.setComponent
  exact modifyAt_getD_ne _ _ _ hne

/-! ## Claim C3 -/

/-- C3 (addComponent part): adding a missing component type relocates the
resolved entity into the pool keyed by the extended fingerprint: the
destination grows by one slot, the source shrinks by one, every other pool is
untouched, the returned handle resolves directly (zero remap hops) to the new
slot, the entity's version occupies exactly one live slot afterwards, and the
destination slot (values and version) is fully populated by `transferPopulate`
*before* the source slot is removed. -/
theorem addComponent_relocates [Inhabited α] {r : Registry α} {id oid : EntityId}
    {c : Nat} {v : α} {p np : ComponentPool α} {pools0 : List (Nat × ComponentPool α)}
    {newKey : Nat}
    (hIter : r.isIterating = false)
    (hres : (r.resolveEntityId id).pool = some p)
    (hoid : (r.resolveEntityId id).entityId = oid)
    (habs : p.hasComponent c = false)
    (hkey : newKey = combineHashes (p.componentHashes ++ [typeHash c]))
    (hne : oid.poolKey ≠ newKey)
    (hcase : (alFind r.pools newKey = some np ∧ pools0 = r.pools) ∨
      (alFind r.pools newKey = none ∧
        np = initFromBitmask r.numComponents newKey (p.componentHashes ++ [typeHash c])
          (bsSet p.componentsInUseBitmask c true) ∧
        pools0 = r.pools ++ [(newKey, np)]))
    (hlenN : np.poolSize = np.versions.length) :
    ∃ (r' : Registry α) (npF opF : ComponentPool α),
      r.addComponent id c v = .ok (⟨np.poolSize, oid.version, newKey, false⟩, r') ∧
      alFind r'.pools newKey = some npF ∧
      npF.poolSize = np.poolSize + 1 ∧
      npF.versions = np.versions ++ [oid.version] ∧
      alFind r'.pools oid.poolKey = some opF ∧
      opF.poolSize = p.poolSize - 1 ∧
      (∀ k', k' ≠ newKey → k' ≠ oid.poolKey → alFind r'.pools k' = alFind r.pools k') ∧
      r'.resolveEntityId ⟨np.poolSize, oid.version, newKey, false⟩ =
        ⟨some npF, ⟨np.poolSize, oid.version, newKey, false⟩, r'.entityRemappings, 0⟩ ∧
      npF.versions[np.poolSize]? = some oid.version ∧
      ((∀ (k' j : Nat) (q : ComponentPool α), alFind r.pools k' = some q →
          q.versions[j]? = some oid.version → k' = oid.poolKey ∧ j = oid.unstableIndex) →
        ∀ (k' j : Nat) (q : ComponentPool α), alFind r'.pools k' = some q →
          q.versions[j]? = some oid.version → k' = newKey ∧ j = np.poolSize) ∧
      (∃ pools2, transferPopulate c oid ⟨np.poolSize, oid.version, newKey, false⟩ pools0 =
          .ok pools2 ∧
        alFind pools2 oid.poolKey = some p ∧
        poolAt pools2 newKey = populatedDest c p oid.unstableIndex np oid.version ∧
        (poolAt pools2 newKey).versions[np.poolSize]? = some oid.version) ∧
      (np.componentsInUseIndices.Nodup → c ∈ np.componentsInUseIndices →
        c < np.components.length → (np.components.getD c []).length = np.poolSize →
        (npF.components.getD c [])[np.poolSize]? = some v) ∧
      (∀ ci, np.componentsInUseIndices.Nodup → ci ∈ np.componentsInUseIndices →
        ci ≠ c → ci < np.components.length →
        (np.components.getD ci []).length = np.poolSize →
        (npF.components.getD ci [])[np.poolSize]? =
          some ((p.components.getD ci []).getD oid.unstableIndex default)) ∧
      r'.isIterating = r.isIterating ∧
      opF = (p.removeEntity oid).2 ∧
      npF = (populatedDest c p oid.unstableIndex np oid.version).setComponent c
        np.poolSize v ∧
      r'.nextVersionIndex = r.nextVersionIndex ∧
      r'.entityRemappings = alUpdate (handleRemoveResult (p.removeEntity oid).1
        p.poolKey r.entityRemappings) oid.version
        ⟨np.poolSize, oid.version, newKey, false⟩ := by
  obtain ⟨hfindO, hvalid0, hdead0, hremap0⟩ := resolveEntityId_ok hres
  rw [hoid] at hfindO hvalid0
  obtain ⟨hdv, hdz, hdm, hdi, hdh, hdk⟩ :=
    populatedDest_fields c p oid.unstableIndex np oid.version
  have heq := addComponent_eq (v := v) hIter hres hoid habs hkey hne hcase hlenN
  have hfindN0 : alFind pools0 newKey = some np := by
    rcases hcase with ⟨hf, hp0⟩ | ⟨hf, hnp, hp0⟩
    · rw [hp0]; exact hf
    · rw [hp0, alFind_append_right hf]
      simp [alFind]
  have hfindO0 : alFind pools0 oid.poolKey = some p := by
    rcases hcase with ⟨hf, hp0⟩ | ⟨hf, hnp, hp0⟩
    · rw [hp0]; exact hfindO
    · rw [hp0]; exact alFind_append_left hfindO
  have hverSlot : (populatedDest c p oid.unstableIndex np oid.version).versions[np.poolSize]?
      = some oid.version := by
    rw [hdv, hlenN]
    exact List.getElem?_concat_length _ _
  have hp2 := removeEntity_eq hvalid0
  refine ⟨_, (populatedDest c p oid.unstableIndex np oid.version).setComponent c
    np.poolSize v, (p.removeEntity oid).2, heq, alFind_alUpdate_self _ _ _, hdz, hdv,
    ?_, ?_, ?_, ?_, hverSlot, ?_, ?_, ?_, ?_, rfl, rfl, rfl, rfl, rfl⟩
  · rw [alFind_alUpdate_ne _ _ hne]
    exact alFind_alUpdate_self _ _ _
  · rw [hp2]
  · intro k' h1 h2
    rw [alFind_alUpdate_ne _ _ h1, alFind_alUpdate_ne _ _ h2, alFind_alUpdate_ne _ _ h1]
    rcases hcase with ⟨hf, hp0⟩ | ⟨hf, hnp, hp0⟩
    · rw [hp0]
    · rw [hp0, alFind_append_singleton_ne h1]
  · -- direct resolution of the returned handle
    apply resolveEntityId_direct
    · exact alFind_alUpdate_self _ _ _
    · rw [isValid_iff]
      refine ⟨rfl, ?_, ?_⟩
      · show np.poolSize < ((populatedDest c p oid.unstableIndex np
          oid.version).setComponent c np.poolSize v).poolSize
        have : ((populatedDest c p oid.unstableIndex np oid.version).setComponent c
            np.poolSize v).poolSize = np.poolSize + 1 := hdz
        omega
      · exact hverSlot
    · rfl
  · -- the version occupies exactly one live slot
    intro huniq k' j q hfq hocc
    by_cases hk1 : k' = newKey
    · rw [hk1, alFind_alUpdate_self] at hfq
      cases hfq
      rw [show ((populatedDest c p oid.unstableIndex np oid.version).setComponent c
        np.poolSize v).versions = np.versions ++ [oid.version] from hdv] at hocc
      rcases Nat.lt_or_ge j np.versions.length with hj | hj
      · rw [List.getElem?_append_left hj] at hocc
        exfalso
        rcases hcase with ⟨hf, hp0⟩ | ⟨hf, hnp, hp0⟩
        · exact hne ((huniq newKey j np hf hocc).1.symm)
        · rw [hnp] at hocc
          simp [initFromBitmask] at hocc
      · rw [List.getElem?_append_right hj] at hocc
        rcases List.getElem?_eq_some_iff.mp hocc with ⟨hlt, _⟩
        simp only [List.length_singleton] at hlt
        refine ⟨hk1, ?_⟩
        omega
    · by_cases hk2 : k' = oid.poolKey
      · rw [hk2, alFind_alUpdate_ne _ _ (hk2 ▸ hk1), alFind_alUpdate_self] at hfq
        cases hfq
        exfalso
        rw [hp2] at hocc
        have huniqP : ∀ j' : Nat, p.versions[j']? = some oid.version →
            j' = oid.unstableIndex := by
          intro j' hj'
          exact (huniq oid.poolKey j' p hfindO hj').2
        exact swapPop_no_occurrence huniqP j hocc
      · rw [alFind_alUpdate_ne _ _ hk1, alFind_alUpdate_ne _ _ hk2,
          alFind_alUpdate_ne _ _ hk1] at hfq
        have hfq' : alFind r.pools k' = some q := by
          rcases hcase with ⟨hf, hp0⟩ | ⟨hf, hnp, hp0⟩
          · rw [hp0] at hfq; exact hfq
          · rw [hp0, alFind_append_singleton_ne hk1] at hfq; exact hfq
        exact absurd (huniq k' j q hfq' hocc).1 hk2
  · -- the destination slot is fully populated before the source is removed
    refine ⟨_, transferPopulate_spec hfindN0 hne rfl hlenN, ?_, ?_, ?_⟩
    · rw [show poolAt pools0 oid.poolKey = p from by simp [poolAt, hfindO0]]
      rw [alFind_alUpdate_ne _ _ hne]
      exact hfindO0
    · rw [show poolAt pools0 oid.poolKey = p from by simp [poolAt, hfindO0]]
      exact poolAt_alUpdate_self _ _ _
    · rw [show poolAt pools0 oid.poolKey = p from by simp [poolAt, hfindO0],
        poolAt_alUpdate_self]
      exact hverSlot
  · -- the added component's value
    intro hnd hcmem hbound hclen
    rw [setComponent_col_self (by rw [populatedDest_components_length]; exact hbound)]
    rw [populatedDest_col_self hnd hcmem hbound]
    rw [List.getElem?_set_self (by rw [List.length_append, hclen]; simp)]
  · -- the copied component values
    intro ci hnd hci hcic hbound hclen
    rw [setComponent_col_ne (Ne.symm hcic)]
    exact populatedDest_col_copied hnd hci hcic hbound hclen

/-- C3 (removeComponent part): removing a present component type relocates the
resolved entity into the pool keyed by the reduced fingerprint, with the same
size, uniqueness, resolution and populate-before-remove guarantees. -/
theorem removeComponent_relocates [Inhabited α] {r : Registry α} {id oid : EntityId}
    {c : Nat} {p np : ComponentPool α} {pools0 : List (Nat × ComponentPool α)}
    {newKey : Nat}
    (hIter : r.isIterating = false)
    (hres : (r.resolveEntityId id).pool = some p)
    (hoid : (r.resolveEntityId id).entityId = oid)
    (hpres : p.hasComponent c = true)
    (hkey : newKey = combineHashes (p.componentHashes.filter (fun h => h ≠ typeHash c)))
    (hne : oid.poolKey ≠ newKey)
    (hcase : (alFind r.pools newKey = some np ∧ pools0 = r.pools) ∨
      (alFind r.pools newKey = none ∧
        np = initFromBitmask r.numComponents newKey
          (p.componentHashes.filter (fun h => h ≠ typeHash c))
          (bsSet p.componentsInUseBitmask c false) ∧
        pools0 = r.pools ++ [(newKey, np)]))
    (hlenN : np.poolSize = np.versions.length) :
    ∃ (r' : Registry α) (npF opF : ComponentPool α),
      r.removeComponent id c = .ok (⟨np.poolSize, oid.version, newKey, false⟩, r') ∧
      alFind r'.pools newKey = some npF ∧
      npF.poolSize = np.poolSize + 1 ∧
      npF.versions = np.versions ++ [oid.version] ∧
      alFind r'.pools oid.poolKey = some opF ∧
      opF.poolSize = p.poolSize - 1 ∧
      (∀ k', k' ≠ newKey → k' ≠ oid.poolKey → alFind r'.pools k' = alFind r.pools k') ∧
      r'.resolveEntityId ⟨np.poolSize, oid.version, newKey, false⟩ =
        ⟨some npF, ⟨np.poolSize, oid.version, newKey, false⟩, r'.entityRemappings, 0⟩ ∧
      npF.versions[np.poolSize]? = some oid.version ∧
      ((∀ (k' j : Nat) (q : ComponentPool α), alFind r.pools k' = some q →
          q.versions[j]? = some oid.version → k' = oid.poolKey ∧ j = oid.unstableIndex) →
        ∀ (k' j : Nat) (q : ComponentPool α), alFind r'.pools k' = some q →
          q.versions[j]? = some oid.version → k' = newKey ∧ j = np.poolSize) ∧
      (∃ pools2, transferPopulate c oid ⟨np.poolSize, oid.version, newKey, false⟩ pools0 =
          .ok pools2 ∧
        alFind pools2 oid.poolKey = some p ∧
        poolAt pools2 newKey = populatedDest c p oid.unstableIndex np oid.version ∧
        (poolAt pools2 newKey).versions[np.poolSize]? = some oid.version) ∧
      (∀ ci, np.componentsInUseIndices.Nodup → ci ∈ np.componentsInUseIndices →
        ci ≠ c → ci < np.components.length →
        (np.components.getD ci []).length = np.poolSize →
        (npF.components.getD ci [])[np.poolSize]? =
          some ((p.components.getD ci []).getD oid.unstableIndex default)) ∧
      r'.isIterating = r.isIterating ∧
      opF = (p.removeEntity oid).2 ∧
      npF = populatedDest c p oid.unstableIndex np oid.version ∧
      r'.nextVersionIndex = r.nextVersionIndex ∧
      r'.entityRemappings = alUpdate (handleRemoveResult (p.removeEntity oid).1
        p.poolKey r.entityRemappings) oid.version
        ⟨np.poolSize, oid.version, newKey, false⟩ := by
  obtain ⟨hfindO, hvalid0, hdead0, hremap0⟩ := resolveEntityId_ok hres
  rw [hoid] at hfindO hvalid0
  obtain ⟨hdv, hdz, hdm, hdi, hdh, hdk⟩ :=
    populatedDest_fields c p oid.unstableIndex np oid.version
  have heq := removeComponent_eq hIter hres hoid hpres hkey hne hcase hlenN
  have hfindN0 : alFind pools0 newKey = some np := by
    rcases hcase with ⟨hf, hp0⟩ | ⟨hf, hnp, hp0⟩
    · rw [hp0]; exact hf
    · rw [hp0, alFind_append_right hf]
      simp [alFind]
  have hfindO0 : alFind pools0 oid.poolKey = some p := by
    rcases hcase with ⟨hf, hp0⟩ | ⟨hf, hnp, hp0⟩
    · rw [hp0]; exact hfindO
    · rw [hp0]; exact alFind_append_left hfindO
  have hverSlot : (populatedDest c p oid.unstableIndex np oid.version).versions[np.poolSize]?
      = some oid.version := by
    rw [hdv, hlenN]
    exact List.getElem?_concat_length _ _
  have hp2 := removeEntity_eq hvalid0
  refine ⟨_, populatedDest c p oid.unstableIndex np oid.version, (p.removeEntity oid).2,
    heq, ?_, hdz, hdv, ?_, ?_, ?_, ?_, hverSlot, ?_, ?_, ?_, rfl, rfl, rfl, rfl, rfl⟩
  · rw [alFind_alUpdate_ne _ _ (Ne.symm hne)]
    exact alFind_alUpdate_self _ _ _
  · exact alFind_alUpdate_self _ _ _
  · rw [hp2]
  · intro k' h1 h2
    rw [alFind_alUpdate_ne _ _ h2, alFind_alUpdate_ne _ _ h1]
    rcases hcase with ⟨hf, hp0⟩ | ⟨hf, hnp, hp0⟩
    · rw [hp0]
    · rw [hp0, alFind_append_singleton_ne h1]
  · apply resolveEntityId_direct
    · rw [alFind_alUpdate_ne _ _ (Ne.symm hne)]
      exact alFind_alUpdate_self _ _ _
    · rw [isValid_iff]
      refine ⟨rfl, ?_, ?_⟩
      · show np.poolSize < (populatedDest c p oid.unstableIndex np oid.version).poolSize
        omega
      · exact hverSlot
    · rfl
  · intro huniq k' j q hfq hocc
    by_cases hk2 : k' = oid.poolKey
    · rw [hk2, alFind_alUpdate_self] at hfq
      cases hfq
      exfalso
      rw [hp2] at hocc
      have huniqP : ∀ j' : Nat, p.versions[j']? = some oid.version →
          j' = oid.unstableIndex := by
        intro j' hj'
        exact (huniq oid.poolKey j' p hfindO hj').2
      exact swapPop_no_occurrence huniqP j hocc
    · by_cases hk1 : k' = newKey
      · rw [hk1, alFind_alUpdate_ne _ _ (Ne.symm hne), alFind_alUpdate_self] at hfq
        cases hfq
        rw [hdv] at hocc
        rcases Nat.lt_or_ge j np.versions.length with hj | hj
        · rw [List.getElem?_append_left hj] at hocc
          exfalso
          rcases hcase with ⟨hf, hp0⟩ | ⟨hf, hnp, hp0⟩
          · exact hne ((huniq newKey j np hf hocc).1.symm)
          · rw [hnp] at hocc
            simp [initFromBitmask] at hocc
        · rw [List.getElem?_append_right hj] at hocc
          rcases List.getElem?_eq_some_iff.mp hocc with ⟨hlt, _⟩
          simp only [List.length_singleton] at hlt
          refine ⟨hk1, ?_⟩
          omega
      · rw [alFind_alUpdate_ne _ _ hk2, alFind_alUpdate_ne _ _ hk1] at hfq
        have hfq' : alFind r.pools k' = some q := by
          rcases hcase with ⟨hf, hp0⟩ | ⟨hf, hnp, hp0⟩
          · rw [hp0] at hfq; exact hfq
          · rw [hp0, alFind_append_singleton_ne hk1] at hfq; exact hfq
        exact absurd (huniq k' j q hfq' hocc).1 hk2
  · refine ⟨_, transferPopulate_spec hfindN0 hne rfl hlenN, ?_, ?_, ?_⟩
    · rw [show poolAt pools0 oid.poolKey = p from by simp [poolAt, hfindO0]]
      rw [alFind_alUpdate_ne _ _ hne]
      exact hfindO0
    · rw [show poolAt pools0 oid.poolKey = p from by simp [poolAt, hfindO0]]
      exact poolAt_alUpdate_self _ _ _
    · rw [show poolAt pools0 oid.poolKey = p from by simp [poolAt, hfindO0],
        poolAt_alUpdate_self]
      exact hverSlot
  · intro ci hnd hci hcic hbound hclen
    exact populatedDest_col_copied hnd hci hcic hbound hclen

/-- C3: for a live, resolvable handle, `addComponent` with a missing type and
`removeComponent` with a present type relocate the entity: the destination
pool (looked up or lazily created at the new fingerprint) grows by one slot,
the source pool shrinks by one, every other pool is unchanged, the caller's
returned handle resolves directly (zero hops) to the destination slot, the
entity's version occupies exactly one live slot in exactly one pool, and the
destination slot is fully populated (`transferPopulate` succeeds: copied
values and version stamp are in place, with the source pool still untouched)
before the source slot is removed.  Stated for distinct source/destination
fingerprints (`hne`), i.e. absent a `combineHashes` collision. -/
theorem claim_C3_relocation :
    (∀ (α : Type) [Inhabited α] (r : Registry α) (id oid : EntityId) (c : Nat) (v : α)
      (p np : ComponentPool α) (pools0 : List (Nat × ComponentPool α)) (newKey : Nat),
      r.isIterating = false →
      (r.resolveEntityId id).pool = some p →
      (r.resolveEntityId id).entityId = oid →
      p.hasComponent c = false →
      newKey = combineHashes (p.componentHashes ++ [typeHash c]) →
      oid.poolKey ≠ newKey →
      ((alFind r.pools newKey = some np ∧ pools0 = r.pools) ∨
        (alFind r.pools newKey = none ∧
          np = initFromBitmask r.numComponents newKey (p.componentHashes ++ [typeHash c])
            (bsSet p.componentsInUseBitmask c true) ∧
          pools0 = r.pools ++ [(newKey, np)])) →
      np.poolSize = np.versions.length →
      ∃ (r' : Registry α) (npF opF : ComponentPool α),
        r.addComponent id c v = .ok (⟨np.poolSize, oid.version, newKey, false⟩, r') ∧
        alFind r'.pools newKey = some npF ∧
        npF.poolSize = np.poolSize + 1 ∧
        npF.versions = np.versions ++ [oid.version] ∧
        alFind r'.pools oid.poolKey = some opF ∧
        opF.poolSize = p.poolSize - 1 ∧
        (∀ k', k' ≠ newKey → k' ≠ oid.poolKey → alFind r'.pools k' = alFind r.pools k') ∧
        r'.resolveEntityId ⟨np.poolSize, oid.version, newKey, false⟩ =
          ⟨some npF, ⟨np.poolSize, oid.version, newKey, false⟩, r'.entityRemappings, 0⟩ ∧
        npF.versions[np.poolSize]? = some oid.version ∧
        ((∀ (k' j : Nat) (q : ComponentPool α), alFind r.pools k' = some q →
            q.versions[j]? = some oid.version → k' = oid.poolKey ∧ j = oid.unstableIndex) →
          ∀ (k' j : Nat) (q : ComponentPool α), alFind r'.pools k' = some q →
            q.versions[j]? = some oid.version → k' = newKey ∧ j = np.poolSize) ∧
        (∃ pools2, transferPopulate c oid ⟨np.poolSize, oid.version, newKey, false⟩ pools0 =
            .ok pools2 ∧
          alFind pools2 oid.poolKey = some p ∧
          poolAt pools2 newKey = populatedDest c p oid.unstableIndex np oid.version ∧
          (poolAt pools2 newKey).versions[np.poolSize]? = some oid.version) ∧
        (np.componentsInUseIndices.Nodup → c ∈ np.componentsInUseIndices →
          c < np.components.length → (np.components.getD c []).length = np.poolSize →
          (npF.components.getD c [])[np.poolSize]? = some v) ∧
        (∀ ci, np.componentsInUseIndices.Nodup → ci ∈ np.componentsInUseIndices →
          ci ≠ c → ci < np.components.length →
          (np.components.getD ci []).length = np.poolSize →
          (npF.components.getD ci [])[np.poolSize]? =
            some ((p.components.getD ci []).getD oid.unstableIndex default)) ∧
        r'.isIterating = r.isIterating ∧
        opF = (p.removeEntity oid).2 ∧
        npF = (populatedDest c p oid.unstableIndex np oid.version).setComponent c
          np.poolSize v ∧
        r'.nextVersionIndex = r.nextVersionIndex ∧
        r'.entityRemappings = alUpdate (handleRemoveResult (p.removeEntity oid).1
          p.poolKey r.entityRemappings) oid.version
          ⟨np.poolSize, oid.version, newKey, false⟩) ∧
    (∀ (α : Type) [Inhabited α] (r : Registry α) (id oid : EntityId) (c : Nat)
      (p np : ComponentPool α) (pools0 : List (Nat × ComponentPool α)) (newKey : Nat),
      r.isIterating = false →
      (r.resolveEntityId id).pool = some p →
      (r.resolveEntityId id).entityId = oid →
      p.hasComponent c = true →
      newKey = combineHashes (p.componentHashes.filter (fun h => h ≠ typeHash c)) →
      oid.poolKey ≠ newKey →
      ((alFind r.pools newKey = some np ∧ pools0 = r.pools) ∨
        (alFind r.pools newKey = none ∧
          np = initFromBitmask r.numComponents newKey
            (p.componentHashes.filter (fun h => h ≠ typeHash c))
            (bsSet p.componentsInUseBitmask c false) ∧
          pools0 = r.pools ++ [(newKey, np)])) →
      np.poolSize = np.versions.length →
      ∃ (r' : Registry α) (npF opF : ComponentPool α),
        r.removeComponent id c = .ok (⟨np.poolSize, oid.version, newKey, false⟩, r') ∧
        alFind r'.pools newKey = some npF ∧
        npF.poolSize = np.poolSize + 1 ∧
        npF.versions = np.versions ++ [oid.version] ∧
        alFind r'.pools oid.poolKey = some opF ∧
        opF.poolSize = p.poolSize - 1 ∧
        (∀ k', k' ≠ newKey → k' ≠ oid.poolKey → alFind r'.pools k' = alFind r.pools k') ∧
        r'.resolveEntityId ⟨np.poolSize, oid.version, newKey, false⟩ =
          ⟨some npF, ⟨np.poolSize, oid.version, newKey, false⟩, r'.entityRemappings, 0⟩ ∧
        npF.versions[np.poolSize]? = some oid.version ∧
        ((∀ (k' j : Nat) (q : ComponentPool α), alFind r.pools k' = some q →
            q.versions[j]? = some oid.version → k' = oid.poolKey ∧ j = oid.unstableIndex) →
          ∀ (k' j : Nat) (q : ComponentPool α), alFind r'.pools k' = some q →
            q.versions[j]? = some oid.version → k' = newKey ∧ j = np.poolSize) ∧
        (∃ pools2, transferPopulate c oid ⟨np.poolSize, oid.version, newKey, false⟩ pools0 =
            .ok pools2 ∧
          alFind pools2 oid.poolKey = some p ∧
          poolAt pools2 newKey = populatedDest c p oid.unstableIndex np oid.version ∧
          (poolAt pools2 newKey).versions[np.poolSize]? = some oid.version) ∧
        (∀ ci, np.componentsInUseIndices.Nodup → ci ∈ np.componentsInUseIndices →
          ci ≠ c → ci < np.components.length →
          (np.components.getD ci []).length = np.poolSize →
          (npF.components.getD ci [])[np.poolSize]? =
            some ((p.components.getD ci []).getD oid.unstableIndex default)) ∧
        r'.isIterating = r.isIterating ∧
        opF = (p.removeEntity oid).2 ∧
        npF = populatedDest c p oid.unstableIndex np oid.version ∧
        r'.nextVersionIndex = r.nextVersionIndex ∧
        r'.entityRemappings = alUpdate (handleRemoveResult (p.removeEntity oid).1
          p.poolKey r.entityRemappings) oid.version
          ⟨np.poolSize, oid.version, newKey, false⟩) := by
  constructor
  · intro α instA r id oid c v p np pools0 newKey hIter hres hoid habs hkey hne hcase hlenN
    exact addComponent_relocates hIter hres hoid habs hkey hne hcase hlenN
  · intro α instA r id oid c p np pools0 newKey hIter hres hoid hpres hkey hne hcase hlenN
    exact removeComponent_relocates hIter hres hoid hpres hkey hne hcase hlenN

/-- The registry used by the C3 witness: one entity (version 7, component 0
value 30) in the pool keyed 5 over a two-type universe. -/
def regC3 : Registry Nat :=
  { numComponents := 2,
    pools := [(5, ⟨[[30], []], [true, false], [0], [0], [7], 1, 5⟩)],
    entityRemappings := [], nextVersionIndex := 8, isIterating := false }

/-- Concrete use of C3: adding component 1 to the single entity succeeds, and
removing component 0 from it succeeds, each on the fresh-pool path. -/
theorem claim_C3_witness :
    (regC3.addComponent ⟨0, 7, 5, false⟩ 1 42).isOk = true ∧
    (regC3.removeComponent ⟨0, 7, 5, false⟩ 0).isOk = true := by
  constructor
  · obtain ⟨r', npF, opF, h1, _⟩ := claim_C3_relocation.1 Nat regC3 ⟨0, 7, 5, false⟩
      ⟨0, 7, 5, false⟩ 1 42 ⟨[[30], []], [true, false], [0], [0], [7], 1, 5⟩
      (initFromBitmask 2 (combineHashes [0, 1]) [0, 1] (bsSet [true, false] 1 true))
      (regC3.pools ++ [(combineHashes [0, 1],
        initFromBitmask 2 (combineHashes [0, 1]) [0, 1] (bsSet [true, false] 1 true))])
      (combineHashes [0, 1]) rfl (by decide) (by decide) (by decide) (by decide)
      (by decide) (Or.inr ⟨by decide, rfl, rfl⟩) (by decide)
    rw [h1]
    rfl
  · obtain ⟨r', npF, opF, h1, _⟩ := claim_C3_relocation.2 Nat regC3 ⟨0, 7, 5, false⟩
      ⟨0, 7, 5, false⟩ 0 ⟨[[30], []], [true, false], [0], [0], [7], 1, 5⟩
      (initFromBitmask 2 (combineHashes []) [] (bsSet [true, false] 0 false))
      (regC3.pools ++ [(combineHashes [],
        initFromBitmask 2 (combineHashes []) [] (bsSet [true, false] 0 false))])
      (combineHashes []) rfl (by decide) (by decide) (by decide) (by decide)
      (by decide) (Or.inr ⟨by decide, rfl, rfl⟩) (by decide)
    rw [h1]
    rfl

/-! ## Small facts about bitmasks and freshly-initialised pools -/

theorem bsTest_bsSet_self (m : List Bool) {i : Nat} (b : Bool) (h : i < m.length) :
    bsTest (bsSet m i b) i = b := by
  unfold bsTest bsSet
  rw [List.getD_eq_getElem?_getD, List.getElem?_set_self h]
  rfl

theorem bsTest_bsSet_ne (m : List Bool) {i j : Nat} (b : Bool) (h : j ≠ i) :
    bsTest (bsSet m i b) j = bsTest m j := by
  unfold bsTest bsSet
  rw [List.getD_eq_getElem?_getD, List.getD_eq_getElem?_getD,
    List.getElem?_set_ne (fun hh => h hh.symm)]

theorem mem_initFromBitmask_indices {n k : Nat} {hs : List Nat} {mask : List Bool}
    {ci : Nat} :
    ci ∈ (initFromBitmask (α := α) n k hs mask).componentsInUseIndices ↔
      ci < mask.length ∧ bsTest mask ci = true := by
  simp [initFromBitmask, List.mem_filter, List.mem_range]

theorem initFromBitmask_indices_nodup {n k : Nat} {hs : List Nat} {mask : List Bool} :
    (initFromBitmask (α := α) n k hs mask).componentsInUseIndices.Nodup :=
  List.Nodup.filter _ (List.nodup_range _)

theorem getD_replicate_nil (n ci : Nat) :
    (List.replicate n ([] : List α)).getD ci [] = [] := by
  rw [List.getD_eq_getElem?_getD, List.getElem?_replicate]
  by_cases h : ci < n <;> simp [h]

theorem filter_concat_self {l : List Nat} {a : Nat} (h : ∀ x ∈ l, x ≠ a) :
    (l ++ [a]).filter (fun x => x ≠ a) = l := by
  rw [List.filter_append]
  have h1 : l.filter (fun x => x ≠ a) = l :=
    List.filter_eq_self.mpr (fun x hx => by simpa using h x hx)
  have h2 : [a].filter (fun x : Nat => x ≠ a) = [] := by simp
  rw [h1, h2, List.append_nil]

/-- Concrete use of C1: removing slot `0` from a three-entity pool heals the
stale handle of the entity formerly in slot `2`. -/
theorem claim_C1_witness :
    ∃ r' : Registry Nat,
      Registry.removeEntity
        { numComponents := 1,
          pools := [(5, ⟨[[30, 40, 50]], [true], [0], [0], [2, 3, 4], 3, 5⟩)],
          entityRemappings := [], nextVersionIndex := 5, isIterating := false }
        ⟨0, 2, 5, false⟩ = .ok (⟨0, 2, 5, true⟩, r') ∧
      (r'.resolveEntityId ⟨2, 4, 5, false⟩).entityId = ⟨0, 4, 5, false⟩ ∧
      ((r'.resolveEntityId ⟨2, 4, 5, false⟩).pool).isSome = true ∧
      (r'.get ⟨2, 4, 5, false⟩ 0).1 = some 50 :=
  claim_C1_swap_removal_heals Nat
    { numComponents := 1,
      pools := [(5, ⟨[[30, 40, 50]], [true], [0], [0], [2, 3, 4], 3, 5⟩)],
      entityRemappings := [], nextVersionIndex := 5, isIterating := false }
    ⟨[[30, 40, 50]], [true], [0], [0], [2, 3, 4], 3, 5⟩ ⟨0, 2, 5, false⟩ 5 0 4 50
    rfl (by decide) rfl rfl rfl rfl (by decide) (by decide) (by decide) rfl rfl
    (by decide) (by decide) (by decide) (by decide)

/-! ## Claim C6 -/

/-- The first component of `Registry::get` after a known resolution. -/
theorem get_fst_eq {r : Registry α} {id id2 : EntityId} {p : ComponentPool α}
    {rm : List (Nat × EntityId)} {n : Nat} (c : Nat)
    (hres : r.resolveEntityId id = ⟨some p, id2, rm, n⟩) :
    (r.get id c).1 = p.getComponent c id2 := by
  simp only [Registry.get, hres]

/-- C6: round trip.  For a live entity with attribute set
`p.componentsInUseIndices` (the `{A, B}` of the claim) and a fresh component
type `c` outside that set, `addComponent c` followed by `removeComponent c`
returns the entity to a pool with the original attribute-set fingerprint
(`id2.poolKey = oid.poolKey = combineHashes p.componentHashes`) and `get` on
each original attribute returns exactly the pre-round-trip value.  Stated for
a lazily-created destination pool and distinct fingerprints (no `combineHashes`
collision); the structural hypotheses on `p` are the pool well-formedness
facts the registry maintains. -/
theorem claim_C6_round_trip (α : Type) [Inhabited α] (r : Registry α)
    (id oid : EntityId) (c : Nat) (v : α) (p : ComponentPool α)
    (hIter : r.isIterating = false)
    (hres : (r.resolveEntityId id).pool = some p)
    (hoid : (r.resolveEntityId id).entityId = oid)
    (habs : p.hasComponent c = false)
    (hpoolkey : oid.poolKey = combineHashes p.componentHashes)
    (hne : oid.poolKey ≠ combineHashes (p.componentHashes ++ [typeHash c]))
    (hAbsent : alFind r.pools (combineHashes (p.componentHashes ++ [typeHash c])) = none)
    (hplen : p.versions.length = p.poolSize)
    (hnodup : p.componentsInUseIndices.Nodup)
    (hcnotin : c ∉ p.componentsInUseIndices)
    (hhash : typeHash c ∉ p.componentHashes)
    (hmaskLen : p.componentsInUseBitmask.length = r.numComponents)
    (hcompLen : p.components.length = r.numComponents)
    (hcn : c < r.numComponents)
    (hidxB : ∀ i ∈ p.componentsInUseIndices, i < r.numComponents)
    (hmaskAgree : ∀ i ∈ p.componentsInUseIndices,
      bsTest p.componentsInUseBitmask i = true)
    (hclen : ∀ i ∈ p.componentsInUseIndices,
      (p.components.getD i []).length = p.poolSize) :
    ∃ (id1 : EntityId) (r1 : Registry α) (id2 : EntityId) (r2 : Registry α),
      r.addComponent id c v = .ok (id1, r1) ∧
      r1.removeComponent id1 c = .ok (id2, r2) ∧
      id2.poolKey = oid.poolKey ∧
      id2.version = oid.version ∧
      id2.dead = false ∧
      (∀ ci ∈ p.componentsInUseIndices,
        (r2.get id2 ci).1 =
          some ((p.components.getD ci []).getD oid.unstableIndex default)) := by
  obtain ⟨hfindO, hvalid0, hdead0, hremap0⟩ := resolveEntityId_ok hres
  rw [hoid] at hfindO hvalid0
  have hp2 := removeEntity_eq hvalid0
  -- the add step, with the destination pool created lazily
  obtain ⟨r1, npF1, opF1, haddEq, hfN1, hszN1, hverN1, hfO1, hszO1, hothers1, hresolve1,
    hvslot1, huniq1, hpop1, hcolC1, hcolCi1, hIterEq1, hopF1, hnpF1, hnext1, hremap1⟩ :=
    addComponent_relocates (v := v) hIter hres hoid habs rfl hne
      (Or.inr ⟨hAbsent, rfl, rfl⟩) rfl
  have hIter1 : r1.isIterating = false := hIterEq1.trans hIter
  have key2 : alFind r1.pools oid.poolKey = some ((p.removeEntity oid).2) :=
    hopF1 ▸ hfO1
  -- facts about the intermediate pool the entity lives in
  have hmaskF : npF1.componentsInUseBitmask = bsSet p.componentsInUseBitmask c true := by
    rw [hnpF1]
    exact (populatedDest_fields c p oid.unstableIndex _ oid.version).2.2.1
  have hpres2 : npF1.hasComponent c = true := by
    show bsTest npF1.componentsInUseBitmask c = true
    rw [hmaskF]
    exact bsTest_bsSet_self p.componentsInUseBitmask true (by rw [hmaskLen]; exact hcn)
  have hhashF : npF1.componentHashes = p.componentHashes ++ [typeHash c] := by
    rw [hnpF1]
    exact (populatedDest_fields c p oid.unstableIndex _ oid.version).2.2.2.2.1
  have hforall : ∀ x ∈ p.componentHashes, x ≠ typeHash c :=
    fun x hx hxe => hhash (hxe ▸ hx)
  have hkey2 : oid.poolKey =
      combineHashes (npF1.componentHashes.filter (fun h => h ≠ typeHash c)) := by
    rw [hhashF, filter_concat_self hforall]
    exact hpoolkey
  have hres2 : (r1.resolveEntityId ⟨0, oid.version,
      combineHashes (p.componentHashes ++ [typeHash c]), false⟩).pool = some npF1 :=
    congrArg ResolveResult.pool hresolve1
  have hoid2 : (r1.resolveEntityId ⟨0, oid.version,
      combineHashes (p.componentHashes ++ [typeHash c]), false⟩).entityId =
      ⟨0, oid.version, combineHashes (p.componentHashes ++ [typeHash c]), false⟩ :=
    congrArg ResolveResult.entityId hresolve1
  have hsz2 : (p.removeEntity oid).2.poolSize = p.poolSize - 1 := by
    rw [hp2]
  have hlenN2 : (p.removeEntity oid).2.poolSize = (p.removeEntity oid).2.versions.length := by
    rw [hp2]
    show p.poolSize - 1 = (swapPop oid.unstableIndex p.versions).length
    rw [swapPop_length, hplen]
  -- the remove step, back into the original pool
  obtain ⟨r2, npF2, opF2, hremEq, hfN2, hszN2, hverN2, hfO2, hszO2, hothers2, hresolve2,
    hvslot2, huniq2, hpop2, hcolCi2, hIterEq2, hopF2, hnpF2, hnext2, hremap2⟩ :=
    removeComponent_relocates hIter1 hres2 hoid2 hpres2 hkey2 (Ne.symm hne)
      (Or.inl ⟨key2, rfl⟩) hlenN2
  have hmaskD : npF2.componentsInUseBitmask = p.componentsInUseBitmask := by
    rw [hnpF2]
    rw [(populatedDest_fields c npF1 _ _ _).2.2.1]
    rw [hp2]
  refine ⟨_, _, _, _, haddEq, hremEq, rfl, rfl, rfl, ?_⟩
  intro ci hci
  have hciC : ci ≠ c := fun hh => hcnotin (hh ▸ hci)
  -- conditions on the post-remove source pool (the original, shrunk by one)
  have hnd2 : (p.removeEntity oid).2.componentsInUseIndices.Nodup := by
    rw [hp2]; exact hnodup
  have hmem2 : ci ∈ (p.removeEntity oid).2.componentsInUseIndices := by
    rw [hp2]; exact hci
  have hbound2 : ci < (p.removeEntity oid).2.components.length := by
    rw [hp2]
    show ci < (p.componentsInUseIndices.foldl
      (fun cs i => modifyAt cs i (swapPop oid.unstableIndex)) p.components).length
    rw [foldl_modifyAt_length (u := fun i => i)]
    rw [hcompLen]
    exact hidxB ci hci
  have hcol2 : (p.removeEntity oid).2.components.getD ci [] =
      swapPop oid.unstableIndex (p.components.getD ci []) := by
    rw [hp2]
    show (p.componentsInUseIndices.foldl
      (fun cs i => modifyAt cs i (swapPop oid.unstableIndex)) p.components).getD ci [] = _
    exact foldl_modifyAt_getD_mem (u := fun i => i)
      (g := fun _ => swapPop oid.unstableIndex)
      p.componentsInUseIndices p.components (by simpa using hnodup) hci rfl
      (by rw [hcompLen]; exact hidxB ci hci)
  have hclen2 : ((p.removeEntity oid).2.components.getD ci []).length =
      (p.removeEntity oid).2.poolSize := by
    rw [hcol2, swapPop_length, hclen ci hci, hsz2]
  have hval2 := hcolCi2 ci hnd2 hmem2 hciC hbound2 hclen2
  -- the value the add step stored in the intermediate pool's column `ci`
  have hval1 := hcolCi1 ci initFromBitmask_indices_nodup
    (mem_initFromBitmask_indices.mpr
      ⟨by simp only [bsSet, List.length_set, hmaskLen]; exact hidxB ci hci,
       by rw [bsTest_bsSet_ne _ true hciC]; exact hmaskAgree ci hci⟩)
    hciC
    (by simp only [initFromBitmask, List.length_replicate]; exact hidxB ci hci)
    (by simp only [initFromBitmask, getD_replicate_nil, List.length_nil])
  have hv1X : (npF1.components.getD ci []).getD 0 default
      = (p.components.getD ci []).getD oid.unstableIndex default := by
    rw [List.getD_eq_getElem?_getD,
      show (npF1.components.getD ci [])[0]? =
        some ((p.components.getD ci []).getD oid.unstableIndex default) from hval1]
    rfl
  -- evaluate `get` on the final handle
  have hmask2 : bsTest npF2.componentsInUseBitmask ci = true := by
    rw [hmaskD]
    exact hmaskAgree ci hci
  have hhc : npF2.hasComponents [ci] = true := by
    simp [ComponentPool.hasComponents, hmask2]
  have hvalid2 : npF2.isValid ⟨(p.removeEntity oid).2.poolSize, oid.version,
      oid.poolKey, false⟩ = true := by
    rw [isValid_iff]
    refine ⟨rfl, ?_, ?_⟩
    · show (p.removeEntity oid).2.poolSize < npF2.poolSize
      rw [hszN2]
      omega
    · exact hvslot2
  rw [get_fst_eq ci hresolve2]
  unfold ComponentPool.getComponent
  simp only [hhc, hvalid2, Bool.not_true, Bool.false_eq_true, if_false, if_true]
  exact hval2.trans (congrArg some hv1X)

/-- A one-entity pool with attribute set `{0, 1}` (values 10 and 11) in a
three-type universe, fingerprinted by its own hash list. -/
def poolC6 : ComponentPool Nat :=
  { components := [[10], [11], []],
    componentsInUseBitmask := [true, true, false],
    componentsInUseIndices := [0, 1],
    componentHashes := [0, 1],
    versions := [7],
    poolSize := 1,
    poolKey := combineHashes [0, 1] }

/-- A registry holding exactly that pool. -/
def regC6 : Registry Nat :=
  { numComponents := 3,
    pools := [(combineHashes [0, 1], poolC6)],
    entityRemappings := [],
    nextVersionIndex := 8,
    isIterating := false }

/-- Concrete use of C6: add type `2` to the `{0, 1}` entity, remove it again,
and land back on the original fingerprint with values 10 and 11 intact. -/
theorem claim_C6_witness :
    regC6.isIterating = false ∧
    ∃ (id1 : EntityId) (r1 : Registry Nat) (id2 : EntityId) (r2 : Registry Nat),
      regC6.addComponent ⟨0, 7, combineHashes [0, 1], false⟩ 2 99 = .ok (id1, r1) ∧
      r1.removeComponent id1 2 = .ok (id2, r2) ∧
      id2.poolKey = combineHashes [0, 1] ∧
      id2.version = 7 ∧
      id2.dead = false ∧
      (∀ ci ∈ poolC6.componentsInUseIndices,
        (r2.get id2 ci).1 = some ((poolC6.components.getD ci []).getD 0 default)) :=
  ⟨rfl, claim_C6_round_trip Nat regC6 ⟨0, 7, combineHashes [0, 1], false⟩
    ⟨0, 7, combineHashes [0, 1], false⟩ 2 99 poolC6 rfl rfl rfl (by decide) rfl
    (by decide) rfl (by decide) (by decide) (by decide) (by decide) (by decide)
    (by decide) (by decide) (by decide) (by decide) (by decide)⟩

/-! ## Claim C2: the remap-table invariant on reachable states -/

/-- Invariant of the remap table against a pool map and version counter:
every entry sits at the key equal to its own version, points at the entity's
unique live location whenever that version is still live in any pool, and only
mentions versions below the counter. -/
def RemapInv (pools : List (Nat × ComponentPool α)) (next : Nat)
    (remap : List (Nat × EntityId)) : Prop :=
  (∀ v e, alFind remap v = some e → e.version = v) ∧
  (∀ v e, alFind remap v = some e → ∀ k j q, alFind pools k = some q →
    q.versions[j]? = some v → k = e.poolKey ∧ j = e.unstableIndex) ∧
  (∀ v e, alFind remap v = some e → v < next)

/-- Structural invariant of the pool map: each live version occupies at most
one slot globally, versions are below the counter, version vectors match the
pool size, and each pool knows its own map key. -/
def PoolsInv (pools : List (Nat × ComponentPool α)) (next : Nat) : Prop :=
  (∀ (v k1 j1 : Nat) (q1 : ComponentPool α) (k2 j2 : Nat) (q2 : ComponentPool α),
    alFind pools k1 = some q1 → q1.versions[j1]? = some v →
    alFind pools k2 = some q2 → q2.versions[j2]? = some v → k1 = k2 ∧ j1 = j2) ∧
  (∀ (k : Nat) (q : ComponentPool α), alFind pools k = some q →
    ∀ (j v : Nat), q.versions[j]? = some v → v < next) ∧
  (∀ (k : Nat) (q : ComponentPool α), alFind pools k = some q →
    q.versions.length = q.poolSize) ∧
  (∀ (k : Nat) (q : ComponentPool α), alFind pools k = some q → q.poolKey = k)

/-- The full registry invariant maintained by every operation. -/
def Inv (r : Registry α) : Prop :=
  RemapInv r.pools r.nextVersionIndex r.entityRemappings ∧
  PoolsInv r.pools r.nextVersionIndex

/-- Two pools agreeing on everything the invariant observes. -/
def sameShape (q' q : ComponentPool α) : Prop :=
  q'.versions = q.versions ∧ q'.poolSize = q.poolSize ∧ q'.poolKey = q.poolKey

/-- The new pool map only reshapes values of the old one (same keys, same
versions/sizes/poolKeys). -/
def shapePreserved (pools pools' : List (Nat × ComponentPool α)) : Prop :=
  ∀ k q', alFind pools' k = some q' → ∃ q, alFind pools k = some q ∧ sameShape q' q

theorem alFind_alUpdate_some {l : List (Nat × β)} {k k' : Nat} {v e : β} :
    alFind (alUpdate l k v) k' = some e ↔
      (k' = k ∧ e = v) ∨ (k' ≠ k ∧ alFind l k' = some e) := by
  rw [alFind_alUpdate]
  by_cases h : k' = k
  · subst h
    simp [eq_comm]
  · rw [if_neg h]
    simp [h]

theorem getElem?_concat_some {l : List β} {x v : β} {j : Nat} :
    (l ++ [x])[j]? = some v ↔
      (j < l.length ∧ l[j]? = some v) ∨ (j = l.length ∧ v = x) := by
  constructor
  · intro h
    rcases Nat.lt_or_ge j l.length with hj | hj
    · exact Or.inl ⟨hj, by rwa [List.getElem?_append_left hj] at h⟩
    · right
      rcases List.getElem?_eq_some_iff.mp h with ⟨hlt, -⟩
      rw [List.length_append, List.length_singleton] at hlt
      have hj' : j = l.length := by omega
      subst hj'
      rw [List.getElem?_concat_length] at h
      exact ⟨rfl, (Option.some.inj h).symm⟩
  · rintro (⟨hj, hv⟩ | ⟨hj, hv⟩)
    · rwa [List.getElem?_append_left hj]
    · subst hj; subst hv
      exact List.getElem?_concat_length _ _

theorem swapPop_some_iff {idx : Nat} {vs : List β} {j : Nat} {v : β} :
    (swapPop idx vs)[j]? = some v ↔
      j + 1 < vs.length ∧ ((j = idx ∧ vs[vs.length - 1]? = some v) ∨
        (j ≠ idx ∧ vs[j]? = some v)) := by
  constructor
  · intro h
    rcases Nat.lt_or_ge (j + 1) vs.length with hj | hj
    · refine ⟨hj, ?_⟩
      rw [swapPop_getElem? idx vs hj] at h
      by_cases hji : j = idx
      · rw [if_pos hji] at h; exact Or.inl ⟨hji, h⟩
      · rw [if_neg hji] at h; exact Or.inr ⟨hji, h⟩
    · rw [swapPop_getElem?_ge idx vs hj] at h; cases h
  · rintro ⟨hj, ⟨hji, hv⟩ | ⟨hji, hv⟩⟩
    · rw [swapPop_getElem? idx vs hj, if_pos hji]; exact hv
    · rw [swapPop_getElem? idx vs hj, if_neg hji]; exact hv

theorem isIdentical_self (t : EntityId) : t.isIdentical t = true := by
  simp [EntityId.isIdentical]

/-- Dead-marking one found remap entry preserves the remap invariant. -/
theorem remapInv_deadMark {pools : List (Nat × ComponentPool α)} {next : Nat}
    {remap : List (Nat × EntityId)} {v0 : Nat} {target : EntityId}
    (h : RemapInv pools next remap) (hr : alFind remap v0 = some target) :
    RemapInv pools next (alUpdate remap v0 { target with dead := true }) := by
  obtain ⟨hkv, htr, hb⟩ := h
  refine ⟨?_, ?_, ?_⟩
  · intro v e hf
    rcases alFind_alUpdate_some.mp hf with ⟨hvk, he⟩ | ⟨hne, hf'⟩
    · rw [he, hvk]
      exact hkv v0 target hr
    · exact hkv v e hf'
  · intro v e hf k j q hq hocc
    rcases alFind_alUpdate_some.mp hf with ⟨hvk, he⟩ | ⟨hne, hf'⟩
    · rw [he]
      rw [hvk] at hocc
      exact htr v0 target hr k j q hq hocc
    · exact htr v e hf' k j q hq hocc
  · intro v e hf
    rcases alFind_alUpdate_some.mp hf with ⟨hvk, he⟩ | ⟨hne, hf'⟩
    · rw [hvk]
      exact hb v0 target hr
    · exact hb v e hf'

/-- Resolution never breaks the remap invariant, whatever its outcome: the
only write it ever performs is dead-marking a found entry in place. -/
theorem resolveGo_remapInv {pools : List (Nat × ComponentPool α)} {next : Nat} :
    ∀ (fuel : Nat) (remap : List (Nat × EntityId)) (id : EntityId),
      RemapInv pools next remap →
      RemapInv pools next (resolveGo pools fuel remap id).remappings
  | 0, remap, id => fun h => h
  | (fuel + 1), remap, id => by
    intro h
    rw [resolveGo]
    by_cases hdead : id.dead = true
    · simp only [hdead, if_true]
      exact h
    · simp only [Bool.not_eq_true] at hdead
      simp only [hdead, Bool.false_eq_true, if_false]
      rcases hf : alFind pools id.poolKey with _ | q
      · simp only [hf]
        rcases hr : alFind remap id.version with _ | target
        · simp only [hr]; exact h
        · simp only [hr]
          by_cases hid : target.isIdentical id = true
          · simp only [hid, if_true]
            exact remapInv_deadMark h hr
          · simp only [Bool.not_eq_true] at hid
            simp only [hid, Bool.false_eq_true, if_false]
            exact resolveGo_remapInv fuel remap target h
      · simp only [hf]
        by_cases hv : q.isValid id = true
        · simp only [hv, if_true]; exact h
        · simp only [Bool.not_eq_true] at hv
          simp only [hv, Bool.false_eq_true, if_false]
          rcases hr : alFind remap id.version with _ | target
          · simp only [hr]; exact h
          · simp only [hr]
            by_cases hid : target.isIdentical id = true
            · simp only [hid, if_true]
              exact remapInv_deadMark h hr
            · simp only [Bool.not_eq_true] at hid
              simp only [hid, Bool.false_eq_true, if_false]
              exact resolveGo_remapInv fuel remap target h

/-- An entity id whose remap entry is itself can only resolve directly: the
follow-up lookup finds the identical entry and dead-ends. -/
theorem resolveGo_self_entry {pools : List (Nat × ComponentPool α)}
    {remap : List (Nat × EntityId)} :
    ∀ (fuel : Nat) (t : EntityId) (q : ComponentPool α),
      alFind remap t.version = some t →
      (resolveGo pools fuel remap t).pool = some q →
      (resolveGo pools fuel remap t).hops = 0 := by
  intro fuel t q hself h
  match fuel with
  | 0 => simp [resolveGo] at h
  | fuel + 1 =>
    rw [resolveGo] at h ⊢
    by_cases hdead : t.dead = true
    · simp [hdead] at h
    · simp only [Bool.not_eq_true] at hdead
      simp only [hdead, Bool.false_eq_true, if_false] at h ⊢
      rcases hf : alFind pools t.poolKey with _ | q2
      · simp only [hf] at h ⊢
        rw [hself] at h
        simp [isIdentical_self] at h
      · simp only [hf] at h ⊢
        by_cases hv : q2.isValid t = true
        · simp only [hv, if_true]
        · simp only [Bool.not_eq_true] at hv
          simp only [hv, Bool.false_eq_true, if_false] at h ⊢
          rw [hself] at h
          simp [isIdentical_self] at h

/-- Because every remap entry's version equals its key, a successful
resolution follows at most one remap entry. -/
theorem resolveGo_hops_le_one {pools : List (Nat × ComponentPool α)}
    {remap : List (Nat × EntityId)}
    (hkv : ∀ v e, alFind remap v = some e → e.version = v) :
    ∀ (fuel : Nat) (id : EntityId) (q : ComponentPool α),
      (resolveGo pools fuel remap id).pool = some q →
      (resolveGo pools fuel remap id).hops ≤ 1 := by
  intro fuel id q h
  match fuel with
  | 0 => simp [resolveGo] at h
  | fuel + 1 =>
    rw [resolveGo] at h ⊢
    by_cases hdead : id.dead = true
    · simp [hdead] at h
    · simp only [Bool.not_eq_true] at hdead
      simp only [hdead, Bool.false_eq_true, if_false] at h ⊢
      rcases hf : alFind pools id.poolKey with _ | q2
      · simp only [hf] at h ⊢
        rcases hr : alFind remap id.version with _ | target
        · simp [hr] at h
        · simp only [hr] at h ⊢
          by_cases hid : target.isIdentical id = true
          · simp [hid] at h
          · simp only [Bool.not_eq_true] at hid
            simp only [hid, Bool.false_eq_true, if_false] at h ⊢
            have hself : alFind remap target.version = some target := by
              rw [hkv id.version target hr]
              exact hr
            have hz := resolveGo_self_entry fuel target q hself h
            show (resolveGo pools fuel remap target).hops + 1 ≤ 1
            omega
      · simp only [hf] at h ⊢
        by_cases hv : q2.isValid id = true
        · simp only [hv, if_true]
          omega
        · simp only [Bool.not_eq_true] at hv
          simp only [hv, Bool.false_eq_true, if_false] at h ⊢
          rcases hr : alFind remap id.version with _ | target
          · simp [hr] at h
          · simp only [hr] at h ⊢
            by_cases hid : target.isIdentical id = true
            · simp [hid] at h
            · simp only [Bool.not_eq_true] at hid
              simp only [hid, Bool.false_eq_true, if_false] at h ⊢
              have hself : alFind remap target.version = some target := by
                rw [hkv id.version target hr]
                exact hr
              have hz := resolveGo_self_entry fuel target q hself h
              show (resolveGo pools fuel remap target).hops + 1 ≤ 1
              omega

/-! ### Shape-preserving operations -/

theorem sameShape_refl (q : ComponentPool α) : sameShape q q := ⟨rfl, rfl, rfl⟩

theorem sameShape_trans {a b c : ComponentPool α} (h1 : sameShape a b)
    (h2 : sameShape b c) : sameShape a c :=
  ⟨h1.1.trans h2.1, h1.2.1.trans h2.2.1, h1.2.2.trans h2.2.2⟩

theorem foldl_sameShape {g : ComponentPool α → β → ComponentPool α}
    (hg : ∀ q b, sameShape (g q b) q) :
    ∀ (l : List β) (q : ComponentPool α), sameShape (l.foldl g q) q := by
  intro l
  induction l with
  | nil => intro q; exact sameShape_refl q
  | cons hd t ih =>
    intro q
    simp only [List.foldl_cons]
    exact sameShape_trans (ih (g q hd)) (hg q hd)

theorem forEach_sameShape [Inhabited α] (p : ComponentPool α) (cs : List Nat)
    (cb : EntityId → List α → List α) : sameShape (p.forEach cs cb) p := by
  unfold ComponentPool.forEach
  apply foldl_sameShape
  intro q i
  apply foldl_sameShape
  intro q2 cv
  exact ⟨rfl, rfl, rfl⟩

theorem forEachERGo_sameShape [Inhabited α] (cs : List Nat)
    (cb : EntityId → List α → List α × Bool) :
    ∀ (rem i : Nat) (q : ComponentPool α), sameShape (forEachERGo cs cb q i rem).2 q := by
  intro rem
  induction rem with
  | zero => intro i q; exact sameShape_refl q
  | succ n ih =>
    intro i q
    rcases hcb : cb ⟨i, q.versions.getD i 0, q.poolKey, false⟩
      (cs.map (fun c => (q.components.getD c []).getD i default)) with ⟨out, stop⟩
    simp only [forEachERGo, hcb]
    by_cases hstop : stop = true
    · simp only [hstop, if_true]
      apply foldl_sameShape
      intro q2 cv
      exact ⟨rfl, rfl, rfl⟩
    · simp only [Bool.not_eq_true] at hstop
      simp only [hstop, Bool.false_eq_true, if_false]
      apply sameShape_trans (ih (i + 1) _)
      apply foldl_sameShape
      intro q2 cv
      exact ⟨rfl, rfl, rfl⟩

theorem alFind_cons (hd : Nat × β) (t : List (Nat × β)) (k : Nat) :
    alFind (hd :: t) k = if hd.1 = k then some hd.2 else alFind t k := rfl

theorem shapePreserved_refl (l : List (Nat × ComponentPool α)) : shapePreserved l l :=
  fun _ q' hf => ⟨q', hf, sameShape_refl q'⟩

theorem shapePreserved_alUpdate {pools : List (Nat × ComponentPool α)} {k0 : Nat}
    {q0 q1 : ComponentPool α} (hf : alFind pools k0 = some q0) (hsh : sameShape q1 q0) :
    shapePreserved pools (alUpdate pools k0 q1) := by
  intro k q' hq'
  rcases alFind_alUpdate_some.mp hq' with ⟨hk, he⟩ | ⟨hk, hq⟩
  · subst hk
    exact ⟨q0, hf, by rw [he]; exact hsh⟩
  · exact ⟨q', hq, sameShape_refl q'⟩

theorem shapePreserved_map {g : Nat × ComponentPool α → Nat × ComponentPool α}
    (hg : ∀ kp, (g kp).1 = kp.1 ∧ sameShape (g kp).2 kp.2) :
    ∀ l : List (Nat × ComponentPool α), shapePreserved l (l.map g) := by
  intro l
  induction l with
  | nil => intro k q' hf; simp [alFind] at hf
  | cons kp t ih =>
    intro k q' hf
    rw [List.map_cons, alFind_cons] at hf
    by_cases hk : (g kp).1 = k
    · rw [if_pos hk] at hf
      cases hf
      have h2 : kp.1 = k := by rw [← (hg kp).1]; exact hk
      exact ⟨kp.2, by rw [alFind_cons, if_pos h2], (hg kp).2⟩
    · rw [if_neg hk] at hf
      obtain ⟨q, hq, hsh⟩ := ih k q' hf
      have h2 : ¬kp.1 = k := fun hh => hk (by rw [(hg kp).1]; exact hh)
      exact ⟨q, by rw [alFind_cons, if_neg h2]; exact hq, hsh⟩

theorem forEachERPools_shape [Inhabited α] (cs : List Nat)
    (cb : EntityId → List α → List α × Bool) :
    ∀ l : List (Nat × ComponentPool α), shapePreserved l (forEachERPools cs cb l) := by
  intro l
  induction l with
  | nil => intro k q' hf; simp [forEachERPools, alFind] at hf
  | cons kp t ih =>
    intro k q' hf
    rw [forEachERPools] at hf
    by_cases hc : kp.2.hasComponents cs = true
    · simp only [hc, if_true] at hf
      rcases hfe : kp.2.forEachEarlyReturn cs cb with ⟨stopped, p2⟩
      rw [hfe] at hf
      have hshape : sameShape p2 kp.2 := by
        have h2 := forEachERGo_sameShape cs cb kp.2.poolSize 0 kp.2
        rw [show forEachERGo cs cb kp.2 0 kp.2.poolSize = (stopped, p2) from hfe] at h2
        exact h2
      by_cases hs : stopped = true
      · simp only [hs, if_true] at hf
        rw [alFind_cons] at hf
        by_cases hk : kp.1 = k
        · rw [if_pos hk] at hf
          cases hf
          exact ⟨kp.2, by rw [alFind_cons, if_pos hk], hshape⟩
        · rw [if_neg hk] at hf
          exact ⟨q', by rw [alFind_cons, if_neg hk]; exact hf, sameShape_refl q'⟩
      · simp only [Bool.not_eq_true] at hs
        simp only [hs, Bool.false_eq_true, if_false] at hf
        rw [alFind_cons] at hf
        by_cases hk : kp.1 = k
        · rw [if_pos hk] at hf
          cases hf
          exact ⟨kp.2, by rw [alFind_cons, if_pos hk], hshape⟩
        · rw [if_neg hk] at hf
          obtain ⟨q, hq, hsh⟩ := ih k q' hf
          exact ⟨q, by rw [alFind_cons, if_neg hk]; exact hq, hsh⟩
    · simp only [Bool.not_eq_true] at hc
      simp only [hc, Bool.false_eq_true, if_false] at hf
      rw [alFind_cons] at hf
      by_cases hk : kp.1 = k
      · rw [if_pos hk] at hf
        cases hf
        exact ⟨kp.2, by rw [alFind_cons, if_pos hk], sameShape_refl kp.2⟩
      · rw [if_neg hk] at hf
        obtain ⟨q, hq, hsh⟩ := ih k q' hf
        exact ⟨q, by rw [alFind_cons, if_neg hk]; exact hq, hsh⟩

/-- A shape-preserving pool rewrite with untouched remap table and counter
keeps the invariant. -/
theorem inv_shape {r r' : Registry α} (hInv : Inv r)
    (hpools : shapePreserved r.pools r'.pools)
    (hrm : r'.entityRemappings = r.entityRemappings)
    (hnext : r'.nextVersionIndex = r.nextVersionIndex) : Inv r' := by
  obtain ⟨⟨hkv, htr, hb⟩, huq, hvb, hlen, hpk⟩ := hInv
  refine ⟨?_, ?_⟩
  · show RemapInv r'.pools r'.nextVersionIndex r'.entityRemappings
    rw [hrm, hnext]
    refine ⟨hkv, ?_, hb⟩
    intro v e hf k j q hq hocc
    obtain ⟨q0, hq0, hsh⟩ := hpools k q hq
    exact htr v e hf k j q0 hq0 (by rw [← hsh.1]; exact hocc)
  · show PoolsInv r'.pools r'.nextVersionIndex
    rw [hnext]
    refine ⟨?_, ?_, ?_, ?_⟩
    · intro v k1 j1 q1 k2 j2 q2 h1 ho1 h2 ho2
      obtain ⟨q1o, hq1, hs1⟩ := hpools k1 q1 h1
      obtain ⟨q2o, hq2, hs2⟩ := hpools k2 q2 h2
      exact huq v k1 j1 q1o k2 j2 q2o hq1 (by rw [← hs1.1]; exact ho1) hq2
        (by rw [← hs2.1]; exact ho2)
    · intro k q hq j v hocc
      obtain ⟨q0, hq0, hsh⟩ := hpools k q hq
      exact hvb k q0 hq0 j v (by rw [← hsh.1]; exact hocc)
    · intro k q hq
      obtain ⟨q0, hq0, hsh⟩ := hpools k q hq
      rw [hsh.1, hsh.2.1]
      exact hlen k q0 hq0
    · intro k q hq
      obtain ⟨q0, hq0, hsh⟩ := hpools k q hq
      rw [hsh.2.2]
      exact hpk k q0 hq0

/-- Writing a resolution's remap table back into the registry keeps the
invariant. -/
theorem inv_resolveUpdate {r : Registry α} (hInv : Inv r) (id : EntityId) :
    Inv { r with entityRemappings := (r.resolveEntityId id).remappings } := by
  obtain ⟨hrm, hpl⟩ := hInv
  refine ⟨?_, hpl⟩
  show RemapInv r.pools r.nextVersionIndex (r.resolveEntityId id).remappings
  exact resolveGo_remapInv _ _ _ hrm

/-- Success conditions and output of `ComponentPool::createEntity`. -/
theorem createEntity_ok_spec {p : ComponentPool α} {eid : EntityId}
    {cs : List (Nat × α)} {p2 : ComponentPool α}
    (h : p.createEntity eid cs = .ok p2) :
    p.poolSize = p.versions.length ∧ eid.unstableIndex = p.poolSize ∧
    p2.versions = p.versions ++ [eid.version] ∧ p2.poolSize = p.poolSize + 1 ∧
    p2.poolKey = p.poolKey := by
  unfold ComponentPool.createEntity at h
  by_cases h1 : eid.unstableIndex = p.poolSize
  · by_cases h2 : p.poolSize = p.versions.length
    · simp only [if_neg (not_not_intro h1), if_neg (not_not_intro h2)] at h
      cases h
      exact ⟨h2, h1, rfl, rfl, rfl⟩
    · simp [h1, h2] at h
  · simp [h1] at h

/-! ### Invariant preservation: the non-relocating operations -/

theorem get_registry_eq (r : Registry α) (id : EntityId) (c : Nat) :
    (r.get id c).2.2 = { r with entityRemappings := (r.resolveEntityId id).remappings } := by
  unfold Registry.get
  rcases h : (r.resolveEntityId id).pool with _ | pool <;> simp [h]

theorem inv_get {α : Type} {r : Registry α} (hInv : Inv r) (id : EntityId) (c : Nat) :
    Inv (r.get id c).2.2 := by
  rw [get_registry_eq]
  exact inv_resolveUpdate hInv id

theorem inv_set {α : Type} {r : Registry α} (hInv : Inv r) (id : EntityId) (c : Nat)
    (v : α) : Inv (r.set id c v).2 := by
  unfold Registry.set
  rcases h : (r.resolveEntityId id).pool with _ | pool
  · simp only [h]
    exact inv_resolveUpdate hInv id
  · simp only [h]
    by_cases hg : (pool.getComponent c (r.resolveEntityId id).entityId).isSome = true
    · rw [if_pos hg]
      obtain ⟨hfind, -, -, -⟩ := resolveEntityId_ok h
      exact inv_shape (inv_resolveUpdate hInv id)
        (shapePreserved_alUpdate hfind ⟨rfl, rfl, rfl⟩) rfl rfl
    · rw [if_neg hg]
      exact inv_resolveUpdate hInv id

theorem inv_forEachPool {α : Type} {r : Registry α} (hInv : Inv r)
    (cb : ComponentPool α → ComponentPool α)
    (hcb : ∀ q, sameShape (cb q) q) : Inv (r.forEachPool cb) := by
  refine inv_shape hInv ?_ rfl rfl
  apply shapePreserved_map
  intro kp
  by_cases h : kp.2.poolSize = 0
  · rw [if_pos h]
    exact ⟨rfl, sameShape_refl kp.2⟩
  · rw [if_neg h]
    exact ⟨rfl, hcb kp.2⟩

theorem inv_forEachComponents {α : Type} [Inhabited α] {r : Registry α} (hInv : Inv r)
    (cs : List Nat) (cb : EntityId → List α → List α) :
    Inv (r.forEachComponents cs cb) := by
  refine inv_shape hInv ?_ rfl rfl
  apply shapePreserved_map
  intro kp
  by_cases h : kp.2.hasComponents cs = true
  · rw [if_pos h]
    exact ⟨rfl, forEach_sameShape kp.2 cs cb⟩
  · rw [if_neg h]
    exact ⟨rfl, sameShape_refl kp.2⟩

theorem inv_forEachComponentsEarlyReturn {α : Type} [Inhabited α] {r : Registry α}
    (hInv : Inv r) (cs : List Nat) (cb : EntityId → List α → List α × Bool) :
    Inv (r.forEachComponentsEarlyReturn cs cb) :=
  inv_shape hInv (forEachERPools_shape cs cb r.pools) rfl rfl

theorem inv_forEachEntity {α β : Type} {r : Registry α} (hInv : Inv r)
    (cb : EntityId → β → β) (acc : β) : Inv (r.forEachEntity cb acc).1 :=
  inv_shape hInv (shapePreserved_refl r.pools) rfl rfl

/-! ### Invariant preservation: `createEntity` -/

/-- Global description of `Registry::createEntity`, covering the found and
lazily-created pool paths. -/
theorem createEntity_eq {r : Registry α} {cs : List (Nat × α)} {pool : ComponentPool α}
    {pools0 : List (Nat × ComponentPool α)} {key : Nat}
    (hIter : r.isIterating = false)
    (hkey : key = combineHashes (cs.map (fun cv => typeHash cv.1)))
    (hcase : (alFind r.pools key = some pool ∧ pools0 = r.pools) ∨
      (alFind r.pools key = none ∧
        pool = initFromTemplate r.numComponents key (cs.map (fun cv => typeHash cv.1))
          (cs.map (fun cv => cv.1)) ∧
        pools0 = r.pools ++ [(key, pool)])) :
    r.createEntity cs =
      match pool.createEntity ⟨pool.poolSize, r.nextVersionIndex, key, false⟩ cs with
      | .error e => .error e
      | .ok p2 => .ok (⟨pool.poolSize, r.nextVersionIndex, key, false⟩,
          { r with pools := alUpdate pools0 key p2,
                   nextVersionIndex := r.nextVersionIndex + 1 }) := by
  unfold Registry.createEntity
  rw [hIter]
  simp only [Bool.false_eq_true, if_false, generateComponentPoolKeyFromHashes, ← hkey]
  have hmain : (match alFind r.pools key with
      | some _ => r.pools
      | none => r.pools ++ [(key, initFromTemplate r.numComponents key
          (cs.map (fun cv => typeHash cv.1)) (cs.map (fun cv => cv.1)))]) = pools0 := by
    rcases hcase with ⟨hf, hp0⟩ | ⟨hf, hp, hp0⟩
    · rw [hf, hp0]
    · rw [hf, hp0, hp]
  have hpool : poolAt pools0 key = pool := by
    rcases hcase with ⟨hf, hp0⟩ | ⟨hf, hp, hp0⟩
    · rw [hp0]; simp [poolAt, hf]
    · rw [hp0]; simp [poolAt, alFind_append_right hf, alFind]
  rw [hmain, hpool]

/-- Successful `createEntity`, destructured. -/
theorem createEntity_ok_eq {r : Registry α} {cs : List (Nat × α)}
    {pool : ComponentPool α} {pools0 : List (Nat × ComponentPool α)} {key : Nat}
    {eid : EntityId} {r' : Registry α}
    (hIter : r.isIterating = false)
    (hkey : key = combineHashes (cs.map (fun cv => typeHash cv.1)))
    (hcase : (alFind r.pools key = some pool ∧ pools0 = r.pools) ∨
      (alFind r.pools key = none ∧
        pool = initFromTemplate r.numComponents key (cs.map (fun cv => typeHash cv.1))
          (cs.map (fun cv => cv.1)) ∧
        pools0 = r.pools ++ [(key, pool)]))
    (hok : r.createEntity cs = .ok (eid, r')) :
    ∃ p2, pool.createEntity ⟨pool.poolSize, r.nextVersionIndex, key, false⟩ cs = .ok p2 ∧
      eid = ⟨pool.poolSize, r.nextVersionIndex, key, false⟩ ∧
      r' = { r with pools := alUpdate pools0 key p2,
                    nextVersionIndex := r.nextVersionIndex + 1 } := by
  rw [createEntity_eq hIter hkey hcase] at hok
  rcases hce : pool.createEntity ⟨pool.poolSize, r.nextVersionIndex, key, false⟩ cs
    with e | p2
  · rw [hce] at hok; cases hok
  · rw [hce] at hok
    exact ⟨p2, rfl, (congrArg Prod.fst (Except.ok.inj hok)).symm,
      (congrArg Prod.snd (Except.ok.inj hok)).symm⟩

theorem inv_createEntity_core {r : Registry α} {pool p2 : ComponentPool α}
    {pools0 : List (Nat × ComponentPool α)} {key : Nat}
    (hInv : Inv r)
    (hcase : (alFind r.pools key = some pool ∧ pools0 = r.pools) ∨
      (alFind r.pools key = none ∧ pool.versions = [] ∧ pool.poolKey = key ∧
        pools0 = r.pools ++ [(key, pool)]))
    (hp2v : p2.versions = pool.versions ++ [r.nextVersionIndex])
    (hp2z : p2.poolSize = pool.poolSize + 1)
    (hp2k : p2.poolKey = pool.poolKey)
    (hplen : pool.poolSize = pool.versions.length) :
    Inv { r with pools := alUpdate pools0 key p2,
                 nextVersionIndex := r.nextVersionIndex + 1 } := by
  obtain ⟨⟨hkv, htr, hb⟩, huq, hvb, hlen, hpk⟩ := hInv
  have hother0 : ∀ k, k ≠ key → alFind pools0 k = alFind r.pools k := by
    intro k hk
    rcases hcase with ⟨hf, hp0⟩ | ⟨hf, hv0, hpkf, hp0⟩
    · rw [hp0]
    · rw [hp0, alFind_append_singleton_ne hk]
  have hpoolOld : ∀ (j v : Nat), pool.versions[j]? = some v →
      alFind r.pools key = some pool := by
    intro j v hocc
    rcases hcase with ⟨hf, -⟩ | ⟨-, hv0, -, -⟩
    · exact hf
    · rw [hv0] at hocc; simp at hocc
  have hchar : ∀ (k : Nat) (q' : ComponentPool α) (j v : Nat),
      alFind (alUpdate pools0 key p2) k = some q' → q'.versions[j]? = some v →
      (∃ q, alFind r.pools k = some q ∧ q.versions[j]? = some v) ∨
      (k = key ∧ j = pool.versions.length ∧ v = r.nextVersionIndex) := by
    intro k q' j v hfq hocc
    rcases alFind_alUpdate_some.mp hfq with ⟨hk, he⟩ | ⟨hk, hfq'⟩
    · subst hk
      rw [he, hp2v] at hocc
      rcases getElem?_concat_some.mp hocc with ⟨hj, hocc'⟩ | ⟨hj, hveq⟩
      · exact Or.inl ⟨pool, hpoolOld j v hocc', hocc'⟩
      · exact Or.inr ⟨rfl, hj, hveq⟩
    · rw [hother0 k hk] at hfq'
      exact Or.inl ⟨q', hfq', hocc⟩
  refine ⟨⟨hkv, ?_, ?_⟩, ?_, ?_, ?_, ?_⟩
  · intro v e hf k j q hq hocc
    rcases hchar k q j v hq hocc with ⟨q0, hq0, ho0⟩ | ⟨hk, hj, hveq⟩
    · exact htr v e hf k j q0 hq0 ho0
    · exfalso
      have hbv := hb v e hf
      rw [hveq] at hbv
      exact absurd hbv (lt_irrefl _)
  · intro v e hf
    have := hb v e hf
    show v < r.nextVersionIndex + 1
    omega
  · intro v k1 j1 q1 k2 j2 q2 h1 ho1 h2 ho2
    rcases hchar k1 q1 j1 v h1 ho1 with ⟨q1o, hq1, ho1'⟩ | ⟨hk1, hj1, hv1⟩
    · rcases hchar k2 q2 j2 v h2 ho2 with ⟨q2o, hq2, ho2'⟩ | ⟨hk2, hj2, hv2⟩
      · exact huq v k1 j1 q1o k2 j2 q2o hq1 ho1' hq2 ho2'
      · exfalso
        have := hvb k1 q1o hq1 j1 v ho1'
        rw [hv2] at this
        exact absurd this (lt_irrefl _)
    · rcases hchar k2 q2 j2 v h2 ho2 with ⟨q2o, hq2, ho2'⟩ | ⟨hk2, hj2, hv2⟩
      · exfalso
        have := hvb k2 q2o hq2 j2 v ho2'
        rw [hv1] at this
        exact absurd this (lt_irrefl _)
      · exact ⟨hk1.trans hk2.symm, hj1.trans hj2.symm⟩
  · intro k q hq j v hocc
    rcases hchar k q j v hq hocc with ⟨q0, hq0, ho0⟩ | ⟨hk, hj, hveq⟩
    · have := hvb k q0 hq0 j v ho0
      show v < r.nextVersionIndex + 1
      omega
    · show v < r.nextVersionIndex + 1
      omega
  · intro k q hq
    rcases alFind_alUpdate_some.mp hq with ⟨hk, he⟩ | ⟨hk, hq'⟩
    · rw [he, hp2v, hp2z, List.length_append, List.length_singleton]
      omega
    · rw [hother0 k hk] at hq'
      exact hlen k q hq'
  · intro k q hq
    rcases alFind_alUpdate_some.mp hq with ⟨hk, he⟩ | ⟨hk, hq'⟩
    · subst hk
      rw [he, hp2k]
      rcases hcase with ⟨hf, -⟩ | ⟨-, -, hpkf, -⟩
      · exact hpk _ pool hf
      · exact hpkf
    · rw [hother0 k hk] at hq'
      exact hpk k q hq'

/-- `createEntity` preserves the invariant. -/
theorem inv_createEntity {α : Type} {r : Registry α} {cs : List (Nat × α)}
    {eid : EntityId} {r' : Registry α} (hInv : Inv r)
    (hok : r.createEntity cs = .ok (eid, r')) : Inv r' := by
  have hIter : r.isIterating = false := by
    by_cases h : r.isIterating = true
    · unfold Registry.createEntity at hok
      rw [if_pos h] at hok
      cases hok
    · simpa using h
  rcases hf : alFind r.pools (combineHashes (cs.map (fun cv => typeHash cv.1)))
    with _ | pool
  · obtain ⟨p2, hce, he, hr'⟩ := createEntity_ok_eq hIter rfl (Or.inr ⟨hf, rfl, rfl⟩) hok
    obtain ⟨hplen, -, hv2, hz2, hk2⟩ := createEntity_ok_spec hce
    rw [hr']
    exact inv_createEntity_core hInv (Or.inr ⟨hf, rfl, rfl, rfl⟩) hv2 hz2 hk2 hplen
  · obtain ⟨p2, hce, he, hr'⟩ := createEntity_ok_eq hIter rfl (Or.inl ⟨hf, rfl⟩) hok
    obtain ⟨hplen, -, hv2, hz2, hk2⟩ := createEntity_ok_spec hce
    rw [hr']
    exact inv_createEntity_core hInv (Or.inl ⟨hf, rfl⟩) hv2 hz2 hk2 hplen

/-! ### Invariant preservation: `removeEntity` -/

/-- The remap table published by a valid removal: the pre-removal last
version is remapped to the vacated slot whenever the pool held at least two
entities, otherwise nothing changes. -/
theorem remap_after_remove {p : ComponentPool α} {oid : EntityId}
    (hvalid : p.isValid oid = true) (pk : Nat) (remap : List (Nat × EntityId)) :
    (1 < p.poolSize ∧ ∃ sv, p.versions[p.versions.length - 1]? = some sv ∧
      handleRemoveResult (p.removeEntity oid).1 pk remap =
        alUpdate remap sv ⟨oid.unstableIndex, sv, pk, false⟩) ∨
    (¬ 1 < p.poolSize ∧
      handleRemoveResult (p.removeEntity oid).1 pk remap = remap) := by
  have hre := removeEntity_eq hvalid
  obtain ⟨hdead, hidx, hocc⟩ := (isValid_iff p oid).mp hvalid
  by_cases h1 : 1 < p.poolSize
  · left
    refine ⟨h1, ?_⟩
    have hne : p.versions ≠ [] := by
      intro hnil
      rw [hnil] at hocc
      simp at hocc
    obtain ⟨sv, hsv⟩ := Option.ne_none_iff_exists'.mp
      (fun h => hne (List.getLast?_eq_none_iff.mp h))
    refine ⟨sv, ?_, ?_⟩
    · rw [← List.getLast?_eq_getElem?]
      exact hsv
    · rw [hre, if_pos h1]
      simp only [handleRemoveResult, hsv, Bool.not_true, Bool.false_eq_true, if_false,
        if_true]
  · right
    refine ⟨h1, ?_⟩
    rw [hre, if_neg h1]
    simp [handleRemoveResult]

theorem inv_removeEntity_core {r r' : Registry α} {p : ComponentPool α} {oid : EntityId}
    (hInv : Inv r)
    (hfindP : alFind r.pools oid.poolKey = some p)
    (hvalid : p.isValid oid = true)
    (hnext : r'.nextVersionIndex = r.nextVersionIndex)
    (hfO : alFind r'.pools oid.poolKey = some ((p.removeEntity oid).2))
    (hothers : ∀ k', k' ≠ oid.poolKey → alFind r'.pools k' = alFind r.pools k')
    (hremap : r'.entityRemappings =
      handleRemoveResult (p.removeEntity oid).1 p.poolKey r.entityRemappings) :
    Inv r' := by
  obtain ⟨⟨hkv, htr, hb⟩, huq, hvb, hlen, hpk⟩ := hInv
  have hre := removeEntity_eq hvalid
  obtain ⟨hdead, hidx, hoccO⟩ := (isValid_iff p oid).mp hvalid
  have hplen := hlen oid.poolKey p hfindP
  have hpoolkey := hpk oid.poolKey p hfindP
  have hverO : (p.removeEntity oid).2.versions = swapPop oid.unstableIndex p.versions := by
    rw [hre]
  have hchar : ∀ (k : Nat) (q' : ComponentPool α) (j v : Nat),
      alFind r'.pools k = some q' → q'.versions[j]? = some v →
      (k = oid.poolKey ∧ j + 1 < p.versions.length ∧
        ((j = oid.unstableIndex ∧ p.versions[p.versions.length - 1]? = some v) ∨
         (j ≠ oid.unstableIndex ∧ p.versions[j]? = some v))) ∨
      (k ≠ oid.poolKey ∧ alFind r.pools k = some q' ∧ q'.versions[j]? = some v) := by
    intro k q' j v hfq hocc
    by_cases hk : k = oid.poolKey
    · left
      rw [hk, hfO] at hfq
      have hq' : q' = (p.removeEntity oid).2 := (Option.some.inj hfq).symm
      rw [hq', hverO] at hocc
      obtain ⟨hjlt, hcase2⟩ := swapPop_some_iff.mp hocc
      exact ⟨hk, hjlt, hcase2⟩
    · right
      rw [hothers k hk] at hfq
      exact ⟨hk, hfq, hocc⟩
  have holdP : ∀ k, k = oid.poolKey → alFind r.pools k = some p := by
    intro k hk
    rw [hk]
    exact hfindP
  refine ⟨⟨?_, ?_, ?_⟩, ?_, ?_, ?_, ?_⟩
  · -- keyVer
    intro v e hf
    rw [hremap] at hf
    rcases remap_after_remove hvalid p.poolKey r.entityRemappings with
      ⟨h1, sv, hsv, heq⟩ | ⟨h1, heq⟩
    · rw [heq] at hf
      rcases alFind_alUpdate_some.mp hf with ⟨hveq, he⟩ | ⟨hvne, hf'⟩
      · rw [he, hveq]
      · exact hkv v e hf'
    · rw [heq] at hf
      exact hkv v e hf
  · -- truth
    intro v e hf k j q hfq hocc
    rw [hremap] at hf
    rcases remap_after_remove hvalid p.poolKey r.entityRemappings with
      ⟨h1, sv, hsv, heq⟩ | ⟨h1, heq⟩
    · rw [heq] at hf
      rcases alFind_alUpdate_some.mp hf with ⟨hveq, he⟩ | ⟨hvne, hf'⟩
      · -- the freshly published entry for the swapped-in version
        rcases hchar k q j v hfq hocc with ⟨hk, hjlt, ⟨hj, hvv⟩ | ⟨hj, hvv⟩⟩ |
          ⟨hk, hfq', hocc'⟩
        · rw [he]
          exact ⟨hk.trans hpoolkey.symm, hj⟩
        · exfalso
          rw [hveq] at hvv
          have huu := huq sv oid.poolKey j p oid.poolKey (p.versions.length - 1) p
            hfindP hvv hfindP hsv
          omega
        · exfalso
          rw [hveq] at hocc'
          have huu := huq sv k j q oid.poolKey (p.versions.length - 1) p hfq' hocc'
            hfindP hsv
          exact hk huu.1
      · -- an untouched entry
        rcases hchar k q j v hfq hocc with ⟨hk, hjlt, ⟨hj, hvv⟩ | ⟨hj, hvv⟩⟩ |
          ⟨hk, hfq', hocc'⟩
        · exfalso
          rw [hsv] at hvv
          exact hvne (Option.some.inj hvv).symm
        · exact htr v e hf' k j p (holdP k hk) hvv
        · exact htr v e hf' k j q hfq' hocc'
    · rw [heq] at hf
      rcases hchar k q j v hfq hocc with ⟨hk, hjlt, -⟩ | ⟨hk, hfq', hocc'⟩
      · exfalso
        omega
      · exact htr v e hf k j q hfq' hocc'
  · -- remapBound
    intro v e hf
    rw [hremap] at hf
    rw [hnext]
    rcases remap_after_remove hvalid p.poolKey r.entityRemappings with
      ⟨h1, sv, hsv, heq⟩ | ⟨h1, heq⟩
    · rw [heq] at hf
      rcases alFind_alUpdate_some.mp hf with ⟨hveq, he⟩ | ⟨hvne, hf'⟩
      · rw [hveq]
        exact hvb oid.poolKey p hfindP (p.versions.length - 1) sv hsv
      · exact hb v e hf'
    · rw [heq] at hf
      exact hb v e hf
  · -- uniq
    intro v k1 j1 q1 k2 j2 q2 h1 ho1 h2 ho2
    rcases hchar k1 q1 j1 v h1 ho1 with ⟨hk1, hl1, ⟨hj1, hv1⟩ | ⟨hj1, hv1⟩⟩ |
      ⟨hk1, hf1, ho1'⟩
    · rcases hchar k2 q2 j2 v h2 ho2 with ⟨hk2, hl2, ⟨hj2, hv2⟩ | ⟨hj2, hv2⟩⟩ |
        ⟨hk2, hf2, ho2'⟩
      · exact ⟨hk1.trans hk2.symm, hj1.trans hj2.symm⟩
      · exfalso
        have huu := huq v oid.poolKey j2 p oid.poolKey (p.versions.length - 1) p
          hfindP hv2 hfindP hv1
        omega
      · exfalso
        have huu := huq v k2 j2 q2 oid.poolKey (p.versions.length - 1) p hf2 ho2'
          hfindP hv1
        exact hk2 huu.1
    · rcases hchar k2 q2 j2 v h2 ho2 with ⟨hk2, hl2, ⟨hj2, hv2⟩ | ⟨hj2, hv2⟩⟩ |
        ⟨hk2, hf2, ho2'⟩
      · exfalso
        have huu := huq v oid.poolKey j1 p oid.poolKey (p.versions.length - 1) p
          hfindP hv1 hfindP hv2
        omega
      · have huu := huq v oid.poolKey j1 p oid.poolKey j2 p hfindP hv1 hfindP hv2
        exact ⟨hk1.trans hk2.symm, huu.2⟩
      · exfalso
        have huu := huq v k2 j2 q2 oid.poolKey j1 p hf2 ho2' hfindP hv1
        exact hk2 huu.1
    · rcases hchar k2 q2 j2 v h2 ho2 with ⟨hk2, hl2, ⟨hj2, hv2⟩ | ⟨hj2, hv2⟩⟩ |
        ⟨hk2, hf2, ho2'⟩
      · exfalso
        have huu := huq v k1 j1 q1 oid.poolKey (p.versions.length - 1) p hf1 ho1'
          hfindP hv2
        exact hk1 huu.1
      · exfalso
        have huu := huq v k1 j1 q1 oid.poolKey j2 p hf1 ho1' hfindP hv2
        exact hk1 huu.1
      · exact huq v k1 j1 q1 k2 j2 q2 hf1 ho1' hf2 ho2'
  · -- verBound
    intro k q hq j v hocc
    rw [hnext]
    rcases hchar k q j v hq hocc with ⟨hk, hjlt, ⟨hj, hvv⟩ | ⟨hj, hvv⟩⟩ |
      ⟨hk, hfq', hocc'⟩
    · exact hvb oid.poolKey p hfindP (p.versions.length - 1) v hvv
    · exact hvb oid.poolKey p hfindP j v hvv
    · exact hvb k q hfq' j v hocc'
  · -- poolLen
    intro k q hq
    by_cases hk : k = oid.poolKey
    · rw [hk, hfO] at hq
      have hq' : q = (p.removeEntity oid).2 := (Option.some.inj hq).symm
      rw [hq', hverO, swapPop_length, hre]
      show p.versions.length - 1 = p.poolSize - 1
      omega
    · rw [hothers k hk] at hq
      exact hlen k q hq
  · -- poolKeyEq
    intro k q hq
    by_cases hk : k = oid.poolKey
    · rw [hk, hfO] at hq
      have hq' : q = (p.removeEntity oid).2 := (Option.some.inj hq).symm
      rw [hq', hre, hk]
      show p.poolKey = oid.poolKey
      exact hpoolkey
    · rw [hothers k hk] at hq
      exact hpk k q hq

/-- `Registry::removeEntity` preserves the invariant. -/
theorem inv_removeEntity {α : Type} {r : Registry α} {id eid : EntityId}
    {r' : Registry α} (hInv : Inv r)
    (hok : r.removeEntity id = .ok (eid, r')) : Inv r' := by
  have hIter : r.isIterating = false := by
    by_cases h : r.isIterating = true
    · unfold Registry.removeEntity at hok
      rw [if_pos h] at hok
      cases hok
    · simpa using h
  unfold Registry.removeEntity at hok
  simp only [if_neg (fun h => Bool.false_ne_true (hIter.symm.trans h))] at hok
  rcases hres : (r.resolveEntityId id).pool with _ | pool
  · rw [hres] at hok
    have hr' : r' = _ := (congrArg Prod.snd (Except.ok.inj hok)).symm
    rw [hr']
    exact inv_resolveUpdate hInv id
  · rw [hres] at hok
    obtain ⟨hfind, hvalid, hdead, hrm⟩ := resolveEntityId_ok hres
    rw [hrm] at hok
    have hr' : r' = _ := (congrArg Prod.snd (Except.ok.inj hok)).symm
    rw [hr']
    exact inv_removeEntity_core hInv hfind hvalid rfl
      (alFind_alUpdate_self _ _ _)
      (fun k' hk' => alFind_alUpdate_ne _ _ hk')
      rfl

/-! ### Invariant preservation: the transfer performed by add/removeComponent -/

theorem inv_transfer {r r' : Registry α} {p np npF : ComponentPool α}
    {K : Nat} {oid : EntityId}
    (hInv : Inv r)
    (hfindP : alFind r.pools oid.poolKey = some p)
    (hvalid : p.isValid oid = true)
    (hne : oid.poolKey ≠ K)
    (hnp : (alFind r.pools K = some np) ∨
      (alFind r.pools K = none ∧ np.versions = [] ∧ np.poolSize = 0 ∧ np.poolKey = K))
    (hnext : r'.nextVersionIndex = r.nextVersionIndex)
    (hfN : alFind r'.pools K = some npF)
    (hnpFv : npF.versions = np.versions ++ [oid.version])
    (hnpFz : npF.poolSize = np.poolSize + 1)
    (hnpFk : npF.poolKey = np.poolKey)
    (hfO : alFind r'.pools oid.poolKey = some ((p.removeEntity oid).2))
    (hothers : ∀ k', k' ≠ K → k' ≠ oid.poolKey → alFind r'.pools k' = alFind r.pools k')
    (hremap : r'.entityRemappings =
      alUpdate (handleRemoveResult (p.removeEntity oid).1 p.poolKey r.entityRemappings)
        oid.version ⟨np.poolSize, oid.version, K, false⟩) :
    Inv r' := by
  obtain ⟨⟨hkv, htr, hb⟩, huq, hvb, hlen, hpk⟩ := hInv
  have hre := removeEntity_eq hvalid
  obtain ⟨hdeadO, hidx, hoccO⟩ := (isValid_iff p oid).mp hvalid
  have hplen := hlen oid.poolKey p hfindP
  have hpoolkey := hpk oid.poolKey p hfindP
  have hverO : (p.removeEntity oid).2.versions = swapPop oid.unstableIndex p.versions := by
    rw [hre]
  have hnplen : np.poolSize = np.versions.length := by
    rcases hnp with hf | ⟨-, hv0, hz0, -⟩
    · exact (hlen K np hf).symm
    · rw [hv0, hz0]
      rfl
  have hnpk : np.poolKey = K := by
    rcases hnp with hf | ⟨-, -, -, hk0⟩
    · exact hpk K np hf
    · exact hk0
  have holdK : ∀ (j v : Nat), np.versions[j]? = some v → alFind r.pools K = some np := by
    intro j v hocc
    rcases hnp with hf | ⟨-, hv0, -, -⟩
    · exact hf
    · rw [hv0] at hocc; simp at hocc
  have hchar : ∀ (k : Nat) (q' : ComponentPool α) (j v : Nat),
      alFind r'.pools k = some q' → q'.versions[j]? = some v →
      (k = K ∧ j = np.versions.length ∧ v = oid.version) ∨
      (k = K ∧ alFind r.pools K = some np ∧ np.versions[j]? = some v) ∨
      (k = oid.poolKey ∧ j + 1 < p.versions.length ∧
        ((j = oid.unstableIndex ∧ p.versions[p.versions.length - 1]? = some v) ∨
         (j ≠ oid.unstableIndex ∧ p.versions[j]? = some v))) ∨
      (k ≠ K ∧ k ≠ oid.poolKey ∧ alFind r.pools k = some q' ∧
        q'.versions[j]? = some v) := by
    intro k q' j v hfq hocc
    by_cases hkK : k = K
    · rw [hkK, hfN] at hfq
      have hq' : q' = npF := (Option.some.inj hfq).symm
      rw [hq', hnpFv] at hocc
      rcases getElem?_concat_some.mp hocc with ⟨hj, ho⟩ | ⟨hj, hveq⟩
      · exact Or.inr (Or.inl ⟨hkK, holdK j v ho, ho⟩)
      · exact Or.inl ⟨hkK, hj, hveq⟩
    · by_cases hk0 : k = oid.poolKey
      · rw [hk0, hfO] at hfq
        have hq' : q' = (p.removeEntity oid).2 := (Option.some.inj hfq).symm
        rw [hq', hverO] at hocc
        obtain ⟨hjlt, hcase2⟩ := swapPop_some_iff.mp hocc
        exact Or.inr (Or.inr (Or.inl ⟨hk0, hjlt, hcase2⟩))
      · rw [hothers k hkK hk0] at hfq
        exact Or.inr (Or.inr (Or.inr ⟨hkK, hk0, hfq, hocc⟩))
  refine ⟨⟨?_, ?_, ?_⟩, ?_, ?_, ?_, ?_⟩
  · -- keyVer
    intro v e hf
    rw [hremap] at hf
    rcases alFind_alUpdate_some.mp hf with ⟨hveq, he⟩ | ⟨hvne, hf'⟩
    · rw [he, hveq]
    · rcases remap_after_remove hvalid p.poolKey r.entityRemappings with
        ⟨h1, sv, hsv, heq⟩ | ⟨h1, heq⟩
      · rw [heq] at hf'
        rcases alFind_alUpdate_some.mp hf' with ⟨hveq2, he2⟩ | ⟨hvne2, hf''⟩
        · rw [he2, hveq2]
        · exact hkv v e hf''
      · rw [heq] at hf'
        exact hkv v e hf'
  · -- truth
    intro v e hf k j q hfq hocc
    rw [hremap] at hf
    rcases alFind_alUpdate_some.mp hf with ⟨hveq, he⟩ | ⟨hvne, hf'⟩
    · -- the moved entity's own entry
      rcases hchar k q j v hfq hocc with ⟨hk, hj, hveq2⟩ | ⟨hk, hfK, ho⟩ |
        ⟨hk, hjlt, ⟨hj, hvv⟩ | ⟨hj, hvv⟩⟩ | ⟨hkK, hk0, hfq', hocc'⟩
      · rw [he]
        refine ⟨hk, ?_⟩
        rw [hj]
        exact hnplen.symm
      · exfalso
        rw [hveq] at ho
        have huu := huq oid.version K j np oid.poolKey oid.unstableIndex p hfK ho
          hfindP hoccO
        exact hne huu.1.symm
      · exfalso
        rw [hveq] at hvv
        have huu := huq oid.version oid.poolKey (p.versions.length - 1) p oid.poolKey
          oid.unstableIndex p hfindP hvv hfindP hoccO
        omega
      · exfalso
        rw [hveq] at hvv
        have huu := huq oid.version oid.poolKey j p oid.poolKey oid.unstableIndex p
          hfindP hvv hfindP hoccO
        exact hj huu.2
      · exfalso
        rw [hveq] at hocc'
        have huu := huq oid.version k j q oid.poolKey oid.unstableIndex p hfq' hocc'
          hfindP hoccO
        exact hk0 huu.1
    · rcases remap_after_remove hvalid p.poolKey r.entityRemappings with
        ⟨h1, sv, hsv, heq⟩ | ⟨h1, heq⟩
      · rw [heq] at hf'
        rcases alFind_alUpdate_some.mp hf' with ⟨hveq2, he2⟩ | ⟨hvne2, hf''⟩
        · -- the swapped-in survivor's entry
          rcases hchar k q j v hfq hocc with ⟨hk, hj, hveq3⟩ | ⟨hk, hfK, ho⟩ |
            ⟨hk, hjlt, ⟨hj, hvv⟩ | ⟨hj, hvv⟩⟩ | ⟨hkK, hk0, hfq', hocc'⟩
          · exact absurd hveq3 hvne
          · exfalso
            rw [hveq2] at ho
            have huu := huq sv K j np oid.poolKey (p.versions.length - 1) p hfK ho
              hfindP hsv
            exact hne huu.1.symm
          · rw [he2]
            exact ⟨hk.trans hpoolkey.symm, hj⟩
          · exfalso
            rw [hveq2] at hvv
            have huu := huq sv oid.poolKey j p oid.poolKey (p.versions.length - 1) p
              hfindP hvv hfindP hsv
            omega
          · exfalso
            rw [hveq2] at hocc'
            have huu := huq sv k j q oid.poolKey (p.versions.length - 1) p hfq' hocc'
              hfindP hsv
            exact hk0 huu.1
        · -- an untouched entry
          rcases hchar k q j v hfq hocc with ⟨hk, hj, hveq3⟩ | ⟨hk, hfK, ho⟩ |
            ⟨hk, hjlt, ⟨hj, hvv⟩ | ⟨hj, hvv⟩⟩ | ⟨hkK, hk0, hfq', hocc'⟩
          · exact absurd hveq3 hvne
          · exact htr v e hf'' k j np (hk ▸ hfK) ho
          · exfalso
            rw [hsv] at hvv
            exact hvne2 (Option.some.inj hvv).symm
          · exact htr v e hf'' k j p (hk ▸ hfindP) hvv
          · exact htr v e hf'' k j q hfq' hocc'
      · rw [heq] at hf'
        rcases hchar k q j v hfq hocc with ⟨hk, hj, hveq3⟩ | ⟨hk, hfK, ho⟩ |
          ⟨hk, hjlt, -⟩ | ⟨hkK, hk0, hfq', hocc'⟩
        · exact absurd hveq3 hvne
        · exact htr v e hf' k j np (hk ▸ hfK) ho
        · exfalso
          omega
        · exact htr v e hf' k j q hfq' hocc'
  · -- remapBound
    intro v e hf
    rw [hremap] at hf
    rw [hnext]
    rcases alFind_alUpdate_some.mp hf with ⟨hveq, he⟩ | ⟨hvne, hf'⟩
    · rw [hveq]
      exact hvb oid.poolKey p hfindP oid.unstableIndex oid.version hoccO
    · rcases remap_after_remove hvalid p.poolKey r.entityRemappings with
        ⟨h1, sv, hsv, heq⟩ | ⟨h1, heq⟩
      · rw [heq] at hf'
        rcases alFind_alUpdate_some.mp hf' with ⟨hveq2, he2⟩ | ⟨hvne2, hf''⟩
        · rw [hveq2]
          exact hvb oid.poolKey p hfindP (p.versions.length - 1) sv hsv
        · exact hb v e hf''
      · rw [heq] at hf'
        exact hb v e hf'
  · -- uniq
    intro v k1 j1 q1 k2 j2 q2 h1 ho1 h2 ho2
    rcases hchar k1 q1 j1 v h1 ho1 with ⟨hk1, hj1, hv1⟩ | ⟨hk1, hfK1, ho1'⟩ |
      ⟨hk1, hl1, ⟨hj1, hv1⟩ | ⟨hj1, hv1⟩⟩ | ⟨hkK1, hk01, hf1, ho1'⟩
    · rcases hchar k2 q2 j2 v h2 ho2 with ⟨hk2, hj2, hv2⟩ | ⟨hk2, hfK2, ho2'⟩ |
        ⟨hk2, hl2, ⟨hj2, hv2⟩ | ⟨hj2, hv2⟩⟩ | ⟨hkK2, hk02, hf2, ho2'⟩
      · exact ⟨hk1.trans hk2.symm, hj1.trans hj2.symm⟩
      · exfalso
        rw [hv1] at ho2'
        have huu := huq oid.version K j2 np oid.poolKey oid.unstableIndex p hfK2 ho2'
          hfindP hoccO
        exact hne huu.1.symm
      · exfalso
        rw [hv1] at hv2
        have huu := huq oid.version oid.poolKey (p.versions.length - 1) p oid.poolKey
          oid.unstableIndex p hfindP hv2 hfindP hoccO
        omega
      · exfalso
        rw [hv1] at hv2
        have huu := huq oid.version oid.poolKey j2 p oid.poolKey oid.unstableIndex p
          hfindP hv2 hfindP hoccO
        exact hj2 huu.2
      · exfalso
        rw [hv1] at ho2'
        have huu := huq oid.version k2 j2 q2 oid.poolKey oid.unstableIndex p hf2 ho2'
          hfindP hoccO
        exact hk02 huu.1
    · rcases hchar k2 q2 j2 v h2 ho2 with ⟨hk2, hj2, hv2⟩ | ⟨hk2, hfK2, ho2'⟩ |
        ⟨hk2, hl2, ⟨hj2, hv2⟩ | ⟨hj2, hv2⟩⟩ | ⟨hkK2, hk02, hf2, ho2'⟩
      · exfalso
        rw [hv2] at ho1'
        have huu := huq oid.version K j1 np oid.poolKey oid.unstableIndex p hfK1 ho1'
          hfindP hoccO
        exact hne huu.1.symm
      · have huu := huq v K j1 np K j2 np hfK1 ho1' hfK2 ho2'
        exact ⟨hk1.trans hk2.symm, huu.2⟩
      · exfalso
        have huu := huq v K j1 np oid.poolKey (p.versions.length - 1) p hfK1 ho1'
          hfindP hv2
        exact hne huu.1.symm
      · exfalso
        have huu := huq v K j1 np oid.poolKey j2 p hfK1 ho1' hfindP hv2
        exact hne huu.1.symm
      · exfalso
        have huu := huq v k2 j2 q2 K j1 np hf2 ho2' hfK1 ho1'
        exact hkK2 huu.1
    · rcases hchar k2 q2 j2 v h2 ho2 with ⟨hk2, hj2, hv2⟩ | ⟨hk2, hfK2, ho2'⟩ |
        ⟨hk2, hl2, ⟨hj2, hv2⟩ | ⟨hj2, hv2⟩⟩ | ⟨hkK2, hk02, hf2, ho2'⟩
      · exfalso
        rw [hv2] at hv1
        have huu := huq oid.version oid.poolKey (p.versions.length - 1) p oid.poolKey
          oid.unstableIndex p hfindP hv1 hfindP hoccO
        omega
      · exfalso
        have huu := huq v K j2 np oid.poolKey (p.versions.length - 1) p hfK2 ho2'
          hfindP hv1
        exact hne huu.1.symm
      · exact ⟨hk1.trans hk2.symm, hj1.trans hj2.symm⟩
      · exfalso
        have huu := huq v oid.poolKey j2 p oid.poolKey (p.versions.length - 1) p
          hfindP hv2 hfindP hv1
        omega
      · exfalso
        have huu := huq v k2 j2 q2 oid.poolKey (p.versions.length - 1) p hf2 ho2'
          hfindP hv1
        exact hk02 huu.1
    · rcases hchar k2 q2 j2 v h2 ho2 with ⟨hk2, hj2, hv2⟩ | ⟨hk2, hfK2, ho2'⟩ |
        ⟨hk2, hl2, ⟨hj2, hv2⟩ | ⟨hj2, hv2⟩⟩ | ⟨hkK2, hk02, hf2, ho2'⟩
      · exfalso
        rw [hv2] at hv1
        have huu := huq oid.version oid.poolKey j1 p oid.poolKey oid.unstableIndex p
          hfindP hv1 hfindP hoccO
        exact hj1 huu.2
      · exfalso
        have huu := huq v K j2 np oid.poolKey j1 p hfK2 ho2' hfindP hv1
        exact hne huu.1.symm
      · exfalso
        have huu := huq v oid.poolKey j1 p oid.poolKey (p.versions.length - 1) p
          hfindP hv1 hfindP hv2
        omega
      · have huu := huq v oid.poolKey j1 p oid.poolKey j2 p hfindP hv1 hfindP hv2
        exact ⟨hk1.trans hk2.symm, huu.2⟩
      · exfalso
        have huu := huq v k2 j2 q2 oid.poolKey j1 p hf2 ho2' hfindP hv1
        exact hk02 huu.1
    · rcases hchar k2 q2 j2 v h2 ho2 with ⟨hk2, hj2, hv2⟩ | ⟨hk2, hfK2, ho2'⟩ |
        ⟨hk2, hl2, ⟨hj2, hv2⟩ | ⟨hj2, hv2⟩⟩ | ⟨hkK2, hk02, hf2, ho2'⟩
      · exfalso
        rw [hv2] at ho1'
        have huu := huq oid.version k1 j1 q1 oid.poolKey oid.unstableIndex p hf1 ho1'
          hfindP hoccO
        exact hk01 huu.1
      · exfalso
        have huu := huq v k1 j1 q1 K j2 np hf1 ho1' hfK2 ho2'
        exact hkK1 huu.1
      · exfalso
        have huu := huq v k1 j1 q1 oid.poolKey (p.versions.length - 1) p hf1 ho1'
          hfindP hv2
        exact hk01 huu.1
      · exfalso
        have huu := huq v k1 j1 q1 oid.poolKey j2 p hf1 ho1' hfindP hv2
        exact hk01 huu.1
      · exact huq v k1 j1 q1 k2 j2 q2 hf1 ho1' hf2 ho2'
  · -- verBound
    intro k q hq j v hocc
    rw [hnext]
    rcases hchar k q j v hq hocc with ⟨hk, hj, hveq⟩ | ⟨hk, hfK, ho⟩ |
      ⟨hk, hjlt, ⟨hj, hvv⟩ | ⟨hj, hvv⟩⟩ | ⟨hkK, hk0, hfq', hocc'⟩
    · rw [hveq]
      exact hvb oid.poolKey p hfindP oid.unstableIndex oid.version hoccO
    · exact hvb K np hfK j v ho
    · exact hvb oid.poolKey p hfindP (p.versions.length - 1) v hvv
    · exact hvb oid.poolKey p hfindP j v hvv
    · exact hvb k q hfq' j v hocc'
  · -- poolLen
    intro k q hq
    by_cases hkK : k = K
    · rw [hkK, hfN] at hq
      have hq' : q = npF := (Option.some.inj hq).symm
      rw [hq', hnpFv, hnpFz, List.length_append, List.length_singleton]
      omega
    · by_cases hk0 : k = oid.poolKey
      · rw [hk0, hfO] at hq
        have hq' : q = (p.removeEntity oid).2 := (Option.some.inj hq).symm
        rw [hq', hverO, swapPop_length, hre]
        show p.versions.length - 1 = p.poolSize - 1
        omega
      · rw [hothers k hkK hk0] at hq
        exact hlen k q hq
  · -- poolKeyEq
    intro k q hq
    by_cases hkK : k = K
    · rw [hkK, hfN] at hq
      have hq' : q = npF := (Option.some.inj hq).symm
      rw [hq', hnpFk, hnpk, hkK]
    · by_cases hk0 : k = oid.poolKey
      · rw [hk0, hfO] at hq
        have hq' : q = (p.removeEntity oid).2 := (Option.some.inj hq).symm
        rw [hq', hre, hk0]
        show p.poolKey = oid.poolKey
        exact hpoolkey
      · rw [hothers k hkK hk0] at hq
        exact hpk k q hq

/-- `Registry::addComponent` preserves the invariant (absent a fingerprint
collision between the source and destination pools). -/
theorem inv_addComponent {α : Type} [Inhabited α] {r : Registry α} {id mid : EntityId}
    {c : Nat} {v : α} {r' : Registry α} (hInv : Inv r)
    (hok : r.addComponent id c v = .ok (mid, r'))
    (hcol : ∀ p : ComponentPool α, (r.resolveEntityId id).pool = some p →
      p.hasComponent c = false →
      (r.resolveEntityId id).entityId.poolKey ≠
        combineHashes (p.componentHashes ++ [typeHash c])) :
    Inv r' := by
  have hIter : r.isIterating = false := by
    by_cases h : r.isIterating = true
    · unfold Registry.addComponent at hok
      rw [if_pos h] at hok
      cases hok
    · simpa using h
  rcases hres : (r.resolveEntityId id).pool with _ | pool
  · unfold Registry.addComponent at hok
    simp only [if_neg (fun h => Bool.false_ne_true (hIter.symm.trans h)), hres] at hok
    have hr' : r' = _ := (congrArg Prod.snd (Except.ok.inj hok)).symm
    rw [hr']
    exact inv_resolveUpdate hInv id
  · by_cases habs : pool.hasComponent c = true
    · unfold Registry.addComponent at hok
      simp only [if_neg (fun h => Bool.false_ne_true (hIter.symm.trans h)), hres, habs,
        if_true] at hok
      have hr' : r' = _ := (congrArg Prod.snd (Except.ok.inj hok)).symm
      rw [hr']
      obtain ⟨hfind, -, -, -⟩ := resolveEntityId_ok hres
      exact inv_shape (inv_resolveUpdate hInv id)
        (shapePreserved_alUpdate hfind ⟨rfl, rfl, rfl⟩) rfl rfl
    · simp only [Bool.not_eq_true] at habs
      obtain ⟨hfind, hvalid, hdead, hrm⟩ := resolveEntityId_ok hres
      have hne := hcol pool hres habs
      rcases hfnew : alFind r.pools (combineHashes (pool.componentHashes ++ [typeHash c]))
        with _ | np
      · obtain ⟨r1, npF, opF, haddEq, hfN, hszN, hverN, hfO, hszO, hothers, hresolve,
          hvslot, huniq2, hpop, hcolC, hcolCi, hIterEq, hopF, hnpF, hnext2, hremap2⟩ :=
          addComponent_relocates (v := v) hIter hres rfl habs rfl hne
            (Or.inr ⟨hfnew, rfl, rfl⟩) rfl
        rw [haddEq] at hok
        have hr' : r' = _ := (congrArg Prod.snd (Except.ok.inj hok)).symm
        rw [hr']
        refine inv_transfer hInv hfind hvalid hne (Or.inr ⟨hfnew, rfl, rfl, rfl⟩)
          hnext2 hfN hverN hszN ?_ (hopF ▸ hfO) hothers hremap2
        rw [hnpF]
        exact (populatedDest_fields c pool (r.resolveEntityId id).entityId.unstableIndex
          _ (r.resolveEntityId id).entityId.version).2.2.2.2.2
      · have hlenNp : np.poolSize = np.versions.length :=
          (hInv.2.2.2.1 (combineHashes (pool.componentHashes ++ [typeHash c])) np
            hfnew).symm
        obtain ⟨r1, npF, opF, haddEq, hfN, hszN, hverN, hfO, hszO, hothers, hresolve,
          hvslot, huniq2, hpop, hcolC, hcolCi, hIterEq, hopF, hnpF, hnext2, hremap2⟩ :=
          addComponent_relocates (v := v) hIter hres rfl habs rfl hne
            (Or.inl ⟨hfnew, rfl⟩) hlenNp
        rw [haddEq] at hok
        have hr' : r' = _ := (congrArg Prod.snd (Except.ok.inj hok)).symm
        rw [hr']
        refine inv_transfer hInv hfind hvalid hne (Or.inl hfnew)
          hnext2 hfN hverN hszN ?_ (hopF ▸ hfO) hothers hremap2
        rw [hnpF]
        exact (populatedDest_fields c pool (r.resolveEntityId id).entityId.unstableIndex
          _ (r.resolveEntityId id).entityId.version).2.2.2.2.2

/-- `Registry::removeComponent` preserves the invariant (absent a fingerprint
collision between the source and destination pools). -/
theorem inv_removeComponent {α : Type} [Inhabited α] {r : Registry α} {id mid : EntityId}
    {c : Nat} {r' : Registry α} (hInv : Inv r)
    (hok : r.removeComponent id c = .ok (mid, r'))
    (hcol : ∀ p : ComponentPool α, (r.resolveEntityId id).pool = some p →
      p.hasComponent c = true →
      (r.resolveEntityId id).entityId.poolKey ≠
        combineHashes (p.componentHashes.filter (fun h => h ≠ typeHash c))) :
    Inv r' := by
  have hIter : r.isIterating = false := by
    by_cases h : r.isIterating = true
    · unfold Registry.removeComponent at hok
      rw [if_pos h] at hok
      cases hok
    · simpa using h
  rcases hres : (r.resolveEntityId id).pool with _ | pool
  · unfold Registry.removeComponent at hok
    simp only [if_neg (fun h => Bool.false_ne_true (hIter.symm.trans h)), hres] at hok
    have hr' : r' = _ := (congrArg Prod.snd (Except.ok.inj hok)).symm
    rw [hr']
    exact inv_resolveUpdate hInv id
  · by_cases hpres : pool.hasComponent c = true
    · obtain ⟨hfind, hvalid, hdead, hrm⟩ := resolveEntityId_ok hres
      have hne := hcol pool hres hpres
      rcases hfnew : alFind r.pools
          (combineHashes (pool.componentHashes.filter (fun h => h ≠ typeHash c)))
        with _ | np
      · obtain ⟨r1, npF, opF, hremEq, hfN, hszN, hverN, hfO, hszO, hothers, hresolve,
          hvslot, huniq2, hpop, hcolCi, hIterEq, hopF, hnpF, hnext2, hremap2⟩ :=
          removeComponent_relocates hIter hres rfl hpres rfl hne
            (Or.inr ⟨hfnew, rfl, rfl⟩) rfl
        rw [hremEq] at hok
        have hr' : r' = _ := (congrArg Prod.snd (Except.ok.inj hok)).symm
        rw [hr']
        refine inv_transfer hInv hfind hvalid hne (Or.inr ⟨hfnew, rfl, rfl, rfl⟩)
          hnext2 hfN hverN hszN ?_ (hopF ▸ hfO) hothers hremap2
        rw [hnpF]
        exact (populatedDest_fields c pool (r.resolveEntityId id).entityId.unstableIndex
          _ (r.resolveEntityId id).entityId.version).2.2.2.2.2
      · have hlenNp : np.poolSize = np.versions.length :=
          (hInv.2.2.2.1
            (combineHashes (pool.componentHashes.filter (fun h => h ≠ typeHash c))) np
            hfnew).symm
        obtain ⟨r1, npF, opF, hremEq, hfN, hszN, hverN, hfO, hszO, hothers, hresolve,
          hvslot, huniq2, hpop, hcolCi, hIterEq, hopF, hnpF, hnext2, hremap2⟩ :=
          removeComponent_relocates hIter hres rfl hpres rfl hne
            (Or.inl ⟨hfnew, rfl⟩) hlenNp
        rw [hremEq] at hok
        have hr' : r' = _ := (congrArg Prod.snd (Except.ok.inj hok)).symm
        rw [hr']
        refine inv_transfer hInv hfind hvalid hne (Or.inl hfnew)
          hnext2 hfN hverN hszN ?_ (hopF ▸ hfO) hothers hremap2
        rw [hnpF]
        exact (populatedDest_fields c pool (r.resolveEntityId id).entityId.unstableIndex
          _ (r.resolveEntityId id).entityId.version).2.2.2.2.2
    · unfold Registry.removeComponent at hok
      simp only [if_neg (fun h => Bool.false_ne_true (hIter.symm.trans h)), hres,
        hpres] at hok
      have hr' : r' = _ := (congrArg Prod.snd (Except.ok.inj hok)).symm
      rw [hr']
      exact inv_resolveUpdate hInv id

/-! ### Reachable registry states -/

/-- Registry states reachable from a fresh registry through the public API.
The `addComp`/`removeComp` steps carry the no-fingerprint-collision side
condition (distinct component sets hash to distinct pool keys, as the code
assumes), and `eachPool` restricts the callback to value-level edits (the
C++ contract: the callback must not resize pools or touch versions). -/
inductive Reachable {α : Type} [Inhabited α] : Registry α → Prop where
  | init (n : Nat) : Reachable { numComponents := n }
  | create {r r' : Registry α} {cs : List (Nat × α)} {eid : EntityId} :
      Reachable r → r.createEntity cs = .ok (eid, r') → Reachable r'
  | remove {r r' : Registry α} {id eid : EntityId} :
      Reachable r → r.removeEntity id = .ok (eid, r') → Reachable r'
  | addComp {r r' : Registry α} {id mid : EntityId} {c : Nat} {v : α} :
      Reachable r → r.addComponent id c v = .ok (mid, r') →
      (∀ p : ComponentPool α, (r.resolveEntityId id).pool = some p →
        p.hasComponent c = false →
        (r.resolveEntityId id).entityId.poolKey ≠
          combineHashes (p.componentHashes ++ [typeHash c])) →
      Reachable r'
  | removeComp {r r' : Registry α} {id mid : EntityId} {c : Nat} :
      Reachable r → r.removeComponent id c = .ok (mid, r') →
      (∀ p : ComponentPool α, (r.resolveEntityId id).pool = some p →
        p.hasComponent c = true →
        (r.resolveEntityId id).entityId.poolKey ≠
          combineHashes (p.componentHashes.filter (fun h => h ≠ typeHash c))) →
      Reachable r'
  | getOp {r : Registry α} (id : EntityId) (c : Nat) :
      Reachable r → Reachable (r.get id c).2.2
  | setOp {r : Registry α} (id : EntityId) (c : Nat) (v : α) :
      Reachable r → Reachable (r.set id c v).2
  | eachPool {r : Registry α} (cb : ComponentPool α → ComponentPool α) :
      Reachable r → (∀ q, sameShape (cb q) q) → Reachable (r.forEachPool cb)
  | eachComponents {r : Registry α} (cs : List Nat) (cb : EntityId → List α → List α) :
      Reachable r → Reachable (r.forEachComponents cs cb)
  | eachComponentsER {r : Registry α} (cs : List Nat)
      (cb : EntityId → List α → List α × Bool) :
      Reachable r → Reachable (r.forEachComponentsEarlyReturn cs cb)
  | eachEntity {β : Type} {r : Registry α} (cb : EntityId → β → β) (acc : β) :
      Reachable r → Reachable (r.forEachEntity cb acc).1

theorem inv_init (α : Type) (n : Nat) : Inv ({ numComponents := n } : Registry α) := by
  refine ⟨⟨?_, ?_, ?_⟩, ?_, ?_, ?_, ?_⟩
  · intro v e hf; simp [alFind] at hf
  · intro v e hf; simp [alFind] at hf
  · intro v e hf; simp [alFind] at hf
  · intro v k1 j1 q1 k2 j2 q2 h1; simp [alFind] at h1
  · intro k q hq; simp [alFind] at hq
  · intro k q hq; simp [alFind] at hq
  · intro k q hq; simp [alFind] at hq

/-- Every reachable registry satisfies the invariant. -/
theorem reachable_inv {α : Type} [Inhabited α] {r : Registry α} (h : Reachable r) :
    Inv r := by
  induction h with
  | init n => exact inv_init α n
  | create hr hok ih => exact inv_createEntity ih hok
  | remove hr hok ih => exact inv_removeEntity ih hok
  | addComp hr hok hcol ih => exact inv_addComponent ih hok hcol
  | removeComp hr hok hcol ih => exact inv_removeComponent ih hok hcol
  | getOp id c hr ih => exact inv_get ih id c
  | setOp id c v hr ih => exact inv_set ih id c v
  | eachPool cb hr hcb ih => exact inv_forEachPool ih cb hcb
  | eachComponents cs cb hr ih => exact inv_forEachComponents ih cs cb
  | eachComponentsER cs cb hr ih => exact inv_forEachComponentsEarlyReturn ih cs cb
  | eachEntity cb acc hr ih => exact inv_forEachEntity ih cb acc

/-- C2: in every registry state reachable by any sequence of `createEntity`,
`removeEntity`, `addComponent`, `removeComponent`, `get`, `set` and the four
iteration entry points (the relocating steps taken without a fingerprint
collision, pool-iteration callbacks keeping pool shapes), every remap-table
entry whose version is still live points at that entity's current pool and
slot — the pool found at the entry's `poolKey` stores the entry's version at
the entry's `unstableIndex` — and consequently a successful `resolveEntityId`
follows at most one remap entry: chains of length > 1 cannot form, because
every entry's version equals its key, so a second lookup would find the same
entry and dead-end. -/
theorem claim_C2_remap_invariant :
    ∀ (α : Type) [Inhabited α] (r : Registry α), Reachable r →
      (∀ (v : Nat) (e : EntityId), alFind r.entityRemappings v = some e →
        ∀ (k j : Nat) (q : ComponentPool α), alFind r.pools k = some q →
          q.versions[j]? = some v →
          k = e.poolKey ∧ j = e.unstableIndex ∧
          alFind r.pools e.poolKey = some q ∧
          q.versions[e.unstableIndex]? = some v) ∧
      (∀ (id : EntityId) (q : ComponentPool α),
        (r.resolveEntityId id).pool = some q →
        (r.resolveEntityId id).hops ≤ 1) := by
  intro α instA r hreach
  obtain ⟨⟨hkv, htr, hb⟩, -⟩ := reachable_inv hreach
  constructor
  · intro v e hf k j q hq hocc
    obtain ⟨hk, hj⟩ := htr v e hf k j q hq hocc
    refine ⟨hk, hj, ?_, ?_⟩
    · rw [← hk]; exact hq
    · rw [← hj]; exact hocc
  · intro id q h
    exact resolveGo_hops_le_one hkv _ id q h

/-- The registry reached from a fresh three-type registry by one
`createEntity []` call. -/
def regC2 : Registry Nat :=
  { numComponents := 3,
    pools := [(0, { components := List.replicate 3 [],
                    componentsInUseBitmask := List.replicate 3 false,
                    componentsInUseIndices := [], componentHashes := [],
                    versions := [0], poolSize := 1, poolKey := 0 })],
    entityRemappings := [],
    nextVersionIndex := 1,
    isIterating := false }

/-- Concrete use of C2 on a registry reached by an actual operation sequence. -/
theorem claim_C2_witness :
    Reachable regC2 ∧
    ((∀ (v : Nat) (e : EntityId), alFind regC2.entityRemappings v = some e →
        ∀ (k j : Nat) (q : ComponentPool Nat), alFind regC2.pools k = some q →
          q.versions[j]? = some v →
          k = e.poolKey ∧ j = e.unstableIndex ∧
          alFind regC2.pools e.poolKey = some q ∧
          q.versions[e.unstableIndex]? = some v) ∧
      (∀ (id : EntityId) (q : ComponentPool Nat),
        (regC2.resolveEntityId id).pool = some q →
        (regC2.resolveEntityId id).hops ≤ 1)) :=
  ⟨@Reachable.create Nat _ { numComponents := 3 } regC2 [] ⟨0, 0, 0, false⟩
      (Reachable.init 3) rfl,
   claim_C2_remap_invariant Nat regC2
     (@Reachable.create Nat _ { numComponents := 3 } regC2 [] ⟨0, 0, 0, false⟩
       (Reachable.init 3) rfl)⟩

end AnthropicECS
